import Mathlib

/-!
# Verification of the `diff` package (Myers LCS diff)

Shallow embedding of the Go package `diff`: the Myers O(ND) shortest edit
script search (`Diff`, source lines 33-66), its recursive backtrace
(`common`, lines 68-89), and the two consumers `SideBySide` (lines 101-147)
and `Annotate` (lines 160-183).

## Embedding notes

The Go implementation stores, for every search depth `d`, an array `v` of
furthest-reaching x-coordinates indexed by `K = len(v)/2 + k` for diagonal
`k = x - y`.  Depth `d`'s array is a copy of depth `d-1`'s array in which
the entries for the diagonals `k ∈ {-d, -d+2, ..., d}` (all of parity
`d mod 2`) are overwritten in increasing `k` order.  Every read the sweep
performs (`v[K-1]`, `v[K+1]` at lines 46-49) is at a diagonal of parity
`(d-1) mod 2`, which the current sweep never writes, so each read returns
the value computed at depth `d-1` (or `0`, the zero initialisation of the
fresh array, when `d = 0`: only `v[K+1]` on diagonal `1` is read there).
The embedding therefore represents the depth-`d` array as the function
`fr d : Int → Nat` (`fr d k` = the value the sweep at depth `d` stores at
`v[len(v)/2 + k]`), and the values visible to the sweep at depth `d` as
`prevRow d : Int → Nat` (`prevRow 0 = 0` everywhere, `prevRow (d+1) = fr d`).
The arrays have length `2*(n+m)+3`, and every index the algorithm touches
for `d ≤ n+m` is in bounds, so the finite extent of the Go slice is not
modelled.  Machine integers are modelled as `Int`/`Nat`: all quantities are
far below overflow for any input a Go slice can represent.

The backtrace `common(data, vs, x1, y1, d)` reads `vs[d]` only at the
diagonals `k-1`, `k+1` of parity `(d-1) mod 2` (lines 74-81), i.e. exactly
`prevRow d`.  (At the termination depth the Go code appends a partially
swept array, but its entries of parity `d mod 2` are never read by
`common`, so the partial sweep is unobservable.)  The protocol's `Equal`
is modelled as a total function `E : Int → Int → Bool`; the concrete Go
implementations index slices and are only defined on `0 ≤ i < n`,
`0 ≤ j < m`, and we prove (claim C10) that `Diff` only queries `Equal` in
that range, so the values of `E` outside it are irrelevant.
-/

namespace DiffGo

/-! ## The forward search (source lines 33-66) -/

section Core

variable (n m : Nat) (E : Int → Int → Bool)

/-- The "snake" loop, source lines 52-55, with an explicit iteration bound:
the loop body requires `x < n`, so it runs at most `n - x` times.  The
`fuel` argument makes the recursion structural (hence kernel-computable);
`snakeEnd` below instantiates it with the exact bound. -/
def snakeAux : Nat → Nat → Int → Nat
  | 0, x, _ => x
  | fuel + 1, x, y =>
    if x < n ∧ y < (m : Int) ∧ E x y then snakeAux fuel (x + 1) (y + 1) else x

/-- The "snake" loop, source lines 52-55: starting from `(x, y)`, greedily
advance both coordinates while `x < n && y < m && data.Equal(x, y)`;
returns the final `x` (the final `y` is `x - k` for the fixed diagonal). -/
def snakeEnd (x : Nat) (y : Int) : Nat := snakeAux n m E (n - x) x y

/-- The diagonal step of the sweep, source lines 46-50: choose the better of
the two neighbouring diagonals of the previous depth (`prev`), preferring a
deletion (`v[K-1] + 1`) on ties.  `prev k'` models `v[len(v)/2 + k']`, which
holds the depth `d-1` value on these diagonals. -/
def stepX (prev : Int → Nat) (d : Nat) (k : Int) : Nat :=
  if k = -(d : Int) ∨ (k ≠ (d : Int) ∧ prev (k - 1) < prev (k + 1)) then
    prev (k + 1)
  else
    prev (k - 1) + 1

/-- One diagonal of the sweep at depth `d`: the step (lines 46-50) followed
by the snake (lines 52-55); the result is stored into `v[K]` (line 56). -/
def frStep (prev : Int → Nat) (d : Nat) (k : Int) : Nat :=
  snakeEnd n m E (stepX prev d k) ((stepX prev d k : Int) - k)

/-- `fr d k` is the furthest-reaching x-coordinate the algorithm stores for
diagonal `k` at depth `d` (the value of `v[len(v)/2+k]` after the sweep of
depth `d`, for the diagonals that sweep writes). -/
def fr : Nat → Int → Nat
  | 0 => frStep n m E (fun _ => 0) 0
  | d + 1 => frStep n m E (fr d) (d + 1)

/-- The values of the previous depth's array visible during the sweep at
depth `d` (and during the backtrace frame at depth `d`): the zero-filled
fresh array at depth `0`, and depth `d`'s results at depth `d+1`. -/
def prevRow : Nat → Int → Nat
  | 0 => fun _ => 0
  | d + 1 => fr n m E d

/-- The termination test of the inner loop, source line 57: does some
diagonal `k ∈ {-d, -d+2, ..., d}` reach `x ≥ n` and `y ≥ m` at depth `d`? -/
def found (d : Nat) : Bool :=
  (List.range (d + 1)).any fun i =>
    let k : Int := -(d : Int) + 2 * i
    decide ((n : Int) ≤ fr n m E d k ∧ (m : Int) ≤ (fr n m E d k : Int) - k)

/-- The outer loop of `Diff` (source line 36), searching depths `d, d+1, ...`
with `fuel` iterations remaining; `none` models the `panic` at line 65. -/
def searchFrom (d : Nat) : Nat → Option Nat
  | 0 => none
  | fuel + 1 => if found n m E d then some d else searchFrom (d + 1) fuel

/-- The value `Diff` returns: the first depth `d ∈ {0, ..., n+m}` at which
some diagonal reaches the end (source lines 36-61), or `none` for the
`panic("diff: no path found")` at line 65. -/
def DiffD : Option Nat := searchFrom n m E 0 (n + m + 1)

/-! ## The backtrace (source lines 68-89) -/

/-- One frame of `common` (source lines 70-82): from `(x1, y1)` at depth
`d`, recompute the step the forward sweep took into diagonal `k = x1 - y1`:
the end `(x, y)` of the depth `d-1` path, and the x-coordinate `xm` at which
the final snake of the depth-`d` path begins.  `common` reads `vs[d]` only
at diagonals `k±1`, whose entries are the depth `d-1` values `prevRow d`. -/
def frameX (d : Nat) (x1 y1 : Int) : Nat × Int × Nat :=
  let k := x1 - y1
  if k = -(d : Int) ∨ (k ≠ (d : Int) ∧ prevRow n m E d (k - 1) < prevRow n m E d (k + 1)) then
    (prevRow n m E d (k + 1), (prevRow n m E d (k + 1) : Int) - (k + 1), prevRow n m E d (k + 1))
  else
    (prevRow n m E d (k - 1), (prevRow n m E d (k - 1) : Int) - (k - 1), prevRow n m E d (k - 1) + 1)

/-- The list of `Common(i, j, n)` calls performed by `common(data, vs, x1, y1, d)`
(source lines 68-89), each tagged with the depth `d` of the recursion frame
that emitted it.  `D` is the fixed total depth `len(vs) - 1` of line 86's
comparison; a frame emits `(xm, y1 - n, n)` for `n = x1 - xm` iff `n > 0`
or `d = D` (lines 86-88), after its recursive call (lines 83-85). -/
def commonTraceT (D : Nat) : Nat → Int → Int → List (Nat × (Int × Int × Int))
  | 0, x1, y1 =>
    let c := frameX n m E 0 x1 y1
    if 0 < x1 - (c.2.2 : Int) ∨ 0 = D then
      [(0, ((c.2.2 : Int), y1 - (x1 - (c.2.2 : Int)), x1 - (c.2.2 : Int)))]
    else []
  | d + 1, x1, y1 =>
    let c := frameX n m E (d + 1) x1 y1
    commonTraceT D d (c.1 : Int) c.2.1 ++
      (if 0 < x1 - (c.2.2 : Int) ∨ d + 1 = D then
        [(d + 1, ((c.2.2 : Int), y1 - (x1 - (c.2.2 : Int)), x1 - (c.2.2 : Int)))]
      else [])

/-- The full sequence of `Common(i, j, n)` calls a run of `Diff` performs:
the backtrace is started at `common(data, vs, n, m, len(vs)-1)` (line 59). -/
def diffTrace : List (Int × Int × Int) :=
  match DiffD n m E with
  | some D => (commonTraceT n m E D D n m).map Prod.snd
  | none => []

/-! ## Instrumentation: the `Equal` calls of the forward search -/

/-- Fuelled version of `snakeCalls` (the loop runs at most `n - x` times). -/
def snakeCallsAux : Nat → Nat → Int → List (Int × Int)
  | 0, _, _ => []
  | fuel + 1, x, y =>
    if x < n ∧ y < (m : Int) then
      if E x y then ((x : Int), y) :: snakeCallsAux fuel (x + 1) (y + 1) else [((x : Int), y)]
    else []

/-- The arguments of the `data.Equal(x, y)` calls the snake loop (line 52)
performs when started at `(x, y)`: `Equal` is evaluated exactly when the
two bounds checks before it pass, and the loop continues on `true`. -/
def snakeCalls (x : Nat) (y : Int) : List (Int × Int) :=
  snakeCallsAux n m E (n - x) x y

/-- All arguments passed to the protocol's `Equal` during the forward search
up to depth `D` (the backtrace performs no `Equal` calls).  The sweep at the
termination depth may stop early, so the actual call list is a sublist of
this one; every actual call appears here. -/
def equalCalls (D : Nat) : List (Int × Int) :=
  (List.range (D + 1)).flatMap fun d =>
    (List.range (d + 1)).flatMap fun i =>
      snakeCalls n m E (stepX (prevRow n m E d) d (-(d : Int) + 2 * i))
        ((stepX (prevRow n m E d) d (-(d : Int) + 2 * i) : Int) - (-(d : Int) + 2 * i))

end Core

/-! ## The reference dynamic-programming LCS -/

section LCS

variable (E : Int → Int → Bool)

/-- Reference dynamic-programming longest-common-subsequence length:
`lcsLen E i j` is the LCS length of the length-`i` left prefix and the
length-`j` right prefix, for the element equality `E`. -/
def lcsLen : Nat → Nat → Nat
  | 0, _ => 0
  | _ + 1, 0 => 0
  | i + 1, j + 1 =>
    if E i j then lcsLen i j + 1
    else max (lcsLen (i + 1) j) (lcsLen i (j + 1))

end LCS

/-! ## The concrete protocol implementations -/

/-- Elementwise equality of two lists at (integer) indices `i`, `j`: the
total extension of the Go adapters' `Equal` (`d.a[i] == d.b[j]`, source
lines 116 and 175, and the test adapter), which is defined only for
in-range indices. -/
def eqAt {α : Type} [DecidableEq α] (a b : List α) (i j : Int) : Bool :=
  match a.get? i.toNat, b.get? j.toNat with
  | some u, some v => 0 ≤ i ∧ 0 ≤ j ∧ u = v
  | _, _ => false

/-- The slice `l[i : i+len]` of a Go slice (used by the adapters on the
reported common runs, with in-range bounds). -/
def sliceI {α : Type} (l : List α) (i len : Int) : List α :=
  (l.drop i.toNat).take len.toNat

/-! ## Side-by-side diff (source lines 91-147) -/

/-- `SideBySideLine` (source lines 94-98). `kind` is the Go `Type` field;
the Go constants are `NoChange = 0`, `Added = 1`, `Deleted = 2`,
`Changed = 3` (lines 6-11). -/
structure SideBySideLine where
  left : String
  right : String
  kind : Nat
deriving DecidableEq, Repr

def NoChange : Nat := 0
def Added : Nat := 1
def Deleted : Nat := 2
def Changed : Nat := 3

/-- Fuelled version of the gap loop of `sideBySide.Common`; each iteration
advances `d.i` or `d.j` towards `(i, j)`, so the loop runs at most
`(i - di) + (j - dj)` times. -/
def sbsGapAux (a b : List String) :
    Nat → Nat → Nat → Int → Int → List SideBySideLine × Nat × Nat
  | 0, di, dj, _, _ => ([], di, dj)
  | fuel + 1, di, dj, i, j =>
    if (di : Int) < i ∨ (dj : Int) < j then
      let kind := if ¬ ((di : Int) < i) then Added
        else if ¬ ((dj : Int) < j) then Deleted else Changed
      let left := if (di : Int) < i then a.getD di "" else ""
      let right := if (dj : Int) < j then b.getD dj "" else ""
      let di' := if (di : Int) < i then di + 1 else di
      let dj' := if (dj : Int) < j then dj + 1 else dj
      let rest := sbsGapAux a b fuel di' dj' i j
      (⟨left, right, kind⟩ :: rest.1, rest.2)
    else ([], di, dj)

/-- The gap loop of `sideBySide.Common` (source lines 118-137): starting
from aligned position `(di, dj)`, emit one classified line per unmatched
row until both sides reach the next run's start `(i, j)`; returns the
emitted lines and the new aligned position. -/
def sbsGap (a b : List String) (di dj : Nat) (i j : Int) :
    List SideBySideLine × Nat × Nat :=
  sbsGapAux a b ((i - di).toNat + (j - dj).toNat) di dj i j

/-- One `sideBySide.Common(i, j, n)` call (source lines 117-147): the gap
loop followed by `n` `NoChange` lines; the state is the aligned position
`(d.i, d.j)` and the accumulated lines. -/
def sbsCommon (a b : List String) (st : Nat × Nat × List SideBySideLine)
    (c : Int × Int × Int) : Nat × Nat × List SideBySideLine :=
  let g := sbsGap a b st.1 st.2.1 c.1 c.2.1
  let nc := (List.range c.2.2.toNat).map fun t =>
    SideBySideLine.mk (a.getD (g.2.1 + t) "") (b.getD (g.2.2 + t) "") NoChange
  (g.2.1 + c.2.2.toNat, g.2.2 + c.2.2.toNat, st.2.2 ++ g.1 ++ nc)

/-- `SideBySide a b` (source lines 101-105): run `Diff` on the string-list
protocol and collect the lines the `Common` callbacks build. -/
def SideBySide (a b : List String) : List SideBySideLine :=
  ((diffTrace a.length b.length (eqAt a b)).foldl (sbsCommon a b) (0, 0, [])).2.2

/-! ## Annotated diff (source lines 149-183) -/

/-- `AnnotatedLine` (source lines 152-155). -/
structure AnnotatedLine where
  text : String
  version : Int
deriving DecidableEq, Repr

/-- One `annotate.Common(i, j, n)` call (source lines 176-183): emit
`(b[dj], version)` for every right-side row in the gap `dj < j`, then copy
`a[i : i+n]` verbatim; the state is the cursor `d.j` and the output. -/
def annCommon (a : List AnnotatedLine) (b : List String) (version : Int)
    (st : Nat × List AnnotatedLine) (c : Int × Int × Int) : Nat × List AnnotatedLine :=
  let gap := (List.range (c.2.1 - (st.1 : Int)).toNat).map fun t =>
    AnnotatedLine.mk (b.getD (st.1 + t) "") version
  ((c.2.1 + c.2.2).toNat, st.2 ++ gap ++ sliceI a c.1 c.2.2)

/-- `Annotate a b version` (source lines 160-164): run `Diff` on the
annotate protocol (`Equal i j` is `a[i].Text == b[j]`, line 175) and
collect the annotated lines. -/
def Annotate (a : List AnnotatedLine) (b : List String) (version : Int) :
    List AnnotatedLine :=
  ((diffTrace a.length b.length (eqAt (a.map AnnotatedLine.text) b)).foldl
    (annCommon a b version) (0, [])).2

/-! ## Specification-side notions used to state the claims -/

/-- The diagonals `k ∈ {-d, -d+2, ..., d}` the sweep at depth `d` writes. -/
def ValidK (d : Nat) (k : Int) : Prop := k.natAbs ≤ d ∧ (k + d) % 2 = 0

/-- Reachability in the edit graph: `Reaches n m E x y d` holds iff there
is a path from `(0, 0)` to `(x, y)` consisting of horizontal steps
(deletions), vertical steps (insertions) — `d` of these in total — and
diagonal steps, each diagonal step `(x, y) → (x+1, y+1)` requiring
`x < n`, `y < m` and `E x y`.  `d` is the number of edits of the
corresponding edit script. -/
inductive Reaches (n m : Nat) (E : Int → Int → Bool) : Int → Int → Nat → Prop
  | refl : Reaches n m E 0 0 0
  | del {x y : Int} {d : Nat} : Reaches n m E x y d → Reaches n m E (x + 1) y (d + 1)
  | ins {x y : Int} {d : Nat} : Reaches n m E x y d → Reaches n m E x (y + 1) (d + 1)
  | diag {x y : Int} {d : Nat} : Reaches n m E x y d → x < (n : Int) → y < (m : Int) →
      E x y = true → Reaches n m E (x + 1) (y + 1) d

/-- The individual matched index pairs `(i + t, j + t)`, `t < len`, of all
common runs `(i, j, len)` reported by a run of `Diff`. -/
def matchedPairs (n m : Nat) (E : Int → Int → Bool) : List (Int × Int) :=
  (diffTrace n m E).flatMap fun c =>
    (List.range c.2.2.toNat).map fun (t : Nat) =>
      (c.1 + (t : Int), c.2.1 + (t : Int))

/-- The transposed equality predicate, i.e. the `Equal` of the protocol
obtained by exchanging the two sequences. -/
def swapE (E : Int → Int → Bool) : Int → Int → Bool := fun i j => E j i

/-- Reconstruction of the left sequence from a trace of common runs: for
each reported run `(i, j, len)`, emit the gap `a[cursor : i]` followed by
the run's slice `a[i : i+len]`; the cursor then advances to `i + len`. -/
def reconLeft {α : Type} (a : List α) (tr : List (Int × Int × Int)) : List α :=
  (tr.foldl (fun st c =>
    (st.1 ++ sliceI a st.2 (c.1 - st.2) ++ sliceI a c.1 c.2.2, c.1 + c.2.2))
    (([] : List α), (0 : Int))).1

/-- Reconstruction of the right sequence from a trace of common runs. -/
def reconRight {α : Type} (b : List α) (tr : List (Int × Int × Int)) : List α :=
  (tr.foldl (fun st c =>
    (st.1 ++ sliceI b st.2 (c.2.1 - st.2) ++ sliceI b c.2.1 c.2.2, c.2.1 + c.2.2))
    (([] : List α), (0 : Int))).1

/-! ## The documented harder regression case -/

/-- Left sequence of the documented regression case ("the harder case"). -/
def strA : List Char := "abcdefghijk".toList

/-- Right sequence of the documented regression case. -/
def strB : List Char := "abxyzcdxyzfgxyzj".toList

/-- The protocol equality of the regression case (lengths are 11 and 16). -/
def E2 : Int → Int → Bool := eqAt strA strB

/-! ## Lemmas about the snake loop -/

section SnakeLemmas

variable {n m : Nat} {E : Int → Int → Bool}

/-- Rewriting helper: transport an `E`-equation along arithmetic identities. -/
theorem ecast (E : Int → Int → Bool) {a a' b b' : Int} (h : E a b = true)
    (ha : a' = a) (hb : b' = b) : E a' b' = true := by rw [ha, hb]; exact h

theorem snakeAux_eq : ∀ (f : Nat) (x : Nat) (y : Int), n - x ≤ f →
    snakeAux n m E f x y = snakeEnd n m E x y := by
  intro f
  induction f with
  | zero =>
    intro x y hf
    rw [snakeAux, snakeEnd]
    obtain h0 : n - x = 0 := by omega
    rw [h0, snakeAux]
  | succ f ih =>
    intro x y hf
    rw [snakeEnd]
    rcases hnx : n - x with _ | g
    · have hxn : ¬ (x < n ∧ y < (m : Int) ∧ E x y = true) := by
        rintro ⟨h1, -⟩; omega
      simp only [snakeAux]
      rw [if_neg hxn]
    · simp only [snakeAux]
      split
      · next hc =>
        have hg : g = n - (x + 1) := by omega
        rw [ih (x + 1) (y + 1) (by omega), hg, snakeEnd]
      · rfl

theorem snakeEnd_unfold (x : Nat) (y : Int) :
    snakeEnd n m E x y =
      if x < n ∧ y < (m : Int) ∧ E x y then snakeEnd n m E (x + 1) (y + 1) else x := by
  rw [snakeEnd]
  rcases hnx : n - x with _ | g
  · have hxn : ¬ (x < n ∧ y < (m : Int) ∧ E x y = true) := by
      rintro ⟨h1, -⟩; omega
    rw [snakeAux, if_neg hxn]
  · rw [snakeAux]
    split
    · next hc => rw [snakeAux_eq g (x + 1) (y + 1) (by omega)]
    · rfl

theorem snakeEnd_ge : ∀ (x : Nat) (y : Int), x ≤ snakeEnd n m E x y := by
  have key : ∀ (f : Nat) (x : Nat) (y : Int), n - x ≤ f → x ≤ snakeEnd n m E x y := by
    intro f
    induction f with
    | zero =>
      intro x y hf
      rw [snakeEnd_unfold, if_neg]
      rintro ⟨h1, -⟩; omega
    | succ f ih =>
      intro x y hf
      rw [snakeEnd_unfold]
      split
      · next hc => exact le_trans (by omega) (ih (x + 1) (y + 1) (by omega))
      · exact le_rfl
  exact fun x y => key (n - x) x y le_rfl

theorem snake_spec (x : Nat) (y : Int) :
    ∀ t : Nat, x + t < snakeEnd n m E x y →
      (x + t < n ∧ y + (t : Int) < (m : Int) ∧ E ((x : Int) + t) (y + t) = true) := by
  intro t
  induction t generalizing x y with
  | zero =>
    intro ht
    rw [snakeEnd_unfold] at ht
    by_cases hc : x < n ∧ y < (m : Int) ∧ E x y = true
    · simpa using hc
    · rw [if_neg hc] at ht; omega
  | succ t ih =>
    intro ht
    rw [snakeEnd_unfold] at ht
    by_cases hc : x < n ∧ y < (m : Int) ∧ E x y = true
    · rw [if_pos hc] at ht
      have h3 := ih (x + 1) (y + 1) (by omega)
      refine ⟨by omega, ?_, ?_⟩
      · have := h3.2.1; push_cast at this ⊢; omega
      · exact ecast E h3.2.2 (by push_cast; ring) (by push_cast; ring)
    · rw [if_neg hc] at ht; omega

theorem snake_max : ∀ (w : Nat) (x : Nat) (y : Int) (z : Nat), z - x ≤ w → x ≤ z →
    (∀ t : Nat, x + t < z →
      (x + t < n ∧ y + (t : Int) < (m : Int) ∧ E ((x : Int) + t) (y + t) = true)) →
    z ≤ snakeEnd n m E x y := by
  intro w
  induction w with
  | zero =>
    intro x y z hw hx hall
    have hzx : z = x := by omega
    exact hzx ▸ snakeEnd_ge x y
  | succ w ih =>
    intro x y z hw hx hall
    by_cases hxz : x = z
    · exact hxz ▸ snakeEnd_ge x y
    · have h0 := hall 0 (by omega)
      have hcond : x < n ∧ y < (m : Int) ∧ E x y = true := by
        refine ⟨by omega, ?_, ?_⟩
        · have := h0.2.1; push_cast at this ⊢; omega
        · exact ecast E h0.2.2 (by push_cast; ring) (by push_cast; ring)
      rw [snakeEnd_unfold, if_pos hcond]
      refine ih (x + 1) (y + 1) z (by omega) (by omega) ?_
      intro t ht
      have h1 := hall (t + 1) (by omega)
      refine ⟨by omega, ?_, ?_⟩
      · have := h1.2.1; push_cast at this ⊢; omega
      · exact ecast E h1.2.2 (by push_cast; ring) (by push_cast; ring)

end SnakeLemmas

/-! ## Lemmas about edit-graph reachability -/

section ReachLemmas

variable {n m : Nat} {E : Int → Int → Bool}

theorem reaches_cast {x x' y y' : Int} {d d' : Nat} (h : Reaches n m E x y d)
    (hx : x' = x) (hy : y' = y) (hd : d' = d) : Reaches n m E x' y' d' := by
  subst hx; subst hy; subst hd; exact h

theorem Reaches.nonneg {x y : Int} {d : Nat} (h : Reaches n m E x y d) :
    0 ≤ x ∧ 0 ≤ y := by
  induction h with
  | refl => exact ⟨le_rfl, le_rfl⟩
  | del _ ih => omega
  | ins _ ih => omega
  | diag _ _ _ _ ih => omega

theorem Reaches.absdiff {x y : Int} {d : Nat} (h : Reaches n m E x y d) :
    (x - y).natAbs ≤ d := by
  induction h with
  | refl => simp
  | del _ ih => omega
  | ins _ ih => omega
  | diag _ _ _ _ ih => omega

theorem Reaches.dels {x y : Int} {d : Nat} (h : Reaches n m E x y d) :
    ∀ t : Nat, Reaches n m E (x + t) y (d + t) := by
  intro t
  induction t with
  | zero => exact reaches_cast h (by push_cast; ring) rfl rfl
  | succ t ih => exact reaches_cast ih.del (by push_cast; ring) rfl (by omega)

theorem Reaches.inss {x y : Int} {d : Nat} (h : Reaches n m E x y d) :
    ∀ t : Nat, Reaches n m E x (y + t) (d + t) := by
  intro t
  induction t with
  | zero => exact reaches_cast h rfl (by push_cast; ring) rfl
  | succ t ih => exact reaches_cast ih.ins rfl (by push_cast; ring) (by omega)

/-- A path with snake: extending a reached point along the snake stays
reachable with the same number of edits. -/
theorem reaches_snake {x : Nat} {y : Int} {d : Nat} (h : Reaches n m E x y d) :
    ∀ t : Nat, x + t ≤ snakeEnd n m E x y → Reaches n m E ((x : Int) + t) (y + t) d := by
  intro t
  induction t with
  | zero =>
    intro ht
    exact reaches_cast h (by push_cast; ring) (by push_cast; ring) rfl
  | succ t ih =>
    intro ht
    have ht' : x + t < snakeEnd n m E x y := by omega
    have hspec := snake_spec x y t ht'
    have hprev := ih (by omega)
    have hstep := hprev.diag (by exact_mod_cast hspec.1) hspec.2.1
      (ecast E hspec.2.2 rfl rfl)
    exact reaches_cast hstep (by push_cast; ring) (by push_cast; ring) rfl

/-- Every path yields a strictly increasing matching between the two
sequences, with `d + 2·(matching size) = x + y`. -/
theorem reaches_matching {x y : Int} {d : Nat} (h : Reaches n m E x y d) :
    ∃ p : List (Int × Int), List.Pairwise (fun u v => u.1 < v.1 ∧ u.2 < v.2) p ∧
      (∀ q ∈ p, 0 ≤ q.1 ∧ q.1 < x ∧ q.1 < (n : Int) ∧
        0 ≤ q.2 ∧ q.2 < y ∧ q.2 < (m : Int) ∧ E q.1 q.2 = true) ∧
      (d : Int) + 2 * p.length = x + y := by
  induction h with
  | refl => exact ⟨[], by simp, by simp, by simp⟩
  | del h ih =>
    obtain ⟨p, h1, h2, h3⟩ := ih
    refine ⟨p, h1, ?_, by push_cast at h3 ⊢; omega⟩
    intro q hq
    have h4 := h2 q hq
    exact ⟨h4.1, by omega, h4.2.2⟩
  | ins h ih =>
    obtain ⟨p, h1, h2, h3⟩ := ih
    refine ⟨p, h1, ?_, by push_cast at h3 ⊢; omega⟩
    intro q hq
    have h4 := h2 q hq
    exact ⟨h4.1, h4.2.1, h4.2.2.1, h4.2.2.2.1, by omega, h4.2.2.2.2.2⟩
  | @diag x y d h hx hy hE ih =>
    obtain ⟨p, h1, h2, h3⟩ := ih
    refine ⟨p ++ [(x, y)], ?_, ?_, by simp; push_cast at h3 ⊢; omega⟩
    · rw [List.pairwise_append]
      refine ⟨h1, by simp, ?_⟩
      intro u hu v hv
      rw [List.mem_singleton] at hv
      subst hv
      have h4 := h2 u hu
      exact ⟨h4.2.1, h4.2.2.2.2.1⟩
    · intro q hq
      rw [List.mem_append, List.mem_singleton] at hq
      rcases hq with hq | rfl
      · have h4 := h2 q hq
        refine ⟨h4.1, by omega, h4.2.2.1, h4.2.2.2.1, by omega, h4.2.2.2.2.2⟩
      · exact ⟨h.nonneg.1, by omega, hx, h.nonneg.2, by omega, hy, hE⟩

/-- Every strictly increasing matching ahead of a reached point can be
threaded through to `(n, m)`, with the expected number of edits. -/
theorem reaches_through :
    ∀ (p : List (Int × Int)), List.Pairwise (fun u v => u.1 < v.1 ∧ u.2 < v.2) p →
    ∀ (x y : Int) (d : Nat),
    (∀ q ∈ p, x ≤ q.1 ∧ y ≤ q.2 ∧ q.1 < (n : Int) ∧ q.2 < (m : Int) ∧ E q.1 q.2 = true) →
    Reaches n m E x y d → x ≤ (n : Int) → y ≤ (m : Int) →
    ∃ d' : Nat, Reaches n m E n m d' ∧
      (d' : Int) = d + ((n : Int) - x) + ((m : Int) - y) - 2 * p.length := by
  intro p
  induction p with
  | nil =>
    intro _ x y d _ hr hx hy
    refine ⟨d + ((n : Int) - x).toNat + ((m : Int) - y).toNat, ?_, by simp; omega⟩
    have h1 := hr.dels ((n : Int) - x).toNat
    have h2 : Reaches n m E n y (d + ((n : Int) - x).toNat) :=
      reaches_cast h1 (by push_cast; omega) rfl rfl
    exact reaches_cast (h2.inss (((m : Int) - y).toNat)) rfl (by push_cast; omega) rfl
  | cons q rest ih =>
    intro hpw x y d hmem hr hx hy
    obtain ⟨hxq, hyq, hqn, hqm, hqE⟩ := hmem q (List.mem_cons_self q rest)
    rw [List.pairwise_cons] at hpw
    have h1 := hr.dels (q.1 - x).toNat
    have h2 : Reaches n m E q.1 y (d + (q.1 - x).toNat) :=
      reaches_cast h1 (by push_cast; omega) rfl rfl
    have h3 : Reaches n m E q.1 q.2 (d + (q.1 - x).toNat + (q.2 - y).toNat) :=
      reaches_cast (h2.inss ((q.2 - y).toNat)) rfl (by push_cast; omega) rfl
    have h4 := h3.diag hqn hqm hqE
    have hrest : ∀ v ∈ rest, q.1 + 1 ≤ v.1 ∧ q.2 + 1 ≤ v.2 ∧ v.1 < (n : Int) ∧
        v.2 < (m : Int) ∧ E v.1 v.2 = true := by
      intro v hv
      have h5 := hmem v (List.mem_cons_of_mem q hv)
      have h6 := hpw.1 v hv
      exact ⟨by omega, by omega, h5.2.2.1, h5.2.2.2.1, h5.2.2.2.2⟩
    obtain ⟨d', hd', harith⟩ := ih hpw.2 (q.1 + 1) (q.2 + 1)
      (d + (q.1 - x).toNat + (q.2 - y).toNat) hrest h4 (by omega) (by omega)
    refine ⟨d', hd', ?_⟩
    rw [harith]
    simp only [List.length_cons]
    push_cast
    omega

/-- Truncation: a path overshooting `(n, m)` yields a path to `(n, m)`
itself with at most as many edits. -/
theorem reaches_trunc {x y : Int} {d : Nat} (h : Reaches n m E x y d)
    (hx : (n : Int) ≤ x) (hy : (m : Int) ≤ y) :
    ∃ d' : Nat, d' ≤ d ∧ Reaches n m E n m d' := by
  obtain ⟨p, hpw, hmem, hcount⟩ := reaches_matching h
  have hmem' : ∀ q ∈ p, (0 : Int) ≤ q.1 ∧ (0 : Int) ≤ q.2 ∧ q.1 < (n : Int) ∧
      q.2 < (m : Int) ∧ E q.1 q.2 = true := by
    intro q hq
    have h4 := hmem q hq
    exact ⟨h4.1, h4.2.2.2.1, h4.2.2.1, h4.2.2.2.2.2.1, h4.2.2.2.2.2.2⟩
  obtain ⟨d', hd', harith⟩ := reaches_through p hpw 0 0 0 hmem' Reaches.refl
    (by positivity) (by positivity)
  exact ⟨d', by omega, hd'⟩

end ReachLemmas

/-! ## Lemmas about the reference DP LCS -/

section DPLemmas

variable {E : Int → Int → Bool}

theorem lcsLen_zero_left (j : Nat) : lcsLen E 0 j = 0 := by rw [lcsLen]

theorem lcsLen_zero_right (i : Nat) : lcsLen E i 0 = 0 := by
  cases i <;> rw [lcsLen]

theorem lcsLen_succ (i j : Nat) : lcsLen E (i + 1) (j + 1) =
    if E i j then lcsLen E i j + 1
    else max (lcsLen E (i + 1) j) (lcsLen E i (j + 1)) := by
  rw [lcsLen]

theorem lcsLen_facts : ∀ (N i j : Nat), i + j ≤ N →
    lcsLen E i j ≤ lcsLen E (i + 1) j ∧ lcsLen E i j ≤ lcsLen E i (j + 1) ∧
    lcsLen E (i + 1) j ≤ lcsLen E i j + 1 ∧ lcsLen E i (j + 1) ≤ lcsLen E i j + 1 ∧
    lcsLen E i j ≤ i ∧ lcsLen E i j ≤ j := by
  intro N
  induction N with
  | zero =>
    intro i j h
    obtain rfl : i = 0 := by omega
    obtain rfl : j = 0 := by omega
    refine ⟨?_, ?_, ?_, ?_, ?_, ?_⟩ <;>
      simp [lcsLen_zero_left, lcsLen_zero_right]
  | succ N ihN =>
    intro i j hij
    rcases i with _ | i <;> rcases j with _ | j
    · refine ⟨?_, ?_, ?_, ?_, ?_, ?_⟩ <;>
        simp [lcsLen_zero_left, lcsLen_zero_right]
    · -- i = 0
      refine ⟨?_, ?_, ?_, ?_, ?_, ?_⟩
      · simp [lcsLen_zero_left]
      · simp [lcsLen_zero_left]
      · -- lcsLen 1 (j+1) ≤ 1
        rw [lcsLen_succ]
        split
        · simp [lcsLen_zero_left]
        · have h1 := (ihN 0 j (by omega)).2.2.1
          simp [lcsLen_zero_left] at h1 ⊢
          omega
      · simp [lcsLen_zero_left]
      · simp [lcsLen_zero_left]
      · simp [lcsLen_zero_left]
    · -- j = 0
      refine ⟨?_, ?_, ?_, ?_, ?_, ?_⟩
      · simp [lcsLen_zero_right]
      · simp [lcsLen_zero_right]
      · simp [lcsLen_zero_right]
      · -- lcsLen (i+1) 1 ≤ 1
        rw [lcsLen_succ]
        split
        · simp [lcsLen_zero_right]
        · have h1 := (ihN i 0 (by omega)).2.2.2.1
          simp [lcsLen_zero_right] at h1 ⊢
          omega
      · simp [lcsLen_zero_right]
      · simp [lcsLen_zero_right]
    · -- i+1, j+1
      have hA := ihN i j (by omega)
      have hB := ihN (i + 1) j (by omega)
      have hC := ihN i (j + 1) (by omega)
      refine ⟨?_, ?_, ?_, ?_, ?_, ?_⟩
      · -- lcsLen (i+1) (j+1) ≤ lcsLen (i+2) (j+1)
        rw [lcsLen_succ (i + 1) j]
        split
        · next hE2 => have := hB.2.2.2.1; omega
        · next hE2 => exact le_max_right _ _
      · -- lcsLen (i+1) (j+1) ≤ lcsLen (i+1) (j+2)
        rw [lcsLen_succ i (j + 1)]
        split
        · next hE2 => have := hC.2.2.1; omega
        · next hE2 => exact le_max_left _ _
      · -- lcsLen (i+2) (j+1) ≤ lcsLen (i+1) (j+1) + 1
        rw [lcsLen_succ (i + 1) j]
        split
        · next hE2 => have := hB.2.1; omega
        · next hE2 =>
          apply max_le
          · have h1 := hB.2.2.1
            have h2 := hB.2.1
            omega
          · omega
      · -- lcsLen (i+1) (j+2) ≤ lcsLen (i+1) (j+1) + 1
        rw [lcsLen_succ i (j + 1)]
        split
        · next hE2 => have := hC.1; omega
        · next hE2 =>
          apply max_le
          · omega
          · have h1 := hC.2.2.2.1
            have h2 := hC.1
            omega
      · -- ≤ i+1
        rw [lcsLen_succ i j]
        split
        · have := hA.2.2.2.2.1; omega
        · apply max_le
          · have := hB.2.2.2.2.1; omega
          · have := hC.2.2.2.2.1; omega
      · -- ≤ j+1
        rw [lcsLen_succ i j]
        split
        · have := hA.2.2.2.2.2; omega
        · apply max_le
          · have := hB.2.2.2.2.2; omega
          · have := hC.2.2.2.2.2; omega

theorem lcsLen_mono_left (i j : Nat) : lcsLen E i j ≤ lcsLen E (i + 1) j :=
  (lcsLen_facts (i + j) i j le_rfl).1

theorem lcsLen_mono_right (i j : Nat) : lcsLen E i j ≤ lcsLen E i (j + 1) :=
  (lcsLen_facts (i + j) i j le_rfl).2.1

theorem lcsLen_step_left (i j : Nat) : lcsLen E (i + 1) j ≤ lcsLen E i j + 1 :=
  (lcsLen_facts (i + j) i j le_rfl).2.2.1

theorem lcsLen_step_right (i j : Nat) : lcsLen E i (j + 1) ≤ lcsLen E i j + 1 :=
  (lcsLen_facts (i + j) i j le_rfl).2.2.2.1

theorem lcsLen_le_left (i j : Nat) : lcsLen E i j ≤ i :=
  (lcsLen_facts (i + j) i j le_rfl).2.2.2.2.1

theorem lcsLen_le_right (i j : Nat) : lcsLen E i j ≤ j :=
  (lcsLen_facts (i + j) i j le_rfl).2.2.2.2.2

/-- Soundness of the DP bound: every strictly increasing matching of the
two prefixes has length at most the DP value. -/
theorem matching_le_dp : ∀ (N i j : Nat) (p : List (Int × Int)),
    i + j ≤ N →
    List.Pairwise (fun u v => u.1 < v.1 ∧ u.2 < v.2) p →
    (∀ q ∈ p, 0 ≤ q.1 ∧ q.1 < (i : Int) ∧ 0 ≤ q.2 ∧ q.2 < (j : Int) ∧ E q.1 q.2 = true) →
    p.length ≤ lcsLen E i j := by
  intro N
  induction N with
  | zero =>
    intro i j p h hpw hmem
    obtain rfl : i = 0 := by omega
    rcases p with _ | ⟨q, rest⟩
    · simp
    · have h1 := hmem q (List.mem_cons_self q rest)
      omega
  | succ N ihN =>
    intro i j p hij hpw hmem
    rcases i with _ | i
    · rcases p with _ | ⟨q, rest⟩
      · simp
      · have h1 := hmem q (List.mem_cons_self q rest)
        omega
    rcases j with _ | j
    · rcases p with _ | ⟨q, rest⟩
      · simp
      · have h1 := hmem q (List.mem_cons_self q rest)
        omega
    rcases List.eq_nil_or_concat p with rfl | ⟨init, q, rfl⟩
    · simp
    simp only [List.concat_eq_append] at hpw hmem ⊢
    rw [List.pairwise_append] at hpw
    obtain ⟨hpwi, -, hlast⟩ := hpw
    have hq := hmem q (by simp)
    have hinit_lt : ∀ u ∈ init, u.1 < q.1 ∧ u.2 < q.2 := by
      intro u hu
      exact hlast u hu q (by simp)
    by_cases hqlast : q.1 = (i : Int) ∧ q.2 = (j : Int)
    · -- the last pair is exactly (i, j); E i j must hold
      have hEij : E i j = true := by
        have := hq.2.2.2.2
        rwa [hqlast.1, hqlast.2] at this
      have hinit_le : init.length ≤ lcsLen E i j := by
        refine ihN i j init (by omega) hpwi ?_
        intro u hu
        have h1 := hmem u (by simp [hu])
        have h2 := hinit_lt u hu
        refine ⟨h1.1, by omega, h1.2.2.1, by omega, h1.2.2.2.2⟩
      rw [lcsLen_succ, if_pos hEij]
      simp only [List.length_append, List.length_singleton]
      omega
    · -- the last pair is strictly inside on at least one side
      have hcase : q.1 < (i : Int) ∨ q.2 < (j : Int) := by omega
      rcases hcase with hq1 | hq2
      · have hle : (init ++ [q]).length ≤ lcsLen E i (j + 1) := by
          refine ihN i (j + 1) (init ++ [q]) (by omega) ?_ ?_
          · rw [List.pairwise_append]
            exact ⟨hpwi, by simp, hlast⟩
          · intro u hu
            rw [List.mem_append, List.mem_singleton] at hu
            rcases hu with hu | rfl
            · have h1 := hmem u (by simp [hu])
              have h2 := hinit_lt u hu
              exact ⟨h1.1, by omega, h1.2.2.1, h1.2.2.2⟩
            · exact ⟨hq.1, hq1, hq.2.2⟩
        exact le_trans hle (lcsLen_mono_left i (j + 1))
      · have hle : (init ++ [q]).length ≤ lcsLen E (i + 1) j := by
          refine ihN (i + 1) j (init ++ [q]) (by omega) ?_ ?_
          · rw [List.pairwise_append]
            exact ⟨hpwi, by simp, hlast⟩
          · intro u hu
            rw [List.mem_append, List.mem_singleton] at hu
            rcases hu with hu | rfl
            · have h1 := hmem u (by simp [hu])
              have h2 := hinit_lt u hu
              exact ⟨h1.1, h1.2.1, h1.2.2.1, by omega, h1.2.2.2.2⟩
            · exact ⟨hq.1, hq.2.1, hq.2.2.1, hq2, hq.2.2.2.2⟩
        exact le_trans hle (lcsLen_mono_right (i + 1) j)

/-- Completeness of the DP bound: a strictly increasing matching of the DP
value's length exists. -/
theorem exists_matching_dp : ∀ (N i j : Nat), i + j ≤ N →
    ∃ p : List (Int × Int),
      List.Pairwise (fun u v => u.1 < v.1 ∧ u.2 < v.2) p ∧
      (∀ q ∈ p, 0 ≤ q.1 ∧ q.1 < (i : Int) ∧ 0 ≤ q.2 ∧ q.2 < (j : Int) ∧ E q.1 q.2 = true) ∧
      p.length = lcsLen E i j := by
  intro N
  induction N with
  | zero =>
    intro i j h
    obtain rfl : i = 0 := by omega
    obtain rfl : j = 0 := by omega
    exact ⟨[], by simp, by simp, by simp [lcsLen_zero_left]⟩
  | succ N ihN =>
    intro i j hij
    rcases i with _ | i
    · exact ⟨[], by simp, by simp, by simp [lcsLen_zero_left]⟩
    rcases j with _ | j
    · exact ⟨[], by simp, by simp, by simp [lcsLen_zero_right]⟩
    by_cases hE : E i j = true
    · obtain ⟨p, hpw, hmem, hlen⟩ := ihN i j (by omega)
      refine ⟨p ++ [((i : Int), (j : Int))], ?_, ?_, ?_⟩
      · rw [List.pairwise_append]
        refine ⟨hpw, by simp, ?_⟩
        intro u hu v hv
        rw [List.mem_singleton] at hv
        subst hv
        have h1 := hmem u hu
        exact ⟨h1.2.1, h1.2.2.2.1⟩
      · intro q hq
        rw [List.mem_append, List.mem_singleton] at hq
        rcases hq with hq | rfl
        · have h1 := hmem q hq
          exact ⟨h1.1, by omega, h1.2.2.1, by omega, h1.2.2.2.2⟩
        · exact ⟨by positivity, by omega, by positivity, by omega, hE⟩
      · rw [lcsLen_succ, if_pos hE]
        simp only [List.length_append, List.length_singleton]
        omega
    · rcases le_total (lcsLen E (i + 1) j) (lcsLen E i (j + 1)) with hmax | hmax
      · obtain ⟨p, hpw, hmem, hlen⟩ := ihN i (j + 1) (by omega)
        refine ⟨p, hpw, ?_, ?_⟩
        · intro q hq
          have h1 := hmem q hq
          exact ⟨h1.1, by omega, h1.2.2.1, h1.2.2.2⟩
        · rw [lcsLen_succ, if_neg hE]
          omega
      · obtain ⟨p, hpw, hmem, hlen⟩ := ihN (i + 1) j (by omega)
        refine ⟨p, hpw, ?_, ?_⟩
        · intro q hq
          have h1 := hmem q hq
          exact ⟨h1.1, h1.2.1, h1.2.2.1, by omega, h1.2.2.2.2⟩
        · rw [lcsLen_succ, if_neg hE]
          omega

end DPLemmas

/-! ## The furthest-reaching invariant of the forward sweep -/

section FrLemmas

variable {n m : Nat} {E : Int → Int → Bool}

theorem fr_eq_frStep (d : Nat) : fr n m E d = frStep n m E (prevRow n m E d) d := by
  cases d <;> rfl

theorem frStep_cases (prev : Int → Nat) (d : Nat) (k : Int) :
    ((k = -(d : Int) ∨ (k ≠ (d : Int) ∧ prev (k - 1) < prev (k + 1))) ∧
      stepX prev d k = prev (k + 1) ∧
      frStep n m E prev d k = snakeEnd n m E (prev (k + 1)) ((prev (k + 1) : Int) - k)) ∨
    (¬ (k = -(d : Int) ∨ (k ≠ (d : Int) ∧ prev (k - 1) < prev (k + 1))) ∧
      stepX prev d k = prev (k - 1) + 1 ∧
      frStep n m E prev d k =
        snakeEnd n m E (prev (k - 1) + 1) ((prev (k - 1) : Int) + 1 - k)) := by
  by_cases hC : k = -(d : Int) ∨ (k ≠ (d : Int) ∧ prev (k - 1) < prev (k + 1))
  · left
    have hs : stepX prev d k = prev (k + 1) := by rw [stepX, if_pos hC]
    exact ⟨hC, hs, by rw [frStep, hs]⟩
  · right
    have hs : stepX prev d k = prev (k - 1) + 1 := by rw [stepX, if_neg hC]
    refine ⟨hC, hs, ?_⟩
    have hy : ((prev (k - 1) + 1 : Nat) : Int) - k = (prev (k - 1) : Int) + 1 - k := by
      push_cast; ring
    rw [frStep, hs, hy]

theorem validk_zero {k : Int} (h : ValidK 0 k) : k = 0 := by
  simp only [ValidK] at h
  omega

/-- The y-coordinates of the step point and of the stored furthest point
are nonnegative on every diagonal the sweep writes. -/
theorem fr_y_nonneg : ∀ (d : Nat) (k : Int), ValidK d k →
    0 ≤ (stepX (prevRow n m E d) d k : Int) - k ∧ 0 ≤ (fr n m E d k : Int) - k := by
  intro d
  induction d with
  | zero =>
    intro k hk
    obtain rfl := validk_zero hk
    have hs : stepX (prevRow n m E 0) 0 0 = 0 := by
      rw [stepX, if_pos]
      · rfl
      · left; rfl
    constructor
    · rw [hs]; simp
    · rw [fr_eq_frStep, frStep, hs]
      have := snakeEnd_ge (n := n) (m := m) (E := E) 0 ((0 : Int) - 0)
      omega
  | succ d ih =>
    intro k hk
    have hstep : 0 ≤ (stepX (prevRow n m E (d + 1)) (d + 1) k : Int) - k := by
      rcases frStep_cases (n := n) (m := m) (E := E) (prevRow n m E (d + 1)) (d + 1) k with
        ⟨hC, hs, -⟩ | ⟨hC, hs, -⟩
      · -- step from diagonal k+1 (insertion)
        have hvalid : ValidK d (k + 1) := by
          simp only [ValidK] at hk ⊢
          rcases hC with hC | ⟨hC, -⟩
          · push_cast at hC; omega
          · push_cast at hC; omega
        have h1 := (ih (k + 1) hvalid).2
        rw [hs]
        simp only [prevRow]
        simp only [prevRow] at h1 ⊢
        omega
      · -- step from diagonal k-1 (deletion)
        push_neg at hC
        have hvalid : ValidK d (k - 1) := by
          simp only [ValidK] at hk ⊢
          have hC1 := hC.1
          push_cast at hC1
          omega
        have h1 := (ih (k - 1) hvalid).2
        rw [hs]
        simp only [prevRow] at h1 ⊢
        omega
    refine ⟨hstep, ?_⟩
    rw [fr_eq_frStep, frStep]
    have hge := snakeEnd_ge (n := n) (m := m) (E := E)
      (stepX (prevRow n m E (d + 1)) (d + 1) k)
      ((stepX (prevRow n m E (d + 1)) (d + 1) k : Int) - k)
    omega

/-- Achievability half of Myers' invariant: the furthest-reaching value on
every valid diagonal is reachable with `d` edits. -/
theorem fr_reach : ∀ (d : Nat) (k : Int), ValidK d k →
    Reaches n m E (fr n m E d k) ((fr n m E d k : Int) - k) d := by
  intro d
  induction d with
  | zero =>
    intro k hk
    obtain rfl := validk_zero hk
    have hs : stepX (prevRow n m E 0) 0 0 = 0 := by
      rw [stepX, if_pos]
      · rfl
      · left; rfl
    rw [fr_eq_frStep, frStep, hs]
    have h0 : Reaches n m E ((0 : Nat) : Int) ((0 : Int) - 0) 0 := by
      exact reaches_cast Reaches.refl (by simp) (by simp) rfl
    have hsn := reaches_snake h0 (snakeEnd n m E 0 ((0 : Int) - 0)) (by omega)
    exact reaches_cast hsn (by push_cast; ring) (by push_cast; ring) rfl
  | succ d ih =>
    intro k hk
    have hfr_eq : fr n m E (d + 1) = frStep n m E (fr n m E d) (d + 1) := rfl
    rw [hfr_eq]
    rcases frStep_cases (n := n) (m := m) (E := E) (fr n m E d) (d + 1) k with
      ⟨hC, -, hfr⟩ | ⟨hC, -, hfr⟩
    · -- insertion step from diagonal k+1
      have hvalid : ValidK d (k + 1) := by
        simp only [ValidK] at hk ⊢
        rcases hC with hC | ⟨hC, -⟩
        · push_cast at hC; omega
        · push_cast at hC; omega
      have h1 := ih (k + 1) hvalid
      rw [hfr]
      have hge := snakeEnd_ge (n := n) (m := m) (E := E) (fr n m E d (k + 1))
        ((fr n m E d (k + 1) : Int) - k)
      have h3 : Reaches n m E (fr n m E d (k + 1))
          ((fr n m E d (k + 1) : Int) - k) (d + 1) :=
        reaches_cast h1.ins rfl (by ring) rfl
      have h4 := reaches_snake h3
        (snakeEnd n m E (fr n m E d (k + 1)) ((fr n m E d (k + 1) : Int) - k) -
          fr n m E d (k + 1)) (by omega)
      exact reaches_cast h4 (by push_cast; omega) (by push_cast; omega) rfl
    · -- deletion step from diagonal k-1
      push_neg at hC
      have hvalid : ValidK d (k - 1) := by
        simp only [ValidK] at hk ⊢
        have hC1 := hC.1
        push_cast at hC1
        omega
      have h1 := ih (k - 1) hvalid
      rw [hfr]
      have hge := snakeEnd_ge (n := n) (m := m) (E := E) (fr n m E d (k - 1) + 1)
        ((fr n m E d (k - 1) : Int) + 1 - k)
      have h3 : Reaches n m E ((fr n m E d (k - 1) + 1 : Nat) : Int)
          ((fr n m E d (k - 1) : Int) + 1 - k) (d + 1) :=
        reaches_cast h1.del (by push_cast; ring) (by push_cast; ring) rfl
      have h4 := reaches_snake h3
        (snakeEnd n m E (fr n m E d (k - 1) + 1)
          ((fr n m E d (k - 1) : Int) + 1 - k) - (fr n m E d (k - 1) + 1))
        (by omega)
      exact reaches_cast h4 (by push_cast; omega) (by push_cast; omega) rfl

/-- A path with zero edits is an initial diagonal run. -/
theorem reaches_zero {x y : Int} {d : Nat} (h : Reaches n m E x y d) (hd : d = 0) :
    x = y ∧ ∃ t : Nat, x = (t : Int) ∧
      ∀ s : Nat, s < t → ((s : Int) < (n : Int) ∧ (s : Int) < (m : Int) ∧ E s s = true) := by
  induction h with
  | refl => exact ⟨rfl, 0, by simp, by omega⟩
  | del h ih => omega
  | ins h ih => omega
  | @diag x y d h hx hy hE ih =>
    obtain ⟨rfl, t, rfl, hg⟩ := ih hd
    refine ⟨rfl, t + 1, by push_cast; ring, ?_⟩
    intro s hs
    by_cases hst : s < t
    · exact hg s hst
    · obtain rfl : s = t := by omega
      exact ⟨hx, hy, hE⟩

/-- Decomposition of a path with at least one edit: a shorter path, a final
horizontal or vertical edit, and a trailing diagonal run. -/
theorem reaches_decomp {x y : Int} {D : Nat} (h : Reaches n m E x y D) :
    ∀ d : Nat, D = d + 1 →
    ∃ u v : Int, Reaches n m E u v d ∧
      ((∃ t : Nat, x = u + 1 + t ∧ y = v + t ∧
        ∀ s : Nat, s < t →
          (u + 1 + s < (n : Int) ∧ v + s < (m : Int) ∧ E (u + 1 + s) (v + s) = true)) ∨
       (∃ t : Nat, x = u + t ∧ y = v + 1 + t ∧
        ∀ s : Nat, s < t →
          (u + s < (n : Int) ∧ v + 1 + s < (m : Int) ∧ E (u + s) (v + 1 + s) = true))) := by
  induction h with
  | refl => intro d hd; omega
  | @del x y d0 h ih =>
    intro d hd
    obtain rfl : d0 = d := by omega
    exact ⟨x, y, h, Or.inl ⟨0, by push_cast; ring, by push_cast; ring, by omega⟩⟩
  | @ins x y d0 h ih =>
    intro d hd
    obtain rfl : d0 = d := by omega
    exact ⟨x, y, h, Or.inr ⟨0, by push_cast; ring, by push_cast; ring, by omega⟩⟩
  | @diag x y d0 h hx hy hE ih =>
    intro d hd
    obtain ⟨u, v, hr, hcase⟩ := ih d hd
    rcases hcase with ⟨t, hxe, hye, hg⟩ | ⟨t, hxe, hye, hg⟩
    · refine ⟨u, v, hr, Or.inl ⟨t + 1, by push_cast; omega, by push_cast; omega, ?_⟩⟩
      intro s hs
      by_cases hst : s < t
      · exact hg s hst
      · obtain rfl : s = t := by omega
        exact ⟨by omega, by omega, ecast E hE (by omega) (by omega)⟩
    · refine ⟨u, v, hr, Or.inr ⟨t + 1, by push_cast; omega, by push_cast; omega, ?_⟩⟩
      intro s hs
      by_cases hst : s < t
      · exact hg s hst
      · obtain rfl : s = t := by omega
        exact ⟨by omega, by omega, ecast E hE (by omega) (by omega)⟩

/-- If a diagonal run covers `[a, a+t)` and the snake starts at or after
`a` on the same diagonal, the snake reaches at least `a + t`. -/
theorem snake_reach_bound (start : Nat) (k ys a b z : Int) (t : Nat)
    (hys : ys = (start : Int) - k)
    (hstart : a ≤ (start : Int))
    (hz : z = a + t) (hab : b = a - k)
    (hg : ∀ s : Nat, s < t →
      (a + s < (n : Int) ∧ b + s < (m : Int) ∧ E (a + s) (b + s) = true)) :
    z ≤ (snakeEnd n m E start ys : Int) := by
  by_cases hzs : z ≤ (start : Int)
  · have := snakeEnd_ge (n := n) (m := m) (E := E) start ys
    omega
  · push_neg at hzs
    have hzt : z.toNat ≤ snakeEnd n m E start ys := by
      apply snake_max (z.toNat - start) start ys z.toNat (by omega) (by omega)
      intro t' ht'
      have hs0 : 0 ≤ (start : Int) + t' - a := by omega
      have hscast : (((start : Int) + t' - a).toNat : Int) = (start : Int) + t' - a := by
        omega
      have hst : ((start : Int) + t' - a).toNat < t := by omega
      have hgs := hg (((start : Int) + t' - a).toNat) hst
      refine ⟨by omega, by omega, ?_⟩
      exact ecast E hgs.2.2 (by omega) (by omega)
    omega

/-- Maximality half of Myers' invariant: no point on a valid diagonal
reachable with `d` edits lies beyond the stored furthest-reaching value. -/
theorem fr_max : ∀ (d : Nat) (k : Int), ValidK d k → ∀ z : Int,
    Reaches n m E z (z - k) d → z ≤ (fr n m E d k : Int) := by
  intro d
  induction d with
  | zero =>
    intro k hk z hr
    obtain rfl := validk_zero hk
    obtain ⟨-, t, rfl, hg⟩ := reaches_zero hr rfl
    have h00 : fr n m E 0 0 = snakeEnd n m E 0 ((0 : Int) - 0) := rfl
    rw [h00]
    refine snake_reach_bound 0 0 ((0 : Int) - 0) 0 0 (t : Int) t (by simp) le_rfl
      (by simp) (by simp) ?_
    intro s hs
    have hgs := hg s hs
    exact ⟨by omega, by omega, ecast E hgs.2.2 (by omega) (by omega)⟩
  | succ d ih =>
    intro k hk z hr
    obtain ⟨u, v, hru, hcase⟩ := reaches_decomp hr d rfl
    have hnn := hru.nonneg
    have habs := hru.absdiff
    have hfr_eq : fr n m E (d + 1) = frStep n m E (fr n m E d) (d + 1) := rfl
    rw [hfr_eq]
    rcases hcase with ⟨t, hxe, hye, hg⟩ | ⟨t, hxe, hye, hg⟩
    · -- final edit horizontal: the shorter path ends on diagonal k-1
      have huv : u - v = k - 1 := by omega
      have hvK : ValidK d (k - 1) := by
        simp only [ValidK] at hk ⊢
        rw [huv] at habs
        omega
      have hu_le := ih (k - 1) hvK u (reaches_cast hru rfl (by omega) rfl)
      rcases frStep_cases (n := n) (m := m) (E := E) (fr n m E d) (d + 1) k with
        ⟨hC, -, hfr⟩ | ⟨hC, -, hfr⟩
      · rcases hC with hC | ⟨-, hlt⟩
        · exfalso
          simp only [ValidK] at hvK
          push_cast at hC
          omega
        · rw [hfr]
          exact snake_reach_bound (fr n m E d (k + 1)) k _ (u + 1) v z t rfl
            (by omega) (by push_cast at hxe ⊢; omega) (by omega) hg
      · rw [hfr]
        exact snake_reach_bound (fr n m E d (k - 1) + 1) k _ (u + 1) v z t
          (by push_cast; ring) (by omega) (by push_cast at hxe ⊢; omega) (by omega) hg
    · -- final edit vertical: the shorter path ends on diagonal k+1
      have huv : u - v = k + 1 := by omega
      have hvK : ValidK d (k + 1) := by
        simp only [ValidK] at hk ⊢
        rw [huv] at habs
        omega
      have hu_le := ih (k + 1) hvK u (reaches_cast hru rfl (by omega) rfl)
      rcases frStep_cases (n := n) (m := m) (E := E) (fr n m E d) (d + 1) k with
        ⟨hC, -, hfr⟩ | ⟨hC, -, hfr⟩
      · rw [hfr]
        exact snake_reach_bound (fr n m E d (k + 1)) k _ u (v + 1) z t rfl
          (by omega) (by push_cast at hxe ⊢; omega) (by omega) hg
      · push_neg at hC
        have hC1 := hC.1
        have hC2 := hC.2
        by_cases hkd : k = ((d : Nat) : Int) + 1
        · exfalso
          simp only [ValidK] at hvK
          omega
        · have hle : fr n m E d (k + 1) ≤ fr n m E d (k - 1) := by
            have := hC2 (by push_cast; omega)
            omega
          rw [hfr]
          exact snake_reach_bound (fr n m E d (k - 1) + 1) k _ u (v + 1) z t
            (by push_cast; ring) (by omega) (by push_cast at hxe ⊢; omega) (by omega) hg

end FrLemmas

/-! ## Termination of the forward search at the edit distance -/

section TerminationLemmas

variable {n m : Nat} {E : Int → Int → Bool}

theorem found_iff (d : Nat) : found n m E d = true ↔
    ∃ k : Int, ValidK d k ∧ (n : Int) ≤ fr n m E d k ∧
      (m : Int) ≤ (fr n m E d k : Int) - k := by
  rw [found, List.any_eq_true]
  constructor
  · rintro ⟨i, hi, hp⟩
    rw [List.mem_range] at hi
    simp only [decide_eq_true_eq] at hp
    exact ⟨-(d : Int) + 2 * i, by simp only [ValidK]; omega, hp⟩
  · rintro ⟨k, hvk, h1, h2⟩
    simp only [ValidK] at hvk
    refine ⟨((k + d) / 2).toNat, ?_, ?_⟩
    · rw [List.mem_range]; omega
    · simp only [decide_eq_true_eq]
      have hkk : -(d : Int) + 2 * ((((k + d) / 2).toNat : Nat) : Int) = k := by omega
      rw [hkk]
      exact ⟨h1, h2⟩

theorem found_of_reaches {d : Nat} (h : Reaches n m E n m d) :
    found n m E d = true := by
  have habs := h.absdiff
  obtain ⟨p, -, -, hcount⟩ := reaches_matching h
  rw [found_iff]
  have hvk : ValidK d ((n : Int) - m) := by simp only [ValidK]; omega
  have hmax := fr_max d ((n : Int) - m) hvk n (reaches_cast h rfl (by ring) rfl)
  exact ⟨(n : Int) - m, hvk, hmax, by omega⟩

theorem reaches_of_found {d : Nat} (h : found n m E d = true) :
    ∃ d' : Nat, d' ≤ d ∧ Reaches n m E n m d' := by
  rw [found_iff] at h
  obtain ⟨k, hvk, h1, h2⟩ := h
  exact reaches_trunc (fr_reach d k hvk) h1 h2

theorem searchFrom_eq_some (dm : Nat) : ∀ (fuel start : Nat), start ≤ dm →
    dm < start + fuel →
    (∀ e : Nat, start ≤ e → e < dm → found n m E e = false) →
    found n m E dm = true →
    searchFrom n m E start fuel = some dm := by
  intro fuel
  induction fuel with
  | zero => intro start h1 h2 _ _; omega
  | succ fuel ih =>
    intro start h1 h2 hnot hdm
    rw [searchFrom]
    by_cases hs : start = dm
    · subst hs
      rw [if_pos hdm]
    · have hf : found n m E start = false := hnot start le_rfl (by omega)
      rw [if_neg (by simp [hf])]
      exact ih (start + 1) (by omega) (by omega)
        (fun e he1 he2 => hnot e (by omega) he2) hdm

/-- The edit distance `N + M - 2·LCS` is achievable. -/
theorem reaches_dmin (n m : Nat) (E : Int → Int → Bool) :
    Reaches n m E n m (n + m - 2 * lcsLen E n m) := by
  have hL1 := lcsLen_le_left (E := E) n m
  have hL2 := lcsLen_le_right (E := E) n m
  obtain ⟨p, hpw, hmem, hlen⟩ := exists_matching_dp (E := E) (n + m) n m le_rfl
  have hmem' : ∀ q ∈ p, (0 : Int) ≤ q.1 ∧ (0 : Int) ≤ q.2 ∧ q.1 < (n : Int) ∧
      q.2 < (m : Int) ∧ E q.1 q.2 = true := by
    intro q hq
    have h4 := hmem q hq
    exact ⟨h4.1, h4.2.2.1, h4.2.1, h4.2.2.2.1, h4.2.2.2.2⟩
  obtain ⟨d', hd', harith⟩ := reaches_through p hpw 0 0 0 hmem' Reaches.refl
    (by positivity) (by positivity)
  have hd'eq : d' = n + m - 2 * lcsLen E n m := by omega
  exact hd'eq ▸ hd'

/-- The forward search cannot terminate before the edit distance. -/
theorem found_min (n m : Nat) (E : Int → Int → Bool) :
    ∀ e : Nat, e < n + m - 2 * lcsLen E n m → found n m E e = false := by
  intro e he
  by_contra hb
  rw [Bool.not_eq_false] at hb
  obtain ⟨d'', hd''le, hr''⟩ := reaches_of_found hb
  obtain ⟨p2, hpw2, hmem2, hcount2⟩ := reaches_matching hr''
  have hle2 : p2.length ≤ lcsLen E n m := by
    apply matching_le_dp (n + m) n m p2 le_rfl hpw2
    intro q hq
    have h4 := hmem2 q hq
    exact ⟨h4.1, h4.2.1, h4.2.2.2.1, h4.2.2.2.2.1, h4.2.2.2.2.2.2⟩
  have hL1 := lcsLen_le_left (E := E) n m
  have hL2 := lcsLen_le_right (E := E) n m
  omega

/-- Master theorem: the forward search returns exactly
`N + M - 2 · (DP LCS length)`, the edit distance. -/
theorem diffD_eq (n m : Nat) (E : Int → Int → Bool) :
    DiffD n m E = some (n + m - 2 * lcsLen E n m) := by
  have hL1 := lcsLen_le_left (E := E) n m
  have hL2 := lcsLen_le_right (E := E) n m
  exact searchFrom_eq_some _ (n + m + 1) 0 (by omega) (by omega)
    (fun e _ he => found_min n m E e he) (found_of_reaches (reaches_dmin n m E))

end TerminationLemmas

/-! ## The backtrace: structure of the emitted `Common` calls -/

section TraceLemmas

variable {n m : Nat} {E : Int → Int → Bool}

theorem prevRow_zero (z : Int) : prevRow n m E 0 z = 0 := rfl

theorem fr_as_snake (d : Nat) (k : Int) : fr n m E d k =
    snakeEnd n m E (stepX (prevRow n m E d) d k)
      ((stepX (prevRow n m E d) d k : Int) - k) := by
  rw [fr_eq_frStep]
  rfl

theorem frameX_cases (d : Nat) (x1 y1 : Int) :
    ((x1 - y1 = -(d : Int) ∨ (x1 - y1 ≠ (d : Int) ∧
        prevRow n m E d (x1 - y1 - 1) < prevRow n m E d (x1 - y1 + 1))) ∧
      frameX n m E d x1 y1 = (prevRow n m E d (x1 - y1 + 1),
        (prevRow n m E d (x1 - y1 + 1) : Int) - (x1 - y1 + 1),
        prevRow n m E d (x1 - y1 + 1))) ∨
    (¬ (x1 - y1 = -(d : Int) ∨ (x1 - y1 ≠ (d : Int) ∧
        prevRow n m E d (x1 - y1 - 1) < prevRow n m E d (x1 - y1 + 1))) ∧
      frameX n m E d x1 y1 = (prevRow n m E d (x1 - y1 - 1),
        (prevRow n m E d (x1 - y1 - 1) : Int) - (x1 - y1 - 1),
        prevRow n m E d (x1 - y1 - 1) + 1)) := by
  by_cases hC : x1 - y1 = -(d : Int) ∨ (x1 - y1 ≠ (d : Int) ∧
      prevRow n m E d (x1 - y1 - 1) < prevRow n m E d (x1 - y1 + 1))
  · left
    exact ⟨hC, by rw [frameX, if_pos hC]⟩
  · right
    exact ⟨hC, by rw [frameX, if_neg hC]⟩

/-- The snake start recomputed by the backtrace frame is exactly the
forward sweep's step point on that diagonal. -/
theorem frameX_xm (d : Nat) (x1 y1 : Int) :
    (frameX n m E d x1 y1).2.2 = stepX (prevRow n m E d) d (x1 - y1) := by
  rcases frameX_cases (n := n) (m := m) (E := E) d x1 y1 with ⟨hC, hfx⟩ | ⟨hC, hfx⟩
  · rw [hfx, stepX, if_pos hC]
  · rw [hfx, stepX, if_neg hC]

theorem commonTraceT_zero (D : Nat) (x1 y1 : Int) :
    commonTraceT n m E D 0 x1 y1 =
      if 0 < x1 - ((frameX n m E 0 x1 y1).2.2 : Int) ∨ 0 = D then
        [(0, (((frameX n m E 0 x1 y1).2.2 : Int),
          y1 - (x1 - ((frameX n m E 0 x1 y1).2.2 : Int)),
          x1 - ((frameX n m E 0 x1 y1).2.2 : Int)))]
      else [] := rfl

theorem commonTraceT_succ (D d : Nat) (x1 y1 : Int) :
    commonTraceT n m E D (d + 1) x1 y1 =
      commonTraceT n m E D d ((frameX n m E (d + 1) x1 y1).1 : Int)
        (frameX n m E (d + 1) x1 y1).2.1 ++
      (if 0 < x1 - ((frameX n m E (d + 1) x1 y1).2.2 : Int) ∨ d + 1 = D then
        [(d + 1, (((frameX n m E (d + 1) x1 y1).2.2 : Int),
          y1 - (x1 - ((frameX n m E (d + 1) x1 y1).2.2 : Int)),
          x1 - ((frameX n m E (d + 1) x1 y1).2.2 : Int)))]
      else []) := rfl

/-- Master structural properties of the backtrace of a frame `(d, x1, y1)`
on a valid diagonal, when `x1` lies between the frame's recomputed snake
start and the forward sweep's furthest-reaching value. -/
theorem trace_master (n m : Nat) (E : Int → Int → Bool) (D : Nat) :
    ∀ (d : Nat) (x1 y1 : Int), ValidK d (x1 - y1) →
    (stepX (prevRow n m E d) d (x1 - y1) : Int) ≤ x1 →
    x1 ≤ (fr n m E d (x1 - y1) : Int) →
    (∀ c ∈ commonTraceT n m E D d x1 y1,
        c.1 ≤ d ∧ 0 ≤ c.2.1 ∧ 0 ≤ c.2.2.1 ∧ 0 ≤ c.2.2.2 ∧
        c.2.1 + c.2.2.2 ≤ x1 ∧ c.2.2.1 + c.2.2.2 ≤ y1 ∧
        (∀ t : Nat, (t : Int) < c.2.2.2 →
          (c.2.1 + t < (n : Int) ∧ c.2.2.1 + t < (m : Int) ∧
            E (c.2.1 + t) (c.2.2.1 + t) = true))) ∧
    List.Pairwise
      (fun c c' => c.2.1 + c.2.2.2 ≤ c'.2.1 ∧ c.2.2.1 + c.2.2.2 ≤ c'.2.2.1)
      (commonTraceT n m E D d x1 y1) ∧
    (d = D → ∃ l c, commonTraceT n m E D d x1 y1 = l ++ [(D, c)] ∧
       c.1 + c.2.2 = x1 ∧ c.2.1 + c.2.2 = y1) ∧
    2 * ((commonTraceT n m E D d x1 y1).map (fun c => c.2.2.2)).sum =
      x1 + y1 - d := by
  intro d
  induction d with
  | zero =>
    intro x1 y1 hvk hstep hfr
    have hk0 : x1 - y1 = 0 := validk_zero hvk
    have hs0 : stepX (prevRow n m E 0) 0 (x1 - y1) = 0 := by
      rw [stepX, if_pos (Or.inl (by omega))]
      exact prevRow_zero _
    have hx1nn : 0 ≤ x1 := by rw [hs0] at hstep; exact_mod_cast hstep
    have hxm : (frameX n m E 0 x1 y1).2.2 = 0 := by
      rw [frameX_xm, hs0]
    rw [commonTraceT_zero, hxm]
    have hmatch : ∀ t : Nat, (t : Int) < x1 →
        ((0 : Int) + t < (n : Int) ∧ (y1 - x1) + t < (m : Int) ∧
          E ((0 : Int) + t) ((y1 - x1) + t) = true) := by
      intro t ht
      rw [fr_as_snake, hs0] at hfr
      have hsp := snake_spec (n := n) (m := m) (E := E) 0
        (((0 : Nat) : Int) - (x1 - y1)) t (by omega)
      refine ⟨by omega, by omega, ?_⟩
      exact ecast E hsp.2.2 (by omega) (by omega)
    by_cases hcond : 0 < x1 - ((0 : Nat) : Int) ∨ 0 = D
    · rw [if_pos hcond]
      refine ⟨?_, ?_, ?_, ?_⟩
      · intro c hc
        rw [List.mem_singleton] at hc
        subst hc
        dsimp only
        refine ⟨by omega, by omega, by omega, by omega, by omega, by omega, ?_⟩
        intro t ht
        have h4 := hmatch t (by omega)
        exact ⟨by omega, by omega, ecast E h4.2.2 (by omega) (by omega)⟩
      · simp
      · intro hD
        subst hD
        refine ⟨[], _, rfl, ?_, ?_⟩ <;> dsimp only <;> omega
      · simp only [List.map_cons, List.map_nil, List.sum_cons, List.sum_nil]
        omega
    · rw [if_neg hcond]
      push_neg at hcond
      have hx10 : x1 = 0 := by
        have := hcond.1
        omega
      refine ⟨by simp, by simp, ?_, ?_⟩
      · intro hD
        exact absurd hD.symm (by exact fun h => hcond.2 h.symm)
      · simp only [List.map_nil, List.sum_nil]
        omega
  | succ d ih =>
    intro x1 y1 hvk hstep hfr
    have hxm := frameX_xm (n := n) (m := m) (E := E) (d + 1) x1 y1
    have hynn := (fr_y_nonneg (n := n) (m := m) (E := E) (d + 1) (x1 - y1) hvk).1
    -- the three components of the frame
    rcases frameX_cases (n := n) (m := m) (E := E) (d + 1) x1 y1 with
      ⟨hC, hfx⟩ | ⟨hC, hfx⟩
    · -- insertion frame: the child lies on diagonal (x1-y1)+1
      have hvalid : ValidK d (x1 - y1 + 1) := by
        simp only [ValidK] at hvk ⊢
        rcases hC with hC | ⟨hC, -⟩
        · push_cast at hC; omega
        · push_cast at hC; omega
      have hxv : (frameX n m E (d + 1) x1 y1).1 = fr n m E d (x1 - y1 + 1) := by
        rw [hfx]; rfl
      have hyv : (frameX n m E (d + 1) x1 y1).2.1 =
          (fr n m E d (x1 - y1 + 1) : Int) - (x1 - y1 + 1) := by
        rw [hfx]; rfl
      have hxmv : (frameX n m E (d + 1) x1 y1).2.2 = fr n m E d (x1 - y1 + 1) := by
        rw [hfx]; rfl
      -- child hypotheses
      have hchild_k : ((fr n m E d (x1 - y1 + 1) : Nat) : Int) -
          ((fr n m E d (x1 - y1 + 1) : Int) - (x1 - y1 + 1)) = x1 - y1 + 1 := by
        omega
      have hchild_step : (stepX (prevRow n m E d) d (x1 - y1 + 1) : Int) ≤
          (fr n m E d (x1 - y1 + 1) : Int) := by
        rw [fr_as_snake d (x1 - y1 + 1)]
        exact_mod_cast snakeEnd_ge _ _
      have hih := ih (fr n m E d (x1 - y1 + 1))
        ((fr n m E d (x1 - y1 + 1) : Int) - (x1 - y1 + 1))
        (by rw [hchild_k]; exact hvalid)
        (by rw [hchild_k]; exact hchild_step)
        (by rw [hchild_k])
      obtain ⟨ih1, ih2, -, ih4⟩ := hih
      -- frame-level facts
      have hxm_step : ((fr n m E d (x1 - y1 + 1) : Nat) : Int) =
          (stepX (prevRow n m E (d + 1)) (d + 1) (x1 - y1) : Int) := by
        rw [← hxm, hxmv]
      have hnn' : 0 ≤ x1 - (fr n m E d (x1 - y1 + 1) : Int) := by omega
      have hy_lower : 0 ≤ y1 - (x1 - (fr n m E d (x1 - y1 + 1) : Int)) := by omega
      have hmatch : ∀ t : Nat, (t : Int) < x1 - (fr n m E d (x1 - y1 + 1) : Int) →
          ((fr n m E d (x1 - y1 + 1) : Int) + t < (n : Int) ∧
            (y1 - (x1 - (fr n m E d (x1 - y1 + 1) : Int))) + t < (m : Int) ∧
            E ((fr n m E d (x1 - y1 + 1) : Int) + t)
              ((y1 - (x1 - (fr n m E d (x1 - y1 + 1) : Int))) + t) = true) := by
        intro t ht
        rw [fr_as_snake (d + 1) (x1 - y1)] at hfr
        have hsp := snake_spec (n := n) (m := m) (E := E)
          (stepX (prevRow n m E (d + 1)) (d + 1) (x1 - y1))
          ((stepX (prevRow n m E (d + 1)) (d + 1) (x1 - y1) : Int) - (x1 - y1))
          ((((fr n m E d (x1 - y1 + 1) : Int) + t) -
            (stepX (prevRow n m E (d + 1)) (d + 1) (x1 - y1) : Int)).toNat)
          (by omega)
        refine ⟨by omega, by omega, ?_⟩
        exact ecast E hsp.2.2 (by omega) (by omega)
      rw [commonTraceT_succ, hxv, hyv, hxmv]
      constructor
      · -- element bounds
        intro c hc
        rw [List.mem_append] at hc
        rcases hc with hc | hc
        · have h4 := ih1 c hc
          refine ⟨by omega, h4.2.1, h4.2.2.1, h4.2.2.2.1, by omega, by omega,
            h4.2.2.2.2.2.2⟩
        · split at hc
          · rw [List.mem_singleton] at hc
            subst hc
            dsimp only
            refine ⟨le_rfl, by omega, by omega, by omega, by omega, by omega, ?_⟩
            intro t ht
            have h4 := hmatch t (by exact_mod_cast ht)
            exact ⟨by omega, by omega, ecast E h4.2.2 (by omega) (by omega)⟩
          · simp at hc
      constructor
      · -- pairwise
        rw [List.pairwise_append]
        refine ⟨ih2, ?_, ?_⟩
        · split
          · simp
          · simp
        · intro u hu v hv
          have h4 := ih1 u hu
          split at hv
          · rw [List.mem_singleton] at hv
            subst hv
            dsimp only
            exact ⟨by omega, by omega⟩
          · simp at hv
      constructor
      · -- last element when d+1 = D
        intro hD
        subst hD
        rw [if_pos (Or.inr rfl)]
        refine ⟨_, _, rfl, ?_, ?_⟩ <;> dsimp only <;> omega
      · -- run-length sum
        rw [List.map_append, List.sum_append]
        split
        · simp only [List.map_cons, List.map_nil, List.sum_cons, List.sum_nil]
          push_cast
          omega
        · simp only [List.map_nil, List.sum_nil]
          next hcond =>
          push_neg at hcond
          have h0 : x1 - (fr n m E d (x1 - y1 + 1) : Int) = 0 := by
            have := hcond.1
            omega
          push_cast
          omega
    · -- deletion frame: the child lies on diagonal (x1-y1)-1
      push_neg at hC
      have hvalid : ValidK d (x1 - y1 - 1) := by
        simp only [ValidK] at hvk ⊢
        have hC1 := hC.1
        push_cast at hC1
        omega
      have hxv : (frameX n m E (d + 1) x1 y1).1 = fr n m E d (x1 - y1 - 1) := by
        rw [hfx]; rfl
      have hyv : (frameX n m E (d + 1) x1 y1).2.1 =
          (fr n m E d (x1 - y1 - 1) : Int) - (x1 - y1 - 1) := by
        rw [hfx]; rfl
      have hxmv : (frameX n m E (d + 1) x1 y1).2.2 = fr n m E d (x1 - y1 - 1) + 1 := by
        rw [hfx]; rfl
      have hchild_k : ((fr n m E d (x1 - y1 - 1) : Nat) : Int) -
          ((fr n m E d (x1 - y1 - 1) : Int) - (x1 - y1 - 1)) = x1 - y1 - 1 := by
        omega
      have hchild_step : (stepX (prevRow n m E d) d (x1 - y1 - 1) : Int) ≤
          (fr n m E d (x1 - y1 - 1) : Int) := by
        rw [fr_as_snake d (x1 - y1 - 1)]
        exact_mod_cast snakeEnd_ge _ _
      have hih := ih (fr n m E d (x1 - y1 - 1))
        ((fr n m E d (x1 - y1 - 1) : Int) - (x1 - y1 - 1))
        (by rw [hchild_k]; exact hvalid)
        (by rw [hchild_k]; exact hchild_step)
        (by rw [hchild_k])
      obtain ⟨ih1, ih2, -, ih4⟩ := hih
      have hxm_step : ((fr n m E d (x1 - y1 - 1) + 1 : Nat) : Int) =
          (stepX (prevRow n m E (d + 1)) (d + 1) (x1 - y1) : Int) := by
        rw [← hxm, hxmv]
      have hnn' : 0 ≤ x1 - ((fr n m E d (x1 - y1 - 1) : Int) + 1) := by
        push_cast at hxm_step
        omega
      have hmatch : ∀ t : Nat,
          (t : Int) < x1 - ((fr n m E d (x1 - y1 - 1) : Int) + 1) →
          (((fr n m E d (x1 - y1 - 1) : Int) + 1) + t < (n : Int) ∧
            (y1 - (x1 - ((fr n m E d (x1 - y1 - 1) : Int) + 1))) + t < (m : Int) ∧
            E (((fr n m E d (x1 - y1 - 1) : Int) + 1) + t)
              ((y1 - (x1 - ((fr n m E d (x1 - y1 - 1) : Int) + 1))) + t) = true) := by
        intro t ht
        rw [fr_as_snake (d + 1) (x1 - y1)] at hfr
        have hsp := snake_spec (n := n) (m := m) (E := E)
          (stepX (prevRow n m E (d + 1)) (d + 1) (x1 - y1))
          ((stepX (prevRow n m E (d + 1)) (d + 1) (x1 - y1) : Int) - (x1 - y1))
          (((((fr n m E d (x1 - y1 - 1) : Int) + 1) + t) -
            (stepX (prevRow n m E (d + 1)) (d + 1) (x1 - y1) : Int)).toNat)
          (by omega)
        refine ⟨by omega, by omega, ?_⟩
        exact ecast E hsp.2.2 (by omega) (by omega)
      rw [commonTraceT_succ, hxv, hyv, hxmv]
      constructor
      · intro c hc
        rw [List.mem_append] at hc
        rcases hc with hc | hc
        · have h4 := ih1 c hc
          refine ⟨by omega, h4.2.1, h4.2.2.1, h4.2.2.2.1, ?_, ?_, h4.2.2.2.2.2.2⟩
          · have h5 := h4.2.2.2.2.1
            push_cast at hxm_step ⊢
            omega
          · have h5 := h4.2.2.2.2.2.1
            push_cast at hxm_step ⊢
            omega
        · split at hc
          · rw [List.mem_singleton] at hc
            subst hc
            dsimp only
            refine ⟨le_rfl, by push_cast; omega, ?_, ?_, by push_cast; omega,
              by push_cast; omega, ?_⟩
            · push_cast
              omega
            · push_cast
              omega
            · intro t ht
              push_cast at ht
              have h4 := hmatch t (by omega)
              exact ⟨by push_cast; omega, by push_cast; omega,
                ecast E h4.2.2 (by push_cast; omega) (by push_cast; omega)⟩
          · simp at hc
      constructor
      · rw [List.pairwise_append]
        refine ⟨ih2, ?_, ?_⟩
        · split
          · simp
          · simp
        · intro u hu v hv
          have h4 := ih1 u hu
          split at hv
          · rw [List.mem_singleton] at hv
            subst hv
            dsimp only
            have h5 := h4.2.2.2.2.1
            have h6 := h4.2.2.2.2.2.1
            constructor
            · push_cast
              omega
            · push_cast
              omega
          · simp at hv
      constructor
      · intro hD
        subst hD
        rw [if_pos (Or.inr rfl)]
        refine ⟨_, _, rfl, ?_, ?_⟩ <;> dsimp only <;> push_cast <;> omega
      · rw [List.map_append, List.sum_append]
        split
        · simp only [List.map_cons, List.map_nil, List.sum_cons, List.sum_nil]
          push_cast
          omega
        · simp only [List.map_nil, List.sum_nil]
          next hcond =>
          push_neg at hcond
          have h0 : x1 - ((fr n m E d (x1 - y1 - 1) : Int) + 1) = 0 := by
            have h5 := hcond.1
            push_cast at h5
            omega
          push_cast
          omega

/-- While the search has not yet terminated, the recomputed snake start of
the top backtrace frame cannot overshoot the left length. -/
theorem step_le_of_not_found (n m : Nat) (E : Int → Int → Bool) {D : Nat}
    (hvk : ValidK D ((n : Int) - m))
    (hmin : ∀ e, e < D → found n m E e = false) :
    (stepX (prevRow n m E D) D ((n : Int) - m) : Int) ≤ (n : Int) := by
  cases D with
  | zero =>
    have hk0 : (n : Int) - m = 0 := validk_zero hvk
    rw [stepX, if_pos (Or.inl (by omega))]
    rw [prevRow_zero]
    omega
  | succ d =>
    have hmind : found n m E d = false := hmin d (by omega)
    by_contra hgt
    push_neg at hgt
    rcases frStep_cases (n := n) (m := m) (E := E) (prevRow n m E (d + 1)) (d + 1)
      ((n : Int) - m) with ⟨hC, hs, -⟩ | ⟨hC, hs, -⟩
    · rw [hs] at hgt
      have hpr : prevRow n m E (d + 1) ((n : Int) - m + 1) =
          fr n m E d ((n : Int) - m + 1) := rfl
      rw [hpr] at hgt
      have hvk' : ValidK d ((n : Int) - m + 1) := by
        simp only [ValidK] at hvk ⊢
        rcases hC with hC | ⟨hC, -⟩ <;> push_cast at hC <;> omega
      have hft : found n m E d = true := by
        rw [found_iff]
        exact ⟨(n : Int) - m + 1, hvk', by omega, by omega⟩
      simp [hft] at hmind
    · rw [hs] at hgt
      have hpr : prevRow n m E (d + 1) ((n : Int) - m - 1) =
          fr n m E d ((n : Int) - m - 1) := rfl
      rw [hpr] at hgt
      push_neg at hC
      have hvk' : ValidK d ((n : Int) - m - 1) := by
        simp only [ValidK] at hvk ⊢
        have hC1 := hC.1
        push_cast at hC1
        omega
      have hft : found n m E d = true := by
        rw [found_iff]
        refine ⟨(n : Int) - m - 1, hvk', by push_cast at hgt; omega,
          by push_cast at hgt; omega⟩
      simp [hft] at hmind

/-- Structural properties of the full `Common` trace of a run of `Diff`:
call bounds, elementwise matching, ordering, the final flush ending at
`(n, m)`, and the total number of matched elements. -/
theorem diffTrace_props (n m : Nat) (E : Int → Int → Bool) :
    (∀ c ∈ diffTrace n m E,
        0 ≤ c.1 ∧ 0 ≤ c.2.1 ∧ 0 ≤ c.2.2 ∧ c.1 + c.2.2 ≤ (n : Int) ∧
        c.2.1 + c.2.2 ≤ (m : Int) ∧
        (∀ t : Nat, (t : Int) < c.2.2 →
          (c.1 + t < (n : Int) ∧ c.2.1 + t < (m : Int) ∧
            E (c.1 + t) (c.2.1 + t) = true))) ∧
    List.Pairwise (fun c c' => c.1 + c.2.2 ≤ c'.1 ∧ c.2.1 + c.2.2 ≤ c'.2.1)
      (diffTrace n m E) ∧
    (∃ l c, diffTrace n m E = l ++ [c] ∧ c.1 + c.2.2 = (n : Int) ∧
      c.2.1 + c.2.2 = (m : Int)) ∧
    2 * ((diffTrace n m E).map (fun c => c.2.2)).sum =
      (n : Int) + m - ((n + m - 2 * lcsLen E n m : Nat) : Int) := by
  have hr := reaches_dmin n m E
  have habs := hr.absdiff
  obtain ⟨p, -, -, hcount⟩ := reaches_matching hr
  have hvk : ValidK (n + m - 2 * lcsLen E n m) ((n : Int) - m) := by
    simp only [ValidK]
    omega
  have hfrmax := fr_max (n + m - 2 * lcsLen E n m) ((n : Int) - m) hvk n
    (reaches_cast hr rfl (by ring) rfl)
  have hstep := step_le_of_not_found n m E hvk (found_min n m E)
  have hmaster := trace_master n m E (n + m - 2 * lcsLen E n m)
    (n + m - 2 * lcsLen E n m) n m hvk hstep hfrmax
  obtain ⟨m1, m2, m3, m4⟩ := hmaster
  have htr : diffTrace n m E = (commonTraceT n m E (n + m - 2 * lcsLen E n m)
      (n + m - 2 * lcsLen E n m) n m).map Prod.snd := by
    rw [diffTrace, diffD_eq]
  rw [htr]
  refine ⟨?_, ?_, ?_, ?_⟩
  · intro c hc
    rw [List.mem_map] at hc
    obtain ⟨c0, hc0, rfl⟩ := hc
    have h4 := m1 c0 hc0
    exact ⟨h4.2.1, h4.2.2.1, h4.2.2.2.1, h4.2.2.2.2.1, h4.2.2.2.2.2.1,
      h4.2.2.2.2.2.2⟩
  · rw [List.pairwise_map]
    exact m2
  · obtain ⟨l, c, hlc, h1, h2⟩ := m3 rfl
    refine ⟨l.map Prod.snd, c, ?_, h1, h2⟩
    rw [hlc]
    simp
  · rw [List.map_map]
    have hcomp : ((fun (c : Int × Int × Int) => c.2.2) ∘
        (Prod.snd : Nat × (Int × Int × Int) → Int × Int × Int)) =
        fun c => c.2.2.2 := rfl
    rw [hcomp]
    exact m4

end TraceLemmas

/-! ## Reconstruction of the input sequences from the reported runs -/

section ReconLemmas

variable {α : Type}

theorem recon_fold (a : List α) (pi : Int × Int × Int → Int) :
    ∀ (tr : List (Int × Int × Int)) (cur : Int), 0 ≤ cur →
    (∀ c ∈ tr, cur ≤ pi c ∧ 0 ≤ c.2.2) →
    List.Pairwise (fun c c' => pi c + c.2.2 ≤ pi c') tr →
    (tr.foldl (fun st c =>
        (st.1 ++ sliceI a st.2 (pi c - st.2) ++ sliceI a (pi c) c.2.2, pi c + c.2.2))
      (a.take cur.toNat, cur)).1 =
      a.take ((tr.foldl (fun _ c => pi c + c.2.2) cur).toNat) := by
  intro tr
  induction tr with
  | nil => intro cur _ _ _; rfl
  | cons c rest ih =>
    intro cur hcur hmem hpw
    rw [List.foldl_cons, List.foldl_cons]
    rw [List.pairwise_cons] at hpw
    have hc := hmem c (List.mem_cons_self c rest)
    have hstep : a.take cur.toNat ++ sliceI a cur (pi c - cur) ++
        sliceI a (pi c) c.2.2 = a.take ((pi c + c.2.2).toNat) := by
      rw [sliceI, sliceI]
      have h1 : a.take cur.toNat ++ (a.drop cur.toNat).take (pi c - cur).toNat =
          a.take (cur.toNat + (pi c - cur).toNat) := (List.take_add a _ _).symm
      rw [h1]
      have h2 : cur.toNat + (pi c - cur).toNat = (pi c).toNat := by omega
      rw [h2]
      have h3 : a.take (pi c).toNat ++ (a.drop (pi c).toNat).take c.2.2.toNat =
          a.take ((pi c).toNat + c.2.2.toNat) := (List.take_add a _ _).symm
      rw [h3]
      have h4 : (pi c).toNat + c.2.2.toNat = (pi c + c.2.2).toNat := by omega
      rw [h4]
    rw [hstep]
    exact ih (pi c + c.2.2) (by omega)
      (fun c' hc' => ⟨hpw.1 c' hc', (hmem c' (List.mem_cons_of_mem c hc')).2⟩)
      hpw.2

theorem reconLeft_eq (a : List α) (tr : List (Int × Int × Int))
    (hmem : ∀ c ∈ tr, 0 ≤ c.1 ∧ 0 ≤ c.2.2)
    (hpw : List.Pairwise (fun c c' => c.1 + c.2.2 ≤ c'.1) tr)
    (hlast : ∃ l c, tr = l ++ [c] ∧ c.1 + c.2.2 = (a.length : Int)) :
    reconLeft a tr = a := by
  obtain ⟨l, c, rfl, hend⟩ := hlast
  have h0 : (List.take (Int.toNat 0) a, (0 : Int)) = (([] : List α), (0 : Int)) := by
    simp
  rw [reconLeft, ← h0]
  rw [recon_fold a (fun c => c.1) (l ++ [c]) 0 le_rfl
    (fun c' hc' => ⟨(hmem c' hc').1, (hmem c' hc').2⟩) hpw]
  rw [List.foldl_append]
  simp only [List.foldl_cons, List.foldl_nil]
  rw [show (c.1 + c.2.2).toNat = a.length by omega]
  exact List.take_length a

theorem reconRight_eq (b : List α) (tr : List (Int × Int × Int))
    (hmem : ∀ c ∈ tr, 0 ≤ c.2.1 ∧ 0 ≤ c.2.2)
    (hpw : List.Pairwise (fun c c' => c.2.1 + c.2.2 ≤ c'.2.1) tr)
    (hlast : ∃ l c, tr = l ++ [c] ∧ c.2.1 + c.2.2 = (b.length : Int)) :
    reconRight b tr = b := by
  obtain ⟨l, c, rfl, hend⟩ := hlast
  have h0 : (List.take (Int.toNat 0) b, (0 : Int)) = (([] : List α), (0 : Int)) := by
    simp
  rw [reconRight, ← h0]
  rw [recon_fold b (fun c => c.2.1) (l ++ [c]) 0 le_rfl
    (fun c' hc' => ⟨(hmem c' hc').1, (hmem c' hc').2⟩) hpw]
  rw [List.foldl_append]
  simp only [List.foldl_cons, List.foldl_nil]
  rw [show (c.2.1 + c.2.2).toNat = b.length by omega]
  exact List.take_length b

end ReconLemmas

/-! ## Degenerate inputs: an empty side -/

section DegenerateLemmas

variable {n m : Nat} {E : Int → Int → Bool}

theorem snakeEnd_left0 {m : Nat} {E : Int → Int → Bool} (x : Nat) (y : Int) :
    snakeEnd 0 m E x y = x := by
  rw [snakeEnd_unfold, if_neg]
  rintro ⟨h1, -⟩
  omega

theorem snakeEnd_right0 {n : Nat} {E : Int → Int → Bool} (x : Nat) (y : Int)
    (hy : 0 ≤ y) : snakeEnd n 0 E x y = x := by
  rw [snakeEnd_unfold, if_neg]
  rintro ⟨-, h2, -⟩
  omega

theorem fr_left0 {m : Nat} {E : Int → Int → Bool} :
    ∀ d : Nat, fr 0 m E d (-((d : Nat) : Int)) = 0 := by
  intro d
  induction d with
  | zero =>
    have hs : stepX (prevRow 0 m E 0) 0 (-((0 : Nat) : Int)) = 0 := by
      rw [stepX, if_pos (Or.inl rfl)]
      exact prevRow_zero _
    rw [fr_as_snake, hs, snakeEnd_left0]
  | succ d ih =>
    have hfr_eq : fr 0 m E (d + 1) = frStep 0 m E (fr 0 m E d) (d + 1) := rfl
    rw [hfr_eq, frStep]
    have hs : stepX (fr 0 m E d) (d + 1) (-(((d + 1 : Nat)) : Int)) =
        fr 0 m E d (-(((d + 1 : Nat)) : Int) + 1) := by
      rw [stepX, if_pos (Or.inl rfl)]
    rw [hs, show (-(((d + 1 : Nat)) : Int) + 1) = -((d : Nat) : Int) by push_cast; ring,
      ih, snakeEnd_left0]

theorem fr_right0 {n : Nat} {E : Int → Int → Bool} :
    ∀ d : Nat, fr n 0 E d ((d : Nat) : Int) = d := by
  intro d
  induction d with
  | zero =>
    have hs : stepX (prevRow n 0 E 0) 0 (((0 : Nat) : Int)) = 0 := by
      rw [stepX, if_pos (Or.inl (by omega))]
      exact prevRow_zero _
    rw [fr_as_snake, hs, snakeEnd_right0]
    omega
  | succ d ih =>
    have hfr_eq : fr n 0 E (d + 1) = frStep n 0 E (fr n 0 E d) (d + 1) := rfl
    rw [hfr_eq, frStep]
    have hC : ¬ ((((d + 1 : Nat)) : Int) = -((d + 1 : Nat) : Int) ∨
        ((((d + 1 : Nat)) : Int) ≠ ((d + 1 : Nat) : Int) ∧
          fr n 0 E d (((d + 1 : Nat) : Int) - 1) < fr n 0 E d (((d + 1 : Nat) : Int) + 1))) := by
      push_neg
      exact ⟨by push_cast; omega, fun h => absurd rfl h⟩
    have hs : stepX (fr n 0 E d) (d + 1) (((d + 1 : Nat)) : Int) =
        fr n 0 E d (((d + 1 : Nat) : Int) - 1) + 1 := by
      rw [stepX, if_neg hC]
    rw [hs, show (((d + 1 : Nat) : Int) - 1) = ((d : Nat) : Int) by push_cast; ring, ih]
    rw [snakeEnd_right0]
    push_cast
    omega

theorem trace_left0 {m : Nat} {E : Int → Int → Bool} (D : Nat) :
    ∀ d : Nat, d ≤ D → commonTraceT 0 m E D d 0 ((d : Nat) : Int) =
      if d = D then [(D, ((0 : Int), ((d : Nat) : Int), 0))] else [] := by
  intro d
  induction d with
  | zero =>
    intro hD
    have hxm : (frameX 0 m E 0 0 ((0 : Nat) : Int)).2.2 = 0 := by
      rw [frameX_xm, stepX, if_pos (Or.inl (by omega))]
      exact prevRow_zero _
    rw [commonTraceT_zero, hxm]
    by_cases h0 : 0 = D
    · subst h0
      rw [if_pos (Or.inr rfl), if_pos rfl]
      norm_num
    · rw [if_neg (by push_neg; exact ⟨by norm_num, h0⟩), if_neg h0]
  | succ d ih =>
    intro hD
    have hfx : frameX 0 m E (d + 1) 0 ((d + 1 : Nat) : Int) =
        (0, ((d : Nat) : Int), 0) := by
      have hcond : (0 : Int) - ((d + 1 : Nat) : Int) = -((d + 1 : Nat) : Int) := by ring
      rw [frameX, if_pos (Or.inl hcond)]
      have h1 : prevRow 0 m E (d + 1) ((0 : Int) - ((d + 1 : Nat) : Int) + 1) = 0 := by
        have : prevRow 0 m E (d + 1) = fr 0 m E d := rfl
        rw [this, show ((0 : Int) - ((d + 1 : Nat) : Int) + 1) = -((d : Nat) : Int) by
          push_cast; ring]
        exact fr_left0 d
      rw [h1]
      have h2 : ((0 : Nat) : Int) - ((0 : Int) - ((d + 1 : Nat) : Int) + 1) =
          ((d : Nat) : Int) := by push_cast; ring
      rw [h2]
  -- assemble
    rw [commonTraceT_succ, hfx]
    have hchild := ih (by omega)
    rw [if_neg (by omega)] at hchild
    have hchild' : commonTraceT 0 m E D d ((0 : Nat) : Int) ((d : Nat) : Int) = [] := by
      exact_mod_cast hchild
    rw [show ((0, ((d : Nat) : Int), 0) : Nat × Int × Nat).1 = 0 from rfl]
    rw [show ((0, ((d : Nat) : Int), 0) : Nat × Int × Nat).2.1 = ((d : Nat) : Int) from rfl]
    rw [show ((0, ((d : Nat) : Int), 0) : Nat × Int × Nat).2.2 = 0 from rfl]
    rw [hchild']
    by_cases h0 : d + 1 = D
    · rw [if_pos (Or.inr h0), if_pos h0, h0]
      norm_num
    · rw [if_neg (by push_neg; exact ⟨by norm_num, h0⟩), if_neg h0]
      rfl

theorem trace_right0 {n : Nat} {E : Int → Int → Bool} (D : Nat) :
    ∀ d : Nat, d ≤ D → commonTraceT n 0 E D d ((d : Nat) : Int) 0 =
      if d = D then [(D, (((d : Nat) : Int), (0 : Int), 0))] else [] := by
  intro d
  induction d with
  | zero =>
    intro hD
    have hxm : (frameX n 0 E 0 ((0 : Nat) : Int) 0).2.2 = 0 := by
      rw [frameX_xm, stepX, if_pos (Or.inl (by omega))]
      exact prevRow_zero _
    rw [commonTraceT_zero, hxm]
    by_cases h0 : 0 = D
    · subst h0
      rw [if_pos (Or.inr rfl), if_pos rfl]
      norm_num
    · rw [if_neg (by push_neg; exact ⟨by norm_num, h0⟩), if_neg h0]
  | succ d ih =>
    intro hD
    have hCneg : ¬ ((((d + 1 : Nat)) : Int) - 0 = -((d + 1 : Nat) : Int) ∨
        ((((d + 1 : Nat)) : Int) - 0 ≠ ((d + 1 : Nat) : Int) ∧
          prevRow n 0 E (d + 1) ((((d + 1 : Nat)) : Int) - 0 - 1) <
            prevRow n 0 E (d + 1) ((((d + 1 : Nat)) : Int) - 0 + 1))) := by
      push_neg
      refine ⟨by push_cast; omega, fun h => absurd ?_ h⟩
      push_cast
      ring
    have hfx : frameX n 0 E (d + 1) ((d + 1 : Nat) : Int) 0 =
        (fr n 0 E d ((((d + 1 : Nat)) : Int) - 0 - 1),
          (fr n 0 E d ((((d + 1 : Nat)) : Int) - 0 - 1) : Int) -
            ((((d + 1 : Nat)) : Int) - 0 - 1),
          fr n 0 E d ((((d + 1 : Nat)) : Int) - 0 - 1) + 1) := by
      rw [frameX, if_neg hCneg]
      rfl
    have harg : (((d + 1 : Nat)) : Int) - 0 - 1 = ((d : Nat) : Int) := by push_cast; ring
    rw [commonTraceT_succ, hfx]
    dsimp only
    rw [harg, fr_right0]
    have hchild := ih (by omega)
    rw [if_neg (by omega)] at hchild
    have hchild' : commonTraceT n 0 E D d ((d : Nat) : Int)
        (((d : Nat) : Int) - ((d : Nat) : Int)) = [] := by
      rw [show ((d : Nat) : Int) - ((d : Nat) : Int) = ((0 : Nat) : Int) by push_cast; ring]
      exact_mod_cast hchild
    rw [hchild']
    by_cases h0 : d + 1 = D
    · rw [if_pos (Or.inr h0), if_pos h0, h0]
      simp only [List.nil_append, List.cons.injEq, Prod.mk.injEq]
      norm_num
    · rw [if_neg (by push_neg; exact ⟨by push_cast; omega, h0⟩), if_neg h0]
      rfl

end DegenerateLemmas

/-! ## Symmetry of the result size, and the range of Equal calls -/

section SymmetryLemmas

variable {E : Int → Int → Bool}

theorem lcsLen_swap_aux : ∀ (N i j : Nat), i + j ≤ N →
    lcsLen (swapE E) j i = lcsLen E i j := by
  intro N
  induction N with
  | zero =>
    intro i j h
    obtain rfl : i = 0 := by omega
    obtain rfl : j = 0 := by omega
    rw [lcsLen_zero_left, lcsLen_zero_left]
  | succ N ihN =>
    intro i j hij
    rcases i with _ | i
    · rw [lcsLen_zero_left, lcsLen_zero_right]
    rcases j with _ | j
    · rw [lcsLen_zero_left, lcsLen_zero_right]
    rw [lcsLen_succ, lcsLen_succ]
    have hsw : swapE E (j : Int) (i : Int) = E (i : Int) (j : Int) := rfl
    rw [hsw]
    split
    · rw [ihN i j (by omega)]
    · rw [ihN i (j + 1) (by omega), ihN (i + 1) j (by omega)]
      exact Nat.max_comm _ _

theorem lcsLen_swap (E : Int → Int → Bool) (i j : Nat) :
    lcsLen (swapE E) j i = lcsLen E i j :=
  lcsLen_swap_aux (i + j) i j le_rfl

theorem sum_len_toNat : ∀ (l : List (Int × Int × Int)),
    (∀ c ∈ l, 0 ≤ c.2.2) →
    (((l.map (fun c => c.2.2.toNat)).sum : Nat) : Int) =
      (l.map (fun c => c.2.2)).sum := by
  intro l
  induction l with
  | nil => intro _; simp
  | cons c rest ih =>
    intro h
    simp only [List.map_cons, List.sum_cons, Nat.cast_add]
    rw [ih (fun c' hc' => h c' (List.mem_cons_of_mem c hc'))]
    have := h c (List.mem_cons_self c rest)
    omega

/-- The total number of matched element pairs reported by a run of `Diff`
is exactly the LCS length. -/
theorem matchedPairs_length (n m : Nat) (E : Int → Int → Bool) :
    (matchedPairs n m E).length = lcsLen E n m := by
  obtain ⟨h1, -, -, h4⟩ := diffTrace_props n m E
  rw [matchedPairs, List.length_flatMap]
  simp only [Function.comp_def, List.length_map, List.length_range]
  have hsum := sum_len_toNat (diffTrace n m E) (fun c hc => (h1 c hc).2.2.1)
  have hL1 := lcsLen_le_left (E := E) n m
  have hL2 := lcsLen_le_right (E := E) n m
  omega

theorem snakeCallsAux_mem {n m : Nat} : ∀ (f x : Nat) (y : Int) (p : Int × Int),
    p ∈ snakeCallsAux n m E f x y →
    (x : Int) ≤ p.1 ∧ p.1 < (n : Int) ∧ y ≤ p.2 ∧ p.2 < (m : Int) := by
  intro f
  induction f with
  | zero =>
    intro x y p hp
    simp [snakeCallsAux] at hp
  | succ f ih =>
    intro x y p hp
    rw [snakeCallsAux] at hp
    split at hp
    · next hxy =>
      split at hp
      · rcases List.mem_cons.mp hp with rfl | hp'
        · dsimp only
          exact ⟨le_rfl, by exact_mod_cast hxy.1, le_rfl, hxy.2⟩
        · have h4 := ih (x + 1) (y + 1) p hp'
          refine ⟨?_, h4.2.1, by omega, h4.2.2.2⟩
          have := h4.1
          push_cast at this ⊢
          omega
      · rw [List.mem_singleton] at hp
        subst hp
        dsimp only
        exact ⟨le_rfl, by exact_mod_cast hxy.1, le_rfl, hxy.2⟩
    · simp at hp

theorem snakeCalls_mem {n m : Nat} (x : Nat) (y : Int) (p : Int × Int)
    (hp : p ∈ snakeCalls n m E x y) :
    (x : Int) ≤ p.1 ∧ p.1 < (n : Int) ∧ y ≤ p.2 ∧ p.2 < (m : Int) :=
  snakeCallsAux_mem (n - x) x y p hp

end SymmetryLemmas

/-! ## The side-by-side gap loop -/

section SbsLemmas

/-- The total length reported by the `Common` calls is the LCS length. -/
theorem trace_len_sum (n m : Nat) (E : Int → Int → Bool) :
    ((diffTrace n m E).map fun c => c.2.2.toNat).sum = lcsLen E n m := by
  obtain ⟨h1, -, -, h4⟩ := diffTrace_props n m E
  have hsum := sum_len_toNat (diffTrace n m E) (fun c hc => (h1 c hc).2.2.1)
  have hL1 := lcsLen_le_left (E := E) n m
  have hL2 := lcsLen_le_right (E := E) n m
  omega

theorem sbsGapAux_succ (a b : List String) : ∀ (f di dj : Nat) (i j : Int),
    (i - di).toNat + (j - dj).toNat ≤ f →
    sbsGapAux a b (f + 1) di dj i j = sbsGapAux a b f di dj i j := by
  intro f
  induction f with
  | zero =>
    intro di dj i j hf
    have hc : ¬ ((di : Int) < i ∨ (dj : Int) < j) := by
      push_neg
      constructor <;> omega
    rw [sbsGapAux, sbsGapAux, if_neg hc]
  | succ f ih =>
    intro di dj i j hf
    by_cases hc : (di : Int) < i ∨ (dj : Int) < j
    · conv_lhs => rw [sbsGapAux]
      conv_rhs => rw [sbsGapAux]
      rw [if_pos hc, if_pos hc]
      dsimp only
      have hle : (i - ((if (di : Int) < i then di + 1 else di : Nat) : Int)).toNat +
          (j - ((if (dj : Int) < j then dj + 1 else dj : Nat) : Int)).toNat ≤ f := by
        split <;> split <;> omega
      rw [ih _ _ i j hle]
    · conv_lhs => rw [sbsGapAux]
      conv_rhs => rw [sbsGapAux]
      rw [if_neg hc, if_neg hc]

theorem sbsGapAux_eq (a b : List String) : ∀ (f di dj : Nat) (i j : Int),
    (i - di).toNat + (j - dj).toNat ≤ f →
    sbsGapAux a b f di dj i j = sbsGap a b di dj i j := by
  intro f
  induction f with
  | zero =>
    intro di dj i j hf
    rw [sbsGap]
    obtain h0 : (i - (di : Int)).toNat + (j - (dj : Int)).toNat = 0 := by omega
    rw [h0]
  | succ f ih =>
    intro di dj i j hf
    rcases Nat.lt_or_ge f ((i - di).toNat + (j - dj).toNat) with hlt | hge
    · rw [sbsGap]
      obtain h0 : (i - (di : Int)).toNat + (j - (dj : Int)).toNat = f + 1 := by omega
      rw [h0]
    · rw [sbsGapAux_succ a b f di dj i j hge, ih di dj i j hge]

/-- The gap loop does nothing when the cursor has reached the run start. -/
theorem sbsGap_stop (a b : List String) (di dj : Nat) (i j : Int)
    (hi : i ≤ (di : Int)) (hj : j ≤ (dj : Int)) :
    sbsGap a b di dj i j = ([], di, dj) := by
  rw [sbsGap]
  obtain h0 : (i - (di : Int)).toNat + (j - (dj : Int)).toNat = 0 := by omega
  rw [h0, sbsGapAux]

/-- While both sides have unmatched rows, the gap loop pairs them
positionally one at a time as `Changed`, advancing both cursors. -/
theorem sbsGap_changed (a b : List String) (di dj : Nat) (i j : Int)
    (hdi : (di : Int) < i) (hdj : (dj : Int) < j) :
    sbsGap a b di dj i j =
      (⟨a.getD di "", b.getD dj "", Changed⟩ :: (sbsGap a b (di + 1) (dj + 1) i j).1,
        (sbsGap a b (di + 1) (dj + 1) i j).2) := by
  rw [sbsGap]
  obtain h0 : (i - (di : Int)).toNat + (j - (dj : Int)).toNat =
      ((i - ((di + 1 : Nat) : Int)).toNat + (j - ((dj + 1 : Nat) : Int)).toNat) + 1 + 1 := by
    omega
  rw [h0, sbsGapAux, if_pos (Or.inl hdi)]
  dsimp only
  rw [if_neg (not_not_intro hdi), if_neg (not_not_intro hdj)]
  rw [if_pos hdi, if_pos hdi, if_pos hdj, if_pos hdj]
  have htail := sbsGapAux_eq a b
    ((i - ((di + 1 : Nat) : Int)).toNat + (j - ((dj + 1 : Nat) : Int)).toNat + 1)
    (di + 1) (dj + 1) i j (by omega)
  rw [htail]

/-- When only the right side has unmatched rows, the gap loop emits one
`Added` line per remaining right row, leaving the left cursor in place. -/
theorem sbsGap_added_aux (a b : List String) : ∀ (q di dj : Nat) (i j : Int),
    i ≤ (di : Int) → (j - (dj : Int)).toNat = q →
    sbsGap a b di dj i j =
      ((List.range q).map fun t => ⟨"", b.getD (dj + t) "", Added⟩, di, dj + q) := by
  intro q
  induction q with
  | zero =>
    intro di dj i j hi hq
    rw [sbsGap_stop a b di dj i j hi (by omega)]
    rfl
  | succ q ih =>
    intro di dj i j hi hq
    have hdj : (dj : Int) < j := by omega
    rw [sbsGap]
    obtain h0 : (i - (di : Int)).toNat + (j - (dj : Int)).toNat = q + 1 := by omega
    rw [h0, sbsGapAux, if_pos (Or.inr hdj)]
    dsimp only
    rw [if_pos (not_lt.mpr hi)]
    rw [if_neg (not_lt.mpr hi), if_neg (not_lt.mpr hi)]
    rw [if_pos hdj, if_pos hdj]
    have htail := sbsGapAux_eq a b q di (dj + 1) i j (by omega)
    rw [htail, ih di (dj + 1) i j hi (by omega)]
    dsimp only
    simp only [List.range_succ_eq_map, List.map_cons, List.map_map, Prod.mk.injEq]
    refine ⟨?_, trivial, by omega⟩
    refine List.cons_eq_cons.mpr ⟨rfl, ?_⟩
    refine List.map_congr_left ?_
    intro t ht
    simp only [Function.comp_apply]
    have hts : dj + 1 + t = dj + Nat.succ t := by omega
    rw [hts]

/-- When only the left side has unmatched rows, the gap loop emits one
`Deleted` line per remaining left row, leaving the right cursor in place. -/
theorem sbsGap_deleted_aux (a b : List String) : ∀ (q di dj : Nat) (i j : Int),
    j ≤ (dj : Int) → (i - (di : Int)).toNat = q →
    sbsGap a b di dj i j =
      ((List.range q).map fun t => ⟨a.getD (di + t) "", "", Deleted⟩, di + q, dj) := by
  intro q
  induction q with
  | zero =>
    intro di dj i j hj hq
    rw [sbsGap_stop a b di dj i j (by omega) hj]
    rfl
  | succ q ih =>
    intro di dj i j hj hq
    have hdi : (di : Int) < i := by omega
    rw [sbsGap]
    obtain h0 : (i - (di : Int)).toNat + (j - (dj : Int)).toNat = q + 1 := by omega
    rw [h0, sbsGapAux, if_pos (Or.inl hdi)]
    dsimp only
    rw [if_neg (not_not_intro hdi), if_pos (not_lt.mpr hj)]
    rw [if_pos hdi, if_pos hdi]
    rw [if_neg (not_lt.mpr hj), if_neg (not_lt.mpr hj)]
    have htail := sbsGapAux_eq a b q (di + 1) dj i j (by omega)
    rw [htail, ih (di + 1) dj i j hj (by omega)]
    dsimp only
    simp only [List.range_succ_eq_map, List.map_cons, List.map_map, Prod.mk.injEq]
    refine ⟨?_, by omega, trivial⟩
    refine List.cons_eq_cons.mpr ⟨rfl, ?_⟩
    refine List.map_congr_left ?_
    intro t ht
    simp only [Function.comp_apply]
    have hts : di + 1 + t = di + Nat.succ t := by omega
    rw [hts]

/-- No line emitted by the gap loop is a `NoChange` line. -/
theorem sbsGapAux_kind_ne (a b : List String) : ∀ (f di dj : Nat) (i j : Int),
    ∀ l ∈ (sbsGapAux a b f di dj i j).1, l.kind ≠ NoChange := by
  intro f
  induction f with
  | zero =>
    intro di dj i j l hl
    rw [sbsGapAux] at hl
    simp at hl
  | succ f ih =>
    intro di dj i j l hl
    rw [sbsGapAux] at hl
    by_cases hc : (di : Int) < i ∨ (dj : Int) < j
    · rw [if_pos hc] at hl
      dsimp only at hl
      rcases List.mem_cons.mp hl with rfl | hl'
      · dsimp only
        split
        · decide
        · split <;> decide
      · exact ih _ _ i j l hl'
    · rw [if_neg hc] at hl
      simp at hl

/-- Each `sideBySide.Common` call adds exactly `n` `NoChange` lines. -/
theorem sbsCommon_count (a b : List String) (st : Nat × Nat × List SideBySideLine)
    (c : Int × Int × Int) :
    ((sbsCommon a b st c).2.2).countP (fun l => l.kind == NoChange) =
      (st.2.2).countP (fun l => l.kind == NoChange) + c.2.2.toNat := by
  rw [sbsCommon]
  dsimp only
  rw [List.countP_append, List.countP_append]
  have hgap : ((sbsGap a b st.1 st.2.1 c.1 c.2.1).1).countP
      (fun l => l.kind == NoChange) = 0 := by
    rw [List.countP_eq_zero]
    intro l hl
    have hne := sbsGapAux_kind_ne a b _ st.1 st.2.1 c.1 c.2.1 l hl
    simpa using hne
  have hnc : (((List.range c.2.2.toNat).map fun t =>
      SideBySideLine.mk (a.getD ((sbsGap a b st.1 st.2.1 c.1 c.2.1).2.1 + t) "")
        (b.getD ((sbsGap a b st.1 st.2.1 c.1 c.2.1).2.2 + t) "") NoChange)).countP
      (fun l => l.kind == NoChange) = c.2.2.toNat := by
    have hall : ∀ l ∈ ((List.range c.2.2.toNat).map fun t =>
        SideBySideLine.mk (a.getD ((sbsGap a b st.1 st.2.1 c.1 c.2.1).2.1 + t) "")
          (b.getD ((sbsGap a b st.1 st.2.1 c.1 c.2.1).2.2 + t) "") NoChange),
        (fun l => l.kind == NoChange) l = true := by
      intro l hl
      rw [List.mem_map] at hl
      obtain ⟨t, -, rfl⟩ := hl
      simp
    rw [List.countP_eq_length.mpr hall, List.length_map, List.length_range]
  rw [hgap, hnc]
  omega

theorem sbs_count_foldl (a b : List String) : ∀ (ts : List (Int × Int × Int))
    (st : Nat × Nat × List SideBySideLine),
    ((ts.foldl (sbsCommon a b) st).2.2).countP (fun l => l.kind == NoChange) =
      (st.2.2).countP (fun l => l.kind == NoChange) + (ts.map fun c => c.2.2.toNat).sum := by
  intro ts
  induction ts with
  | nil =>
    intro st
    simp
  | cons c rest ih =>
    intro st
    rw [List.foldl_cons, ih (sbsCommon a b st c), sbsCommon_count a b st c]
    simp only [List.map_cons, List.sum_cons]
    omega

/-- `SideBySide` emits exactly one `NoChange` line per matched row: their
total count is the LCS length of the two line lists. -/
theorem sbs_nochange_count (a b : List String) :
    (SideBySide a b).countP (fun l => l.kind == NoChange) =
      lcsLen (eqAt a b) a.length b.length := by
  rw [SideBySide, sbs_count_foldl a b _ (0, 0, [])]
  dsimp only
  rw [List.countP_nil, Nat.zero_add, trace_len_sum]

end SbsLemmas

/-! ## The annotate adapter -/

section AnnLemmas

/-- What a `true` answer of the total equality `eqAt` means: both indices
are in range and the two elements are equal. -/
theorem eqAt_true {α : Type} [DecidableEq α] {u v : List α} {i j : Int}
    (h : eqAt u v i j = true) :
    0 ≤ i ∧ 0 ≤ j ∧ ∃ x, u.get? i.toNat = some x ∧ v.get? j.toNat = some x := by
  rw [eqAt] at h
  split at h
  · next x y hu hv =>
    simp only [decide_eq_true_eq] at h
    refine ⟨h.1, h.2.1, x, by rw [hu], ?_⟩
    rw [hv, h.2.2]
  · simp at h

/-- Reading `k` consecutive elements with `getD` from an in-range start is
the `drop`/`take` slice. -/
theorem range_getD_eq_slice {α : Type} (dflt : α) (k s : Nat) (l : List α)
    (h : s + k ≤ l.length) :
    (List.range k).map (fun t => l.getD (s + t) dflt) = (l.drop s).take k := by
  apply List.ext_getElem
  · simp only [List.length_map, List.length_range, List.length_take, List.length_drop]
    omega
  · intro t h1 h2
    simp only [List.length_map, List.length_range] at h1
    simp only [List.getElem_map, List.getElem_range, List.getElem_take, List.getElem_drop]
    rw [List.getD_eq_getElem?_getD, List.getElem?_eq_getElem (by omega)]
    rfl

/-- Two runs reported elementwise equal by `eqAt` are equal slices. -/
theorem slice_eq_of_eqAt {α : Type} [DecidableEq α] (u v : List α) (i j len : Int)
    (hi : 0 ≤ i) (hj : 0 ≤ j)
    (hiu : i + len ≤ (u.length : Int)) (hjv : j + len ≤ (v.length : Int))
    (hmatch : ∀ t : Nat, (t : Int) < len → eqAt u v (i + t) (j + t) = true) :
    sliceI u i len = sliceI v j len := by
  rw [sliceI, sliceI]
  apply List.ext_getElem
  · simp only [List.length_take, List.length_drop]
    omega
  · intro t h1 h2
    simp only [List.length_take, List.length_drop] at h1
    have ht : (t : Int) < len := by omega
    obtain ⟨-, -, x, hx1, hx2⟩ := eqAt_true (hmatch t ht)
    have hiT : (i + (t : Int)).toNat = i.toNat + t := by omega
    have hjT : (j + (t : Int)).toNat = j.toNat + t := by omega
    rw [hiT] at hx1
    rw [hjT] at hx2
    rw [List.get?_eq_getElem?, List.getElem?_eq_some] at hx1 hx2
    obtain ⟨hb1, hg1⟩ := hx1
    obtain ⟨hb2, hg2⟩ := hx2
    simp only [List.getElem_take, List.getElem_drop]
    exact hg1.trans hg2.symm

/-- Invariant of the `annotate.Common` fold: the texts of the output are
exactly the processed prefix of the right sequence. -/
theorem annotate_fold_text (a : List AnnotatedLine) (b : List String) (version : Int) :
    ∀ (tr : List (Int × Int × Int)) (cur : Nat) (out : List AnnotatedLine),
    cur ≤ b.length →
    (∀ c ∈ tr,
      (cur : Int) ≤ c.2.1 ∧ 0 ≤ c.1 ∧ 0 ≤ c.2.2 ∧
      c.1 + c.2.2 ≤ (a.length : Int) ∧ c.2.1 + c.2.2 ≤ (b.length : Int) ∧
      (∀ t : Nat, (t : Int) < c.2.2 →
        eqAt (a.map AnnotatedLine.text) b (c.1 + t) (c.2.1 + t) = true)) →
    List.Pairwise (fun c c' => c.2.1 + c.2.2 ≤ c'.2.1) tr →
    out.map AnnotatedLine.text = b.take cur →
    ((tr.foldl (annCommon a b version) (cur, out)).2).map AnnotatedLine.text =
      b.take (tr.foldl (fun _ c => (c.2.1 + c.2.2).toNat) cur) := by
  intro tr
  induction tr with
  | nil =>
    intro cur out hcur hmem hpw hout
    exact hout
  | cons c rest ih =>
    intro cur out hcur hmem hpw hout
    rw [List.foldl_cons, List.foldl_cons]
    rw [List.pairwise_cons] at hpw
    obtain ⟨hcj, hc1, hclen, hcia, hcjb, hcm⟩ := hmem c (List.mem_cons_self c rest)
    have hstate : annCommon a b version (cur, out) c =
        ((c.2.1 + c.2.2).toNat,
          out ++ ((List.range (c.2.1 - (cur : Int)).toNat).map fun t =>
            AnnotatedLine.mk (b.getD (cur + t) "") version) ++ sliceI a c.1 c.2.2) := rfl
    rw [hstate]
    refine ih (c.2.1 + c.2.2).toNat _ (by omega) ?_ hpw.2 ?_
    · intro c' hc'
      have h' := hmem c' (List.mem_cons_of_mem c hc')
      have hord := hpw.1 c' hc'
      exact ⟨by omega, h'.2.1, h'.2.2.1, h'.2.2.2.1, h'.2.2.2.2.1, h'.2.2.2.2.2⟩
    · rw [List.map_append, List.map_append, hout]
      have hgap : (((List.range (c.2.1 - (cur : Int)).toNat).map fun t =>
          AnnotatedLine.mk (b.getD (cur + t) "") version)).map AnnotatedLine.text =
          (b.drop cur).take (c.2.1 - (cur : Int)).toNat := by
        rw [List.map_map]
        have hcomp : (AnnotatedLine.text ∘ fun t =>
            AnnotatedLine.mk (b.getD (cur + t) "") version) =
            fun t => b.getD (cur + t) "" := rfl
        rw [hcomp]
        exact range_getD_eq_slice "" _ cur b (by omega)
      have hslice : (sliceI a c.1 c.2.2).map AnnotatedLine.text =
          (b.drop c.2.1.toNat).take c.2.2.toNat := by
        have hse := slice_eq_of_eqAt (a.map AnnotatedLine.text) b c.1 c.2.1 c.2.2
          hc1 (by omega) (by rw [List.length_map]; exact hcia) hcjb hcm
        rw [sliceI, List.map_take, List.map_drop]
        rw [sliceI, sliceI] at hse
        exact hse
      rw [hgap, hslice]
      have h1 : b.take cur ++ (b.drop cur).take (c.2.1 - (cur : Int)).toNat =
          b.take (cur + (c.2.1 - (cur : Int)).toNat) := (List.take_add b _ _).symm
      rw [h1]
      have h2 : cur + (c.2.1 - (cur : Int)).toNat = c.2.1.toNat := by omega
      rw [h2]
      have h3 : b.take c.2.1.toNat ++ (b.drop c.2.1.toNat).take c.2.2.toNat =
          b.take (c.2.1.toNat + c.2.2.toNat) := (List.take_add b _ _).symm
      rw [h3]
      have h4 : c.2.1.toNat + c.2.2.toNat = (c.2.1 + c.2.2).toNat := by omega
      rw [h4]

/-- Every line the `annotate.Common` fold emits is either a freshly
versioned right-side line or is copied from the previous annotated lines. -/
theorem annotate_fold_version (a : List AnnotatedLine) (b : List String) (version : Int) :
    ∀ (tr : List (Int × Int × Int)) (st : Nat × List AnnotatedLine),
    (∀ l ∈ st.2, l.version = version ∨ l ∈ a) →
    ∀ l ∈ (tr.foldl (annCommon a b version) st).2, l.version = version ∨ l ∈ a := by
  intro tr
  induction tr with
  | nil =>
    intro st h
    exact h
  | cons c rest ih =>
    intro st h
    rw [List.foldl_cons]
    refine ih _ ?_
    intro l hl
    rw [annCommon] at hl
    dsimp only at hl
    rw [List.mem_append, List.mem_append] at hl
    rcases hl with (hl | hl) | hl
    · exact h l hl
    · rw [List.mem_map] at hl
      obtain ⟨t, -, rfl⟩ := hl
      exact Or.inl rfl
    · right
      rw [sliceI] at hl
      exact List.mem_of_mem_drop (List.mem_of_mem_take hl)

end AnnLemmas

/-! ## The documented regression case: staged evaluation of the search -/

section C2Fixture

theorem stepX_compute (prev : Int → Nat) (d : Nat) (k : Int) (v1 v2 x : Nat)
    (h1 : prev (k - 1) = v1) (h2 : prev (k + 1) = v2)
    (hx : (if k = -(d : Int) ∨ (k ≠ (d : Int) ∧ v1 < v2) then v2 else v1 + 1) = x) :
    stepX prev d k = x := by
  rw [stepX, h1, h2]
  exact hx

theorem stepX_low (prev : Int → Nat) (d : Nat) (k : Int) (hk : k = -(d : Int)) :
    stepX prev d k = prev (k + 1) := by
  rw [stepX, if_pos (Or.inl hk)]

theorem stepX_high (prev : Int → Nat) (d : Nat) (k : Int) (hk : k = (d : Int))
    (hnd : k ≠ -(d : Int)) :
    stepX prev d k = prev (k - 1) + 1 := by
  rw [stepX, if_neg]
  rintro (h | ⟨hne, -⟩)
  · exact hnd h
  · exact hne hk

theorem frStep_compute (n m : Nat) (E : Int → Int → Bool) (prev : Int → Nat)
    (d : Nat) (k : Int) (x r : Nat)
    (hx : stepX prev d k = x)
    (hr : snakeEnd n m E x ((x : Int) - k) = r) :
    frStep n m E prev d k = r := by
  rw [frStep, hx]
  exact hr

theorem any_false {α : Type} (f : α → Bool) : ∀ (l : List α),
    (∀ x ∈ l, f x = false) → l.any f = false := by
  intro l
  induction l with
  | nil => intro h; rfl
  | cons x xs ih =>
    intro h
    rw [List.any_cons, h x (List.mem_cons_self x xs),
      ih (fun y hy => h y (List.mem_cons_of_mem x hy))]
    rfl

theorem frameX_compute (n m : Nat) (E : Int → Int → Bool) (d : Nat) (x1 y1 : Int)
    (v1 v2 : Nat) (r : Nat × Int × Nat)
    (h1 : prevRow n m E d (x1 - y1 - 1) = v1)
    (h2 : prevRow n m E d (x1 - y1 + 1) = v2)
    (hr : (if x1 - y1 = -(d : Int) ∨ (x1 - y1 ≠ (d : Int) ∧ v1 < v2)
        then ((v2 : Nat), (v2 : Int) - (x1 - y1 + 1), v2)
        else (v1, (v1 : Int) - (x1 - y1 - 1), v1 + 1)) = r) :
    frameX n m E d x1 y1 = r := by
  rw [frameX]
  rw [h1, h2]
  exact hr

theorem frameX_low (n m : Nat) (E : Int → Int → Bool) (d : Nat) (x1 y1 : Int)
    (hk : x1 - y1 = -(d : Int)) (v2 : Nat)
    (h2 : prevRow n m E d (x1 - y1 + 1) = v2) :
    frameX n m E d x1 y1 = (v2, (v2 : Int) - (x1 - y1 + 1), v2) := by
  rw [frameX]
  rw [if_pos (Or.inl hk), h2]

theorem frv_0_0 : fr 11 16 E2 0 (0) = 2 := by
  rw [fr_eq_frStep]
  exact frStep_compute 11 16 E2 (prevRow 11 16 E2 0) 0 0 0 2
    ((stepX_low (prevRow 11 16 E2 0) 0 0 (by decide)).trans rfl)
    (by decide)

theorem frv_1_m1 : fr 11 16 E2 1 (-1) = 2 := by
  rw [fr_eq_frStep]
  exact frStep_compute 11 16 E2 (prevRow 11 16 E2 1) 1 (-1) 2 2
    ((stepX_low (prevRow 11 16 E2 1) 1 (-1) (by decide)).trans frv_0_0)
    (by decide)

theorem frv_1_1 : fr 11 16 E2 1 (1) = 3 := by
  rw [fr_eq_frStep]
  exact frStep_compute 11 16 E2 (prevRow 11 16 E2 1) 1 (1) 3 3
    ((stepX_high (prevRow 11 16 E2 1) 1 (1) (by decide) (by decide)).trans
      (congrArg (fun z => z + 1) frv_0_0))
    (by decide)

theorem frv_2_m2 : fr 11 16 E2 2 (-2) = 2 := by
  rw [fr_eq_frStep]
  exact frStep_compute 11 16 E2 (prevRow 11 16 E2 2) 2 (-2) 2 2
    ((stepX_low (prevRow 11 16 E2 2) 2 (-2) (by decide)).trans frv_1_m1)
    (by decide)

theorem frv_2_0 : fr 11 16 E2 2 (0) = 3 := by
  rw [fr_eq_frStep]
  exact frStep_compute 11 16 E2 (prevRow 11 16 E2 2) 2 (0) 3 3
    (stepX_compute (prevRow 11 16 E2 2) 2 (0) 2 3 3
      frv_1_m1 frv_1_1 (by decide))
    (by decide)

theorem frv_2_2 : fr 11 16 E2 2 (2) = 4 := by
  rw [fr_eq_frStep]
  exact frStep_compute 11 16 E2 (prevRow 11 16 E2 2) 2 (2) 4 4
    ((stepX_high (prevRow 11 16 E2 2) 2 (2) (by decide) (by decide)).trans
      (congrArg (fun z => z + 1) frv_1_1))
    (by decide)

theorem frv_3_m3 : fr 11 16 E2 3 (-3) = 4 := by
  rw [fr_eq_frStep]
  exact frStep_compute 11 16 E2 (prevRow 11 16 E2 3) 3 (-3) 2 4
    ((stepX_low (prevRow 11 16 E2 3) 3 (-3) (by decide)).trans frv_2_m2)
    (by decide)

theorem frv_3_m1 : fr 11 16 E2 3 (-1) = 3 := by
  rw [fr_eq_frStep]
  exact frStep_compute 11 16 E2 (prevRow 11 16 E2 3) 3 (-1) 3 3
    (stepX_compute (prevRow 11 16 E2 3) 3 (-1) 2 3 3
      frv_2_m2 frv_2_0 (by decide))
    (by decide)

theorem frv_3_1 : fr 11 16 E2 3 (1) = 4 := by
  rw [fr_eq_frStep]
  exact frStep_compute 11 16 E2 (prevRow 11 16 E2 3) 3 (1) 4 4
    (stepX_compute (prevRow 11 16 E2 3) 3 (1) 3 4 4
      frv_2_0 frv_2_2 (by decide))
    (by decide)

theorem frv_3_3 : fr 11 16 E2 3 (3) = 5 := by
  rw [fr_eq_frStep]
  exact frStep_compute 11 16 E2 (prevRow 11 16 E2 3) 3 (3) 5 5
    ((stepX_high (prevRow 11 16 E2 3) 3 (3) (by decide) (by decide)).trans
      (congrArg (fun z => z + 1) frv_2_2))
    (by decide)

theorem frv_4_m4 : fr 11 16 E2 4 (-4) = 4 := by
  rw [fr_eq_frStep]
  exact frStep_compute 11 16 E2 (prevRow 11 16 E2 4) 4 (-4) 4 4
    ((stepX_low (prevRow 11 16 E2 4) 4 (-4) (by decide)).trans frv_3_m3)
    (by decide)

theorem frv_4_m2 : fr 11 16 E2 4 (-2) = 5 := by
  rw [fr_eq_frStep]
  exact frStep_compute 11 16 E2 (prevRow 11 16 E2 4) 4 (-2) 5 5
    (stepX_compute (prevRow 11 16 E2 4) 4 (-2) 4 3 5
      frv_3_m3 frv_3_m1 (by decide))
    (by decide)

theorem frv_4_0 : fr 11 16 E2 4 (0) = 4 := by
  rw [fr_eq_frStep]
  exact frStep_compute 11 16 E2 (prevRow 11 16 E2 4) 4 (0) 4 4
    (stepX_compute (prevRow 11 16 E2 4) 4 (0) 3 4 4
      frv_3_m1 frv_3_1 (by decide))
    (by decide)

theorem frv_4_2 : fr 11 16 E2 4 (2) = 5 := by
  rw [fr_eq_frStep]
  exact frStep_compute 11 16 E2 (prevRow 11 16 E2 4) 4 (2) 5 5
    (stepX_compute (prevRow 11 16 E2 4) 4 (2) 4 5 5
      frv_3_1 frv_3_3 (by decide))
    (by decide)

theorem frv_4_4 : fr 11 16 E2 4 (4) = 6 := by
  rw [fr_eq_frStep]
  exact frStep_compute 11 16 E2 (prevRow 11 16 E2 4) 4 (4) 6 6
    ((stepX_high (prevRow 11 16 E2 4) 4 (4) (by decide) (by decide)).trans
      (congrArg (fun z => z + 1) frv_3_3))
    (by decide)

theorem frv_5_m5 : fr 11 16 E2 5 (-5) = 4 := by
  rw [fr_eq_frStep]
  exact frStep_compute 11 16 E2 (prevRow 11 16 E2 5) 5 (-5) 4 4
    ((stepX_low (prevRow 11 16 E2 5) 5 (-5) (by decide)).trans frv_4_m4)
    (by decide)

theorem frv_5_m3 : fr 11 16 E2 5 (-3) = 5 := by
  rw [fr_eq_frStep]
  exact frStep_compute 11 16 E2 (prevRow 11 16 E2 5) 5 (-3) 5 5
    (stepX_compute (prevRow 11 16 E2 5) 5 (-3) 4 5 5
      frv_4_m4 frv_4_m2 (by decide))
    (by decide)

theorem frv_5_m1 : fr 11 16 E2 5 (-1) = 6 := by
  rw [fr_eq_frStep]
  exact frStep_compute 11 16 E2 (prevRow 11 16 E2 5) 5 (-1) 6 6
    (stepX_compute (prevRow 11 16 E2 5) 5 (-1) 5 4 6
      frv_4_m2 frv_4_0 (by decide))
    (by decide)

theorem frv_5_1 : fr 11 16 E2 5 (1) = 5 := by
  rw [fr_eq_frStep]
  exact frStep_compute 11 16 E2 (prevRow 11 16 E2 5) 5 (1) 5 5
    (stepX_compute (prevRow 11 16 E2 5) 5 (1) 4 5 5
      frv_4_0 frv_4_2 (by decide))
    (by decide)

theorem frv_5_3 : fr 11 16 E2 5 (3) = 6 := by
  rw [fr_eq_frStep]
  exact frStep_compute 11 16 E2 (prevRow 11 16 E2 5) 5 (3) 6 6
    (stepX_compute (prevRow 11 16 E2 5) 5 (3) 5 6 6
      frv_4_2 frv_4_4 (by decide))
    (by decide)

theorem frv_5_5 : fr 11 16 E2 5 (5) = 7 := by
  rw [fr_eq_frStep]
  exact frStep_compute 11 16 E2 (prevRow 11 16 E2 5) 5 (5) 7 7
    ((stepX_high (prevRow 11 16 E2 5) 5 (5) (by decide) (by decide)).trans
      (congrArg (fun z => z + 1) frv_4_4))
    (by decide)

theorem frv_6_m6 : fr 11 16 E2 6 (-6) = 4 := by
  rw [fr_eq_frStep]
  exact frStep_compute 11 16 E2 (prevRow 11 16 E2 6) 6 (-6) 4 4
    ((stepX_low (prevRow 11 16 E2 6) 6 (-6) (by decide)).trans frv_5_m5)
    (by decide)

theorem frv_6_m4 : fr 11 16 E2 6 (-4) = 5 := by
  rw [fr_eq_frStep]
  exact frStep_compute 11 16 E2 (prevRow 11 16 E2 6) 6 (-4) 5 5
    (stepX_compute (prevRow 11 16 E2 6) 6 (-4) 4 5 5
      frv_5_m5 frv_5_m3 (by decide))
    (by decide)

theorem frv_6_m2 : fr 11 16 E2 6 (-2) = 6 := by
  rw [fr_eq_frStep]
  exact frStep_compute 11 16 E2 (prevRow 11 16 E2 6) 6 (-2) 6 6
    (stepX_compute (prevRow 11 16 E2 6) 6 (-2) 5 6 6
      frv_5_m3 frv_5_m1 (by decide))
    (by decide)

theorem frv_6_0 : fr 11 16 E2 6 (0) = 7 := by
  rw [fr_eq_frStep]
  exact frStep_compute 11 16 E2 (prevRow 11 16 E2 6) 6 (0) 7 7
    (stepX_compute (prevRow 11 16 E2 6) 6 (0) 6 5 7
      frv_5_m1 frv_5_1 (by decide))
    (by decide)

theorem frv_6_2 : fr 11 16 E2 6 (2) = 6 := by
  rw [fr_eq_frStep]
  exact frStep_compute 11 16 E2 (prevRow 11 16 E2 6) 6 (2) 6 6
    (stepX_compute (prevRow 11 16 E2 6) 6 (2) 5 6 6
      frv_5_1 frv_5_3 (by decide))
    (by decide)

theorem frv_6_4 : fr 11 16 E2 6 (4) = 7 := by
  rw [fr_eq_frStep]
  exact frStep_compute 11 16 E2 (prevRow 11 16 E2 6) 6 (4) 7 7
    (stepX_compute (prevRow 11 16 E2 6) 6 (4) 6 7 7
      frv_5_3 frv_5_5 (by decide))
    (by decide)

theorem frv_6_6 : fr 11 16 E2 6 (6) = 8 := by
  rw [fr_eq_frStep]
  exact frStep_compute 11 16 E2 (prevRow 11 16 E2 6) 6 (6) 8 8
    ((stepX_high (prevRow 11 16 E2 6) 6 (6) (by decide) (by decide)).trans
      (congrArg (fun z => z + 1) frv_5_5))
    (by decide)

theorem frv_7_m7 : fr 11 16 E2 7 (-7) = 4 := by
  rw [fr_eq_frStep]
  exact frStep_compute 11 16 E2 (prevRow 11 16 E2 7) 7 (-7) 4 4
    ((stepX_low (prevRow 11 16 E2 7) 7 (-7) (by decide)).trans frv_6_m6)
    (by decide)

theorem frv_7_m5 : fr 11 16 E2 7 (-5) = 7 := by
  rw [fr_eq_frStep]
  exact frStep_compute 11 16 E2 (prevRow 11 16 E2 7) 7 (-5) 5 7
    (stepX_compute (prevRow 11 16 E2 7) 7 (-5) 4 5 5
      frv_6_m6 frv_6_m4 (by decide))
    (by decide)

theorem frv_7_m3 : fr 11 16 E2 7 (-3) = 6 := by
  rw [fr_eq_frStep]
  exact frStep_compute 11 16 E2 (prevRow 11 16 E2 7) 7 (-3) 6 6
    (stepX_compute (prevRow 11 16 E2 7) 7 (-3) 5 6 6
      frv_6_m4 frv_6_m2 (by decide))
    (by decide)

theorem frv_7_m1 : fr 11 16 E2 7 (-1) = 7 := by
  rw [fr_eq_frStep]
  exact frStep_compute 11 16 E2 (prevRow 11 16 E2 7) 7 (-1) 7 7
    (stepX_compute (prevRow 11 16 E2 7) 7 (-1) 6 7 7
      frv_6_m2 frv_6_0 (by decide))
    (by decide)

theorem frv_7_1 : fr 11 16 E2 7 (1) = 8 := by
  rw [fr_eq_frStep]
  exact frStep_compute 11 16 E2 (prevRow 11 16 E2 7) 7 (1) 8 8
    (stepX_compute (prevRow 11 16 E2 7) 7 (1) 7 6 8
      frv_6_0 frv_6_2 (by decide))
    (by decide)

theorem frv_7_3 : fr 11 16 E2 7 (3) = 7 := by
  rw [fr_eq_frStep]
  exact frStep_compute 11 16 E2 (prevRow 11 16 E2 7) 7 (3) 7 7
    (stepX_compute (prevRow 11 16 E2 7) 7 (3) 6 7 7
      frv_6_2 frv_6_4 (by decide))
    (by decide)

theorem frv_7_5 : fr 11 16 E2 7 (5) = 8 := by
  rw [fr_eq_frStep]
  exact frStep_compute 11 16 E2 (prevRow 11 16 E2 7) 7 (5) 8 8
    (stepX_compute (prevRow 11 16 E2 7) 7 (5) 7 8 8
      frv_6_4 frv_6_6 (by decide))
    (by decide)

theorem frv_7_7 : fr 11 16 E2 7 (7) = 9 := by
  rw [fr_eq_frStep]
  exact frStep_compute 11 16 E2 (prevRow 11 16 E2 7) 7 (7) 9 9
    ((stepX_high (prevRow 11 16 E2 7) 7 (7) (by decide) (by decide)).trans
      (congrArg (fun z => z + 1) frv_6_6))
    (by decide)

theorem frv_8_m8 : fr 11 16 E2 8 (-8) = 4 := by
  rw [fr_eq_frStep]
  exact frStep_compute 11 16 E2 (prevRow 11 16 E2 8) 8 (-8) 4 4
    ((stepX_low (prevRow 11 16 E2 8) 8 (-8) (by decide)).trans frv_7_m7)
    (by decide)

theorem frv_8_m6 : fr 11 16 E2 8 (-6) = 7 := by
  rw [fr_eq_frStep]
  exact frStep_compute 11 16 E2 (prevRow 11 16 E2 8) 8 (-6) 7 7
    (stepX_compute (prevRow 11 16 E2 8) 8 (-6) 4 7 7
      frv_7_m7 frv_7_m5 (by decide))
    (by decide)

theorem frv_8_m4 : fr 11 16 E2 8 (-4) = 8 := by
  rw [fr_eq_frStep]
  exact frStep_compute 11 16 E2 (prevRow 11 16 E2 8) 8 (-4) 8 8
    (stepX_compute (prevRow 11 16 E2 8) 8 (-4) 7 6 8
      frv_7_m5 frv_7_m3 (by decide))
    (by decide)

theorem frv_8_m2 : fr 11 16 E2 8 (-2) = 7 := by
  rw [fr_eq_frStep]
  exact frStep_compute 11 16 E2 (prevRow 11 16 E2 8) 8 (-2) 7 7
    (stepX_compute (prevRow 11 16 E2 8) 8 (-2) 6 7 7
      frv_7_m3 frv_7_m1 (by decide))
    (by decide)

theorem frv_8_0 : fr 11 16 E2 8 (0) = 8 := by
  rw [fr_eq_frStep]
  exact frStep_compute 11 16 E2 (prevRow 11 16 E2 8) 8 (0) 8 8
    (stepX_compute (prevRow 11 16 E2 8) 8 (0) 7 8 8
      frv_7_m1 frv_7_1 (by decide))
    (by decide)

theorem frv_8_2 : fr 11 16 E2 8 (2) = 9 := by
  rw [fr_eq_frStep]
  exact frStep_compute 11 16 E2 (prevRow 11 16 E2 8) 8 (2) 9 9
    (stepX_compute (prevRow 11 16 E2 8) 8 (2) 8 7 9
      frv_7_1 frv_7_3 (by decide))
    (by decide)

theorem frv_8_4 : fr 11 16 E2 8 (4) = 8 := by
  rw [fr_eq_frStep]
  exact frStep_compute 11 16 E2 (prevRow 11 16 E2 8) 8 (4) 8 8
    (stepX_compute (prevRow 11 16 E2 8) 8 (4) 7 8 8
      frv_7_3 frv_7_5 (by decide))
    (by decide)

theorem frv_8_6 : fr 11 16 E2 8 (6) = 9 := by
  rw [fr_eq_frStep]
  exact frStep_compute 11 16 E2 (prevRow 11 16 E2 8) 8 (6) 9 9
    (stepX_compute (prevRow 11 16 E2 8) 8 (6) 8 9 9
      frv_7_5 frv_7_7 (by decide))
    (by decide)

theorem frv_8_8 : fr 11 16 E2 8 (8) = 10 := by
  rw [fr_eq_frStep]
  exact frStep_compute 11 16 E2 (prevRow 11 16 E2 8) 8 (8) 10 10
    ((stepX_high (prevRow 11 16 E2 8) 8 (8) (by decide) (by decide)).trans
      (congrArg (fun z => z + 1) frv_7_7))
    (by decide)

theorem frv_9_m9 : fr 11 16 E2 9 (-9) = 4 := by
  rw [fr_eq_frStep]
  exact frStep_compute 11 16 E2 (prevRow 11 16 E2 9) 9 (-9) 4 4
    ((stepX_low (prevRow 11 16 E2 9) 9 (-9) (by decide)).trans frv_8_m8)
    (by decide)

theorem frv_9_m7 : fr 11 16 E2 9 (-7) = 7 := by
  rw [fr_eq_frStep]
  exact frStep_compute 11 16 E2 (prevRow 11 16 E2 9) 9 (-7) 7 7
    (stepX_compute (prevRow 11 16 E2 9) 9 (-7) 4 7 7
      frv_8_m8 frv_8_m6 (by decide))
    (by decide)

theorem frv_9_m5 : fr 11 16 E2 9 (-5) = 8 := by
  rw [fr_eq_frStep]
  exact frStep_compute 11 16 E2 (prevRow 11 16 E2 9) 9 (-5) 8 8
    (stepX_compute (prevRow 11 16 E2 9) 9 (-5) 7 8 8
      frv_8_m6 frv_8_m4 (by decide))
    (by decide)

theorem frv_9_m3 : fr 11 16 E2 9 (-3) = 9 := by
  rw [fr_eq_frStep]
  exact frStep_compute 11 16 E2 (prevRow 11 16 E2 9) 9 (-3) 9 9
    (stepX_compute (prevRow 11 16 E2 9) 9 (-3) 8 7 9
      frv_8_m4 frv_8_m2 (by decide))
    (by decide)

theorem frv_9_m1 : fr 11 16 E2 9 (-1) = 8 := by
  rw [fr_eq_frStep]
  exact frStep_compute 11 16 E2 (prevRow 11 16 E2 9) 9 (-1) 8 8
    (stepX_compute (prevRow 11 16 E2 9) 9 (-1) 7 8 8
      frv_8_m2 frv_8_0 (by decide))
    (by decide)

theorem frv_9_1 : fr 11 16 E2 9 (1) = 9 := by
  rw [fr_eq_frStep]
  exact frStep_compute 11 16 E2 (prevRow 11 16 E2 9) 9 (1) 9 9
    (stepX_compute (prevRow 11 16 E2 9) 9 (1) 8 9 9
      frv_8_0 frv_8_2 (by decide))
    (by decide)

theorem frv_9_3 : fr 11 16 E2 9 (3) = 10 := by
  rw [fr_eq_frStep]
  exact frStep_compute 11 16 E2 (prevRow 11 16 E2 9) 9 (3) 10 10
    (stepX_compute (prevRow 11 16 E2 9) 9 (3) 9 8 10
      frv_8_2 frv_8_4 (by decide))
    (by decide)

theorem frv_9_5 : fr 11 16 E2 9 (5) = 9 := by
  rw [fr_eq_frStep]
  exact frStep_compute 11 16 E2 (prevRow 11 16 E2 9) 9 (5) 9 9
    (stepX_compute (prevRow 11 16 E2 9) 9 (5) 8 9 9
      frv_8_4 frv_8_6 (by decide))
    (by decide)

theorem frv_9_7 : fr 11 16 E2 9 (7) = 10 := by
  rw [fr_eq_frStep]
  exact frStep_compute 11 16 E2 (prevRow 11 16 E2 9) 9 (7) 10 10
    (stepX_compute (prevRow 11 16 E2 9) 9 (7) 9 10 10
      frv_8_6 frv_8_8 (by decide))
    (by decide)

theorem frv_9_9 : fr 11 16 E2 9 (9) = 11 := by
  rw [fr_eq_frStep]
  exact frStep_compute 11 16 E2 (prevRow 11 16 E2 9) 9 (9) 11 11
    ((stepX_high (prevRow 11 16 E2 9) 9 (9) (by decide) (by decide)).trans
      (congrArg (fun z => z + 1) frv_8_8))
    (by decide)

theorem frv_10_m10 : fr 11 16 E2 10 (-10) = 4 := by
  rw [fr_eq_frStep]
  exact frStep_compute 11 16 E2 (prevRow 11 16 E2 10) 10 (-10) 4 4
    ((stepX_low (prevRow 11 16 E2 10) 10 (-10) (by decide)).trans frv_9_m9)
    (by decide)

theorem frv_10_m8 : fr 11 16 E2 10 (-8) = 7 := by
  rw [fr_eq_frStep]
  exact frStep_compute 11 16 E2 (prevRow 11 16 E2 10) 10 (-8) 7 7
    (stepX_compute (prevRow 11 16 E2 10) 10 (-8) 4 7 7
      frv_9_m9 frv_9_m7 (by decide))
    (by decide)

theorem frv_10_m6 : fr 11 16 E2 10 (-6) = 8 := by
  rw [fr_eq_frStep]
  exact frStep_compute 11 16 E2 (prevRow 11 16 E2 10) 10 (-6) 8 8
    (stepX_compute (prevRow 11 16 E2 10) 10 (-6) 7 8 8
      frv_9_m7 frv_9_m5 (by decide))
    (by decide)

theorem frv_10_m4 : fr 11 16 E2 10 (-4) = 9 := by
  rw [fr_eq_frStep]
  exact frStep_compute 11 16 E2 (prevRow 11 16 E2 10) 10 (-4) 9 9
    (stepX_compute (prevRow 11 16 E2 10) 10 (-4) 8 9 9
      frv_9_m5 frv_9_m3 (by decide))
    (by decide)

theorem frv_10_m2 : fr 11 16 E2 10 (-2) = 10 := by
  rw [fr_eq_frStep]
  exact frStep_compute 11 16 E2 (prevRow 11 16 E2 10) 10 (-2) 10 10
    (stepX_compute (prevRow 11 16 E2 10) 10 (-2) 9 8 10
      frv_9_m3 frv_9_m1 (by decide))
    (by decide)

theorem frv_10_0 : fr 11 16 E2 10 (0) = 9 := by
  rw [fr_eq_frStep]
  exact frStep_compute 11 16 E2 (prevRow 11 16 E2 10) 10 (0) 9 9
    (stepX_compute (prevRow 11 16 E2 10) 10 (0) 8 9 9
      frv_9_m1 frv_9_1 (by decide))
    (by decide)

theorem frv_10_2 : fr 11 16 E2 10 (2) = 10 := by
  rw [fr_eq_frStep]
  exact frStep_compute 11 16 E2 (prevRow 11 16 E2 10) 10 (2) 10 10
    (stepX_compute (prevRow 11 16 E2 10) 10 (2) 9 10 10
      frv_9_1 frv_9_3 (by decide))
    (by decide)

theorem frv_10_4 : fr 11 16 E2 10 (4) = 11 := by
  rw [fr_eq_frStep]
  exact frStep_compute 11 16 E2 (prevRow 11 16 E2 10) 10 (4) 11 11
    (stepX_compute (prevRow 11 16 E2 10) 10 (4) 10 9 11
      frv_9_3 frv_9_5 (by decide))
    (by decide)

theorem frv_10_6 : fr 11 16 E2 10 (6) = 10 := by
  rw [fr_eq_frStep]
  exact frStep_compute 11 16 E2 (prevRow 11 16 E2 10) 10 (6) 10 10
    (stepX_compute (prevRow 11 16 E2 10) 10 (6) 9 10 10
      frv_9_5 frv_9_7 (by decide))
    (by decide)

theorem frv_10_8 : fr 11 16 E2 10 (8) = 11 := by
  rw [fr_eq_frStep]
  exact frStep_compute 11 16 E2 (prevRow 11 16 E2 10) 10 (8) 11 11
    (stepX_compute (prevRow 11 16 E2 10) 10 (8) 10 11 11
      frv_9_7 frv_9_9 (by decide))
    (by decide)

theorem frv_10_10 : fr 11 16 E2 10 (10) = 12 := by
  rw [fr_eq_frStep]
  exact frStep_compute 11 16 E2 (prevRow 11 16 E2 10) 10 (10) 12 12
    ((stepX_high (prevRow 11 16 E2 10) 10 (10) (by decide) (by decide)).trans
      (congrArg (fun z => z + 1) frv_9_9))
    (by decide)

theorem frv_11_m11 : fr 11 16 E2 11 (-11) = 4 := by
  rw [fr_eq_frStep]
  exact frStep_compute 11 16 E2 (prevRow 11 16 E2 11) 11 (-11) 4 4
    ((stepX_low (prevRow 11 16 E2 11) 11 (-11) (by decide)).trans frv_10_m10)
    (by decide)

theorem frv_11_m9 : fr 11 16 E2 11 (-9) = 7 := by
  rw [fr_eq_frStep]
  exact frStep_compute 11 16 E2 (prevRow 11 16 E2 11) 11 (-9) 7 7
    (stepX_compute (prevRow 11 16 E2 11) 11 (-9) 4 7 7
      frv_10_m10 frv_10_m8 (by decide))
    (by decide)

theorem frv_11_m7 : fr 11 16 E2 11 (-7) = 8 := by
  rw [fr_eq_frStep]
  exact frStep_compute 11 16 E2 (prevRow 11 16 E2 11) 11 (-7) 8 8
    (stepX_compute (prevRow 11 16 E2 11) 11 (-7) 7 8 8
      frv_10_m8 frv_10_m6 (by decide))
    (by decide)

theorem frv_11_m5 : fr 11 16 E2 11 (-5) = 9 := by
  rw [fr_eq_frStep]
  exact frStep_compute 11 16 E2 (prevRow 11 16 E2 11) 11 (-5) 9 9
    (stepX_compute (prevRow 11 16 E2 11) 11 (-5) 8 9 9
      frv_10_m6 frv_10_m4 (by decide))
    (by decide)

theorem frv_11_m3 : fr 11 16 E2 11 (-3) = 10 := by
  rw [fr_eq_frStep]
  exact frStep_compute 11 16 E2 (prevRow 11 16 E2 11) 11 (-3) 10 10
    (stepX_compute (prevRow 11 16 E2 11) 11 (-3) 9 10 10
      frv_10_m4 frv_10_m2 (by decide))
    (by decide)

theorem frv_11_m1 : fr 11 16 E2 11 (-1) = 11 := by
  rw [fr_eq_frStep]
  exact frStep_compute 11 16 E2 (prevRow 11 16 E2 11) 11 (-1) 11 11
    (stepX_compute (prevRow 11 16 E2 11) 11 (-1) 10 9 11
      frv_10_m2 frv_10_0 (by decide))
    (by decide)

theorem frv_11_1 : fr 11 16 E2 11 (1) = 10 := by
  rw [fr_eq_frStep]
  exact frStep_compute 11 16 E2 (prevRow 11 16 E2 11) 11 (1) 10 10
    (stepX_compute (prevRow 11 16 E2 11) 11 (1) 9 10 10
      frv_10_0 frv_10_2 (by decide))
    (by decide)

theorem frv_11_3 : fr 11 16 E2 11 (3) = 11 := by
  rw [fr_eq_frStep]
  exact frStep_compute 11 16 E2 (prevRow 11 16 E2 11) 11 (3) 11 11
    (stepX_compute (prevRow 11 16 E2 11) 11 (3) 10 11 11
      frv_10_2 frv_10_4 (by decide))
    (by decide)

theorem frv_11_5 : fr 11 16 E2 11 (5) = 12 := by
  rw [fr_eq_frStep]
  exact frStep_compute 11 16 E2 (prevRow 11 16 E2 11) 11 (5) 12 12
    (stepX_compute (prevRow 11 16 E2 11) 11 (5) 11 10 12
      frv_10_4 frv_10_6 (by decide))
    (by decide)

theorem frv_11_7 : fr 11 16 E2 11 (7) = 11 := by
  rw [fr_eq_frStep]
  exact frStep_compute 11 16 E2 (prevRow 11 16 E2 11) 11 (7) 11 11
    (stepX_compute (prevRow 11 16 E2 11) 11 (7) 10 11 11
      frv_10_6 frv_10_8 (by decide))
    (by decide)

theorem frv_11_9 : fr 11 16 E2 11 (9) = 12 := by
  rw [fr_eq_frStep]
  exact frStep_compute 11 16 E2 (prevRow 11 16 E2 11) 11 (9) 12 12
    (stepX_compute (prevRow 11 16 E2 11) 11 (9) 11 12 12
      frv_10_8 frv_10_10 (by decide))
    (by decide)

theorem frv_11_11 : fr 11 16 E2 11 (11) = 13 := by
  rw [fr_eq_frStep]
  exact frStep_compute 11 16 E2 (prevRow 11 16 E2 11) 11 (11) 13 13
    ((stepX_high (prevRow 11 16 E2 11) 11 (11) (by decide) (by decide)).trans
      (congrArg (fun z => z + 1) frv_10_10))
    (by decide)

theorem frv_12_m12 : fr 11 16 E2 12 (-12) = 4 := by
  rw [fr_eq_frStep]
  exact frStep_compute 11 16 E2 (prevRow 11 16 E2 12) 12 (-12) 4 4
    ((stepX_low (prevRow 11 16 E2 12) 12 (-12) (by decide)).trans frv_11_m11)
    (by decide)

theorem frv_12_m10 : fr 11 16 E2 12 (-10) = 7 := by
  rw [fr_eq_frStep]
  exact frStep_compute 11 16 E2 (prevRow 11 16 E2 12) 12 (-10) 7 7
    (stepX_compute (prevRow 11 16 E2 12) 12 (-10) 4 7 7
      frv_11_m11 frv_11_m9 (by decide))
    (by decide)

theorem frv_12_m8 : fr 11 16 E2 12 (-8) = 8 := by
  rw [fr_eq_frStep]
  exact frStep_compute 11 16 E2 (prevRow 11 16 E2 12) 12 (-8) 8 8
    (stepX_compute (prevRow 11 16 E2 12) 12 (-8) 7 8 8
      frv_11_m9 frv_11_m7 (by decide))
    (by decide)

theorem frv_12_m6 : fr 11 16 E2 12 (-6) = 10 := by
  rw [fr_eq_frStep]
  exact frStep_compute 11 16 E2 (prevRow 11 16 E2 12) 12 (-6) 9 10
    (stepX_compute (prevRow 11 16 E2 12) 12 (-6) 8 9 9
      frv_11_m7 frv_11_m5 (by decide))
    (by decide)

theorem frv_12_m4 : fr 11 16 E2 12 (-4) = 10 := by
  rw [fr_eq_frStep]
  exact frStep_compute 11 16 E2 (prevRow 11 16 E2 12) 12 (-4) 10 10
    (stepX_compute (prevRow 11 16 E2 12) 12 (-4) 9 10 10
      frv_11_m5 frv_11_m3 (by decide))
    (by decide)

theorem frv_12_m2 : fr 11 16 E2 12 (-2) = 11 := by
  rw [fr_eq_frStep]
  exact frStep_compute 11 16 E2 (prevRow 11 16 E2 12) 12 (-2) 11 11
    (stepX_compute (prevRow 11 16 E2 12) 12 (-2) 10 11 11
      frv_11_m3 frv_11_m1 (by decide))
    (by decide)

theorem frv_12_0 : fr 11 16 E2 12 (0) = 12 := by
  rw [fr_eq_frStep]
  exact frStep_compute 11 16 E2 (prevRow 11 16 E2 12) 12 (0) 12 12
    (stepX_compute (prevRow 11 16 E2 12) 12 (0) 11 10 12
      frv_11_m1 frv_11_1 (by decide))
    (by decide)

theorem frv_12_2 : fr 11 16 E2 12 (2) = 11 := by
  rw [fr_eq_frStep]
  exact frStep_compute 11 16 E2 (prevRow 11 16 E2 12) 12 (2) 11 11
    (stepX_compute (prevRow 11 16 E2 12) 12 (2) 10 11 11
      frv_11_1 frv_11_3 (by decide))
    (by decide)

theorem frv_12_4 : fr 11 16 E2 12 (4) = 12 := by
  rw [fr_eq_frStep]
  exact frStep_compute 11 16 E2 (prevRow 11 16 E2 12) 12 (4) 12 12
    (stepX_compute (prevRow 11 16 E2 12) 12 (4) 11 12 12
      frv_11_3 frv_11_5 (by decide))
    (by decide)

theorem frv_12_6 : fr 11 16 E2 12 (6) = 13 := by
  rw [fr_eq_frStep]
  exact frStep_compute 11 16 E2 (prevRow 11 16 E2 12) 12 (6) 13 13
    (stepX_compute (prevRow 11 16 E2 12) 12 (6) 12 11 13
      frv_11_5 frv_11_7 (by decide))
    (by decide)

theorem frv_12_8 : fr 11 16 E2 12 (8) = 12 := by
  rw [fr_eq_frStep]
  exact frStep_compute 11 16 E2 (prevRow 11 16 E2 12) 12 (8) 12 12
    (stepX_compute (prevRow 11 16 E2 12) 12 (8) 11 12 12
      frv_11_7 frv_11_9 (by decide))
    (by decide)

theorem frv_12_10 : fr 11 16 E2 12 (10) = 13 := by
  rw [fr_eq_frStep]
  exact frStep_compute 11 16 E2 (prevRow 11 16 E2 12) 12 (10) 13 13
    (stepX_compute (prevRow 11 16 E2 12) 12 (10) 12 13 13
      frv_11_9 frv_11_11 (by decide))
    (by decide)

theorem frv_12_12 : fr 11 16 E2 12 (12) = 14 := by
  rw [fr_eq_frStep]
  exact frStep_compute 11 16 E2 (prevRow 11 16 E2 12) 12 (12) 14 14
    ((stepX_high (prevRow 11 16 E2 12) 12 (12) (by decide) (by decide)).trans
      (congrArg (fun z => z + 1) frv_11_11))
    (by decide)

theorem frv_13_m13 : fr 11 16 E2 13 (-13) = 4 := by
  rw [fr_eq_frStep]
  exact frStep_compute 11 16 E2 (prevRow 11 16 E2 13) 13 (-13) 4 4
    ((stepX_low (prevRow 11 16 E2 13) 13 (-13) (by decide)).trans frv_12_m12)
    (by decide)

theorem frv_13_m11 : fr 11 16 E2 13 (-11) = 7 := by
  rw [fr_eq_frStep]
  exact frStep_compute 11 16 E2 (prevRow 11 16 E2 13) 13 (-11) 7 7
    (stepX_compute (prevRow 11 16 E2 13) 13 (-11) 4 7 7
      frv_12_m12 frv_12_m10 (by decide))
    (by decide)

theorem frv_13_m9 : fr 11 16 E2 13 (-9) = 8 := by
  rw [fr_eq_frStep]
  exact frStep_compute 11 16 E2 (prevRow 11 16 E2 13) 13 (-9) 8 8
    (stepX_compute (prevRow 11 16 E2 13) 13 (-9) 7 8 8
      frv_12_m10 frv_12_m8 (by decide))
    (by decide)

theorem frv_13_m7 : fr 11 16 E2 13 (-7) = 10 := by
  rw [fr_eq_frStep]
  exact frStep_compute 11 16 E2 (prevRow 11 16 E2 13) 13 (-7) 10 10
    (stepX_compute (prevRow 11 16 E2 13) 13 (-7) 8 10 10
      frv_12_m8 frv_12_m6 (by decide))
    (by decide)

theorem frv_13_m5 : fr 11 16 E2 13 (-5) = 11 := by
  rw [fr_eq_frStep]
  exact frStep_compute 11 16 E2 (prevRow 11 16 E2 13) 13 (-5) 11 11
    (stepX_compute (prevRow 11 16 E2 13) 13 (-5) 10 10 11
      frv_12_m6 frv_12_m4 (by decide))
    (by decide)

theorem frv_13_m3 : fr 11 16 E2 13 (-3) = 11 := by
  rw [fr_eq_frStep]
  exact frStep_compute 11 16 E2 (prevRow 11 16 E2 13) 13 (-3) 11 11
    (stepX_compute (prevRow 11 16 E2 13) 13 (-3) 10 11 11
      frv_12_m4 frv_12_m2 (by decide))
    (by decide)

theorem frv_13_m1 : fr 11 16 E2 13 (-1) = 12 := by
  rw [fr_eq_frStep]
  exact frStep_compute 11 16 E2 (prevRow 11 16 E2 13) 13 (-1) 12 12
    (stepX_compute (prevRow 11 16 E2 13) 13 (-1) 11 12 12
      frv_12_m2 frv_12_0 (by decide))
    (by decide)

theorem frv_13_1 : fr 11 16 E2 13 (1) = 13 := by
  rw [fr_eq_frStep]
  exact frStep_compute 11 16 E2 (prevRow 11 16 E2 13) 13 (1) 13 13
    (stepX_compute (prevRow 11 16 E2 13) 13 (1) 12 11 13
      frv_12_0 frv_12_2 (by decide))
    (by decide)

theorem frv_13_3 : fr 11 16 E2 13 (3) = 12 := by
  rw [fr_eq_frStep]
  exact frStep_compute 11 16 E2 (prevRow 11 16 E2 13) 13 (3) 12 12
    (stepX_compute (prevRow 11 16 E2 13) 13 (3) 11 12 12
      frv_12_2 frv_12_4 (by decide))
    (by decide)

theorem frv_13_5 : fr 11 16 E2 13 (5) = 13 := by
  rw [fr_eq_frStep]
  exact frStep_compute 11 16 E2 (prevRow 11 16 E2 13) 13 (5) 13 13
    (stepX_compute (prevRow 11 16 E2 13) 13 (5) 12 13 13
      frv_12_4 frv_12_6 (by decide))
    (by decide)

theorem frv_13_7 : fr 11 16 E2 13 (7) = 14 := by
  rw [fr_eq_frStep]
  exact frStep_compute 11 16 E2 (prevRow 11 16 E2 13) 13 (7) 14 14
    (stepX_compute (prevRow 11 16 E2 13) 13 (7) 13 12 14
      frv_12_6 frv_12_8 (by decide))
    (by decide)

theorem frv_13_9 : fr 11 16 E2 13 (9) = 13 := by
  rw [fr_eq_frStep]
  exact frStep_compute 11 16 E2 (prevRow 11 16 E2 13) 13 (9) 13 13
    (stepX_compute (prevRow 11 16 E2 13) 13 (9) 12 13 13
      frv_12_8 frv_12_10 (by decide))
    (by decide)

theorem frv_13_11 : fr 11 16 E2 13 (11) = 14 := by
  rw [fr_eq_frStep]
  exact frStep_compute 11 16 E2 (prevRow 11 16 E2 13) 13 (11) 14 14
    (stepX_compute (prevRow 11 16 E2 13) 13 (11) 13 14 14
      frv_12_10 frv_12_12 (by decide))
    (by decide)

theorem frv_13_13 : fr 11 16 E2 13 (13) = 15 := by
  rw [fr_eq_frStep]
  exact frStep_compute 11 16 E2 (prevRow 11 16 E2 13) 13 (13) 15 15
    ((stepX_high (prevRow 11 16 E2 13) 13 (13) (by decide) (by decide)).trans
      (congrArg (fun z => z + 1) frv_12_12))
    (by decide)

theorem foundv_0 : found 11 16 E2 0 = false := by
  rw [found]
  apply any_false
  intro i hi
  rw [List.mem_range] at hi
  interval_cases i
  · show decide (((11 : Nat) : Int) ≤ ((fr 11 16 E2 0 (0) : Nat) : Int) ∧
        ((16 : Nat) : Int) ≤ ((fr 11 16 E2 0 (0) : Nat) : Int) - ((0) : Int)) = false
    rw [frv_0_0]
    decide

theorem foundv_1 : found 11 16 E2 1 = false := by
  rw [found]
  apply any_false
  intro i hi
  rw [List.mem_range] at hi
  interval_cases i
  · show decide (((11 : Nat) : Int) ≤ ((fr 11 16 E2 1 (-1) : Nat) : Int) ∧
        ((16 : Nat) : Int) ≤ ((fr 11 16 E2 1 (-1) : Nat) : Int) - ((-1) : Int)) = false
    rw [frv_1_m1]
    decide
  · show decide (((11 : Nat) : Int) ≤ ((fr 11 16 E2 1 (1) : Nat) : Int) ∧
        ((16 : Nat) : Int) ≤ ((fr 11 16 E2 1 (1) : Nat) : Int) - ((1) : Int)) = false
    rw [frv_1_1]
    decide

theorem foundv_2 : found 11 16 E2 2 = false := by
  rw [found]
  apply any_false
  intro i hi
  rw [List.mem_range] at hi
  interval_cases i
  · show decide (((11 : Nat) : Int) ≤ ((fr 11 16 E2 2 (-2) : Nat) : Int) ∧
        ((16 : Nat) : Int) ≤ ((fr 11 16 E2 2 (-2) : Nat) : Int) - ((-2) : Int)) = false
    rw [frv_2_m2]
    decide
  · show decide (((11 : Nat) : Int) ≤ ((fr 11 16 E2 2 (0) : Nat) : Int) ∧
        ((16 : Nat) : Int) ≤ ((fr 11 16 E2 2 (0) : Nat) : Int) - ((0) : Int)) = false
    rw [frv_2_0]
    decide
  · show decide (((11 : Nat) : Int) ≤ ((fr 11 16 E2 2 (2) : Nat) : Int) ∧
        ((16 : Nat) : Int) ≤ ((fr 11 16 E2 2 (2) : Nat) : Int) - ((2) : Int)) = false
    rw [frv_2_2]
    decide

theorem foundv_3 : found 11 16 E2 3 = false := by
  rw [found]
  apply any_false
  intro i hi
  rw [List.mem_range] at hi
  interval_cases i
  · show decide (((11 : Nat) : Int) ≤ ((fr 11 16 E2 3 (-3) : Nat) : Int) ∧
        ((16 : Nat) : Int) ≤ ((fr 11 16 E2 3 (-3) : Nat) : Int) - ((-3) : Int)) = false
    rw [frv_3_m3]
    decide
  · show decide (((11 : Nat) : Int) ≤ ((fr 11 16 E2 3 (-1) : Nat) : Int) ∧
        ((16 : Nat) : Int) ≤ ((fr 11 16 E2 3 (-1) : Nat) : Int) - ((-1) : Int)) = false
    rw [frv_3_m1]
    decide
  · show decide (((11 : Nat) : Int) ≤ ((fr 11 16 E2 3 (1) : Nat) : Int) ∧
        ((16 : Nat) : Int) ≤ ((fr 11 16 E2 3 (1) : Nat) : Int) - ((1) : Int)) = false
    rw [frv_3_1]
    decide
  · show decide (((11 : Nat) : Int) ≤ ((fr 11 16 E2 3 (3) : Nat) : Int) ∧
        ((16 : Nat) : Int) ≤ ((fr 11 16 E2 3 (3) : Nat) : Int) - ((3) : Int)) = false
    rw [frv_3_3]
    decide

theorem foundv_4 : found 11 16 E2 4 = false := by
  rw [found]
  apply any_false
  intro i hi
  rw [List.mem_range] at hi
  interval_cases i
  · show decide (((11 : Nat) : Int) ≤ ((fr 11 16 E2 4 (-4) : Nat) : Int) ∧
        ((16 : Nat) : Int) ≤ ((fr 11 16 E2 4 (-4) : Nat) : Int) - ((-4) : Int)) = false
    rw [frv_4_m4]
    decide
  · show decide (((11 : Nat) : Int) ≤ ((fr 11 16 E2 4 (-2) : Nat) : Int) ∧
        ((16 : Nat) : Int) ≤ ((fr 11 16 E2 4 (-2) : Nat) : Int) - ((-2) : Int)) = false
    rw [frv_4_m2]
    decide
  · show decide (((11 : Nat) : Int) ≤ ((fr 11 16 E2 4 (0) : Nat) : Int) ∧
        ((16 : Nat) : Int) ≤ ((fr 11 16 E2 4 (0) : Nat) : Int) - ((0) : Int)) = false
    rw [frv_4_0]
    decide
  · show decide (((11 : Nat) : Int) ≤ ((fr 11 16 E2 4 (2) : Nat) : Int) ∧
        ((16 : Nat) : Int) ≤ ((fr 11 16 E2 4 (2) : Nat) : Int) - ((2) : Int)) = false
    rw [frv_4_2]
    decide
  · show decide (((11 : Nat) : Int) ≤ ((fr 11 16 E2 4 (4) : Nat) : Int) ∧
        ((16 : Nat) : Int) ≤ ((fr 11 16 E2 4 (4) : Nat) : Int) - ((4) : Int)) = false
    rw [frv_4_4]
    decide

theorem foundv_5 : found 11 16 E2 5 = false := by
  rw [found]
  apply any_false
  intro i hi
  rw [List.mem_range] at hi
  interval_cases i
  · show decide (((11 : Nat) : Int) ≤ ((fr 11 16 E2 5 (-5) : Nat) : Int) ∧
        ((16 : Nat) : Int) ≤ ((fr 11 16 E2 5 (-5) : Nat) : Int) - ((-5) : Int)) = false
    rw [frv_5_m5]
    decide
  · show decide (((11 : Nat) : Int) ≤ ((fr 11 16 E2 5 (-3) : Nat) : Int) ∧
        ((16 : Nat) : Int) ≤ ((fr 11 16 E2 5 (-3) : Nat) : Int) - ((-3) : Int)) = false
    rw [frv_5_m3]
    decide
  · show decide (((11 : Nat) : Int) ≤ ((fr 11 16 E2 5 (-1) : Nat) : Int) ∧
        ((16 : Nat) : Int) ≤ ((fr 11 16 E2 5 (-1) : Nat) : Int) - ((-1) : Int)) = false
    rw [frv_5_m1]
    decide
  · show decide (((11 : Nat) : Int) ≤ ((fr 11 16 E2 5 (1) : Nat) : Int) ∧
        ((16 : Nat) : Int) ≤ ((fr 11 16 E2 5 (1) : Nat) : Int) - ((1) : Int)) = false
    rw [frv_5_1]
    decide
  · show decide (((11 : Nat) : Int) ≤ ((fr 11 16 E2 5 (3) : Nat) : Int) ∧
        ((16 : Nat) : Int) ≤ ((fr 11 16 E2 5 (3) : Nat) : Int) - ((3) : Int)) = false
    rw [frv_5_3]
    decide
  · show decide (((11 : Nat) : Int) ≤ ((fr 11 16 E2 5 (5) : Nat) : Int) ∧
        ((16 : Nat) : Int) ≤ ((fr 11 16 E2 5 (5) : Nat) : Int) - ((5) : Int)) = false
    rw [frv_5_5]
    decide

theorem foundv_6 : found 11 16 E2 6 = false := by
  rw [found]
  apply any_false
  intro i hi
  rw [List.mem_range] at hi
  interval_cases i
  · show decide (((11 : Nat) : Int) ≤ ((fr 11 16 E2 6 (-6) : Nat) : Int) ∧
        ((16 : Nat) : Int) ≤ ((fr 11 16 E2 6 (-6) : Nat) : Int) - ((-6) : Int)) = false
    rw [frv_6_m6]
    decide
  · show decide (((11 : Nat) : Int) ≤ ((fr 11 16 E2 6 (-4) : Nat) : Int) ∧
        ((16 : Nat) : Int) ≤ ((fr 11 16 E2 6 (-4) : Nat) : Int) - ((-4) : Int)) = false
    rw [frv_6_m4]
    decide
  · show decide (((11 : Nat) : Int) ≤ ((fr 11 16 E2 6 (-2) : Nat) : Int) ∧
        ((16 : Nat) : Int) ≤ ((fr 11 16 E2 6 (-2) : Nat) : Int) - ((-2) : Int)) = false
    rw [frv_6_m2]
    decide
  · show decide (((11 : Nat) : Int) ≤ ((fr 11 16 E2 6 (0) : Nat) : Int) ∧
        ((16 : Nat) : Int) ≤ ((fr 11 16 E2 6 (0) : Nat) : Int) - ((0) : Int)) = false
    rw [frv_6_0]
    decide
  · show decide (((11 : Nat) : Int) ≤ ((fr 11 16 E2 6 (2) : Nat) : Int) ∧
        ((16 : Nat) : Int) ≤ ((fr 11 16 E2 6 (2) : Nat) : Int) - ((2) : Int)) = false
    rw [frv_6_2]
    decide
  · show decide (((11 : Nat) : Int) ≤ ((fr 11 16 E2 6 (4) : Nat) : Int) ∧
        ((16 : Nat) : Int) ≤ ((fr 11 16 E2 6 (4) : Nat) : Int) - ((4) : Int)) = false
    rw [frv_6_4]
    decide
  · show decide (((11 : Nat) : Int) ≤ ((fr 11 16 E2 6 (6) : Nat) : Int) ∧
        ((16 : Nat) : Int) ≤ ((fr 11 16 E2 6 (6) : Nat) : Int) - ((6) : Int)) = false
    rw [frv_6_6]
    decide

theorem foundv_7 : found 11 16 E2 7 = false := by
  rw [found]
  apply any_false
  intro i hi
  rw [List.mem_range] at hi
  interval_cases i
  · show decide (((11 : Nat) : Int) ≤ ((fr 11 16 E2 7 (-7) : Nat) : Int) ∧
        ((16 : Nat) : Int) ≤ ((fr 11 16 E2 7 (-7) : Nat) : Int) - ((-7) : Int)) = false
    rw [frv_7_m7]
    decide
  · show decide (((11 : Nat) : Int) ≤ ((fr 11 16 E2 7 (-5) : Nat) : Int) ∧
        ((16 : Nat) : Int) ≤ ((fr 11 16 E2 7 (-5) : Nat) : Int) - ((-5) : Int)) = false
    rw [frv_7_m5]
    decide
  · show decide (((11 : Nat) : Int) ≤ ((fr 11 16 E2 7 (-3) : Nat) : Int) ∧
        ((16 : Nat) : Int) ≤ ((fr 11 16 E2 7 (-3) : Nat) : Int) - ((-3) : Int)) = false
    rw [frv_7_m3]
    decide
  · show decide (((11 : Nat) : Int) ≤ ((fr 11 16 E2 7 (-1) : Nat) : Int) ∧
        ((16 : Nat) : Int) ≤ ((fr 11 16 E2 7 (-1) : Nat) : Int) - ((-1) : Int)) = false
    rw [frv_7_m1]
    decide
  · show decide (((11 : Nat) : Int) ≤ ((fr 11 16 E2 7 (1) : Nat) : Int) ∧
        ((16 : Nat) : Int) ≤ ((fr 11 16 E2 7 (1) : Nat) : Int) - ((1) : Int)) = false
    rw [frv_7_1]
    decide
  · show decide (((11 : Nat) : Int) ≤ ((fr 11 16 E2 7 (3) : Nat) : Int) ∧
        ((16 : Nat) : Int) ≤ ((fr 11 16 E2 7 (3) : Nat) : Int) - ((3) : Int)) = false
    rw [frv_7_3]
    decide
  · show decide (((11 : Nat) : Int) ≤ ((fr 11 16 E2 7 (5) : Nat) : Int) ∧
        ((16 : Nat) : Int) ≤ ((fr 11 16 E2 7 (5) : Nat) : Int) - ((5) : Int)) = false
    rw [frv_7_5]
    decide
  · show decide (((11 : Nat) : Int) ≤ ((fr 11 16 E2 7 (7) : Nat) : Int) ∧
        ((16 : Nat) : Int) ≤ ((fr 11 16 E2 7 (7) : Nat) : Int) - ((7) : Int)) = false
    rw [frv_7_7]
    decide

theorem foundv_8 : found 11 16 E2 8 = false := by
  rw [found]
  apply any_false
  intro i hi
  rw [List.mem_range] at hi
  interval_cases i
  · show decide (((11 : Nat) : Int) ≤ ((fr 11 16 E2 8 (-8) : Nat) : Int) ∧
        ((16 : Nat) : Int) ≤ ((fr 11 16 E2 8 (-8) : Nat) : Int) - ((-8) : Int)) = false
    rw [frv_8_m8]
    decide
  · show decide (((11 : Nat) : Int) ≤ ((fr 11 16 E2 8 (-6) : Nat) : Int) ∧
        ((16 : Nat) : Int) ≤ ((fr 11 16 E2 8 (-6) : Nat) : Int) - ((-6) : Int)) = false
    rw [frv_8_m6]
    decide
  · show decide (((11 : Nat) : Int) ≤ ((fr 11 16 E2 8 (-4) : Nat) : Int) ∧
        ((16 : Nat) : Int) ≤ ((fr 11 16 E2 8 (-4) : Nat) : Int) - ((-4) : Int)) = false
    rw [frv_8_m4]
    decide
  · show decide (((11 : Nat) : Int) ≤ ((fr 11 16 E2 8 (-2) : Nat) : Int) ∧
        ((16 : Nat) : Int) ≤ ((fr 11 16 E2 8 (-2) : Nat) : Int) - ((-2) : Int)) = false
    rw [frv_8_m2]
    decide
  · show decide (((11 : Nat) : Int) ≤ ((fr 11 16 E2 8 (0) : Nat) : Int) ∧
        ((16 : Nat) : Int) ≤ ((fr 11 16 E2 8 (0) : Nat) : Int) - ((0) : Int)) = false
    rw [frv_8_0]
    decide
  · show decide (((11 : Nat) : Int) ≤ ((fr 11 16 E2 8 (2) : Nat) : Int) ∧
        ((16 : Nat) : Int) ≤ ((fr 11 16 E2 8 (2) : Nat) : Int) - ((2) : Int)) = false
    rw [frv_8_2]
    decide
  · show decide (((11 : Nat) : Int) ≤ ((fr 11 16 E2 8 (4) : Nat) : Int) ∧
        ((16 : Nat) : Int) ≤ ((fr 11 16 E2 8 (4) : Nat) : Int) - ((4) : Int)) = false
    rw [frv_8_4]
    decide
  · show decide (((11 : Nat) : Int) ≤ ((fr 11 16 E2 8 (6) : Nat) : Int) ∧
        ((16 : Nat) : Int) ≤ ((fr 11 16 E2 8 (6) : Nat) : Int) - ((6) : Int)) = false
    rw [frv_8_6]
    decide
  · show decide (((11 : Nat) : Int) ≤ ((fr 11 16 E2 8 (8) : Nat) : Int) ∧
        ((16 : Nat) : Int) ≤ ((fr 11 16 E2 8 (8) : Nat) : Int) - ((8) : Int)) = false
    rw [frv_8_8]
    decide

theorem foundv_9 : found 11 16 E2 9 = false := by
  rw [found]
  apply any_false
  intro i hi
  rw [List.mem_range] at hi
  interval_cases i
  · show decide (((11 : Nat) : Int) ≤ ((fr 11 16 E2 9 (-9) : Nat) : Int) ∧
        ((16 : Nat) : Int) ≤ ((fr 11 16 E2 9 (-9) : Nat) : Int) - ((-9) : Int)) = false
    rw [frv_9_m9]
    decide
  · show decide (((11 : Nat) : Int) ≤ ((fr 11 16 E2 9 (-7) : Nat) : Int) ∧
        ((16 : Nat) : Int) ≤ ((fr 11 16 E2 9 (-7) : Nat) : Int) - ((-7) : Int)) = false
    rw [frv_9_m7]
    decide
  · show decide (((11 : Nat) : Int) ≤ ((fr 11 16 E2 9 (-5) : Nat) : Int) ∧
        ((16 : Nat) : Int) ≤ ((fr 11 16 E2 9 (-5) : Nat) : Int) - ((-5) : Int)) = false
    rw [frv_9_m5]
    decide
  · show decide (((11 : Nat) : Int) ≤ ((fr 11 16 E2 9 (-3) : Nat) : Int) ∧
        ((16 : Nat) : Int) ≤ ((fr 11 16 E2 9 (-3) : Nat) : Int) - ((-3) : Int)) = false
    rw [frv_9_m3]
    decide
  · show decide (((11 : Nat) : Int) ≤ ((fr 11 16 E2 9 (-1) : Nat) : Int) ∧
        ((16 : Nat) : Int) ≤ ((fr 11 16 E2 9 (-1) : Nat) : Int) - ((-1) : Int)) = false
    rw [frv_9_m1]
    decide
  · show decide (((11 : Nat) : Int) ≤ ((fr 11 16 E2 9 (1) : Nat) : Int) ∧
        ((16 : Nat) : Int) ≤ ((fr 11 16 E2 9 (1) : Nat) : Int) - ((1) : Int)) = false
    rw [frv_9_1]
    decide
  · show decide (((11 : Nat) : Int) ≤ ((fr 11 16 E2 9 (3) : Nat) : Int) ∧
        ((16 : Nat) : Int) ≤ ((fr 11 16 E2 9 (3) : Nat) : Int) - ((3) : Int)) = false
    rw [frv_9_3]
    decide
  · show decide (((11 : Nat) : Int) ≤ ((fr 11 16 E2 9 (5) : Nat) : Int) ∧
        ((16 : Nat) : Int) ≤ ((fr 11 16 E2 9 (5) : Nat) : Int) - ((5) : Int)) = false
    rw [frv_9_5]
    decide
  · show decide (((11 : Nat) : Int) ≤ ((fr 11 16 E2 9 (7) : Nat) : Int) ∧
        ((16 : Nat) : Int) ≤ ((fr 11 16 E2 9 (7) : Nat) : Int) - ((7) : Int)) = false
    rw [frv_9_7]
    decide
  · show decide (((11 : Nat) : Int) ≤ ((fr 11 16 E2 9 (9) : Nat) : Int) ∧
        ((16 : Nat) : Int) ≤ ((fr 11 16 E2 9 (9) : Nat) : Int) - ((9) : Int)) = false
    rw [frv_9_9]
    decide

theorem foundv_10 : found 11 16 E2 10 = false := by
  rw [found]
  apply any_false
  intro i hi
  rw [List.mem_range] at hi
  interval_cases i
  · show decide (((11 : Nat) : Int) ≤ ((fr 11 16 E2 10 (-10) : Nat) : Int) ∧
        ((16 : Nat) : Int) ≤ ((fr 11 16 E2 10 (-10) : Nat) : Int) - ((-10) : Int)) = false
    rw [frv_10_m10]
    decide
  · show decide (((11 : Nat) : Int) ≤ ((fr 11 16 E2 10 (-8) : Nat) : Int) ∧
        ((16 : Nat) : Int) ≤ ((fr 11 16 E2 10 (-8) : Nat) : Int) - ((-8) : Int)) = false
    rw [frv_10_m8]
    decide
  · show decide (((11 : Nat) : Int) ≤ ((fr 11 16 E2 10 (-6) : Nat) : Int) ∧
        ((16 : Nat) : Int) ≤ ((fr 11 16 E2 10 (-6) : Nat) : Int) - ((-6) : Int)) = false
    rw [frv_10_m6]
    decide
  · show decide (((11 : Nat) : Int) ≤ ((fr 11 16 E2 10 (-4) : Nat) : Int) ∧
        ((16 : Nat) : Int) ≤ ((fr 11 16 E2 10 (-4) : Nat) : Int) - ((-4) : Int)) = false
    rw [frv_10_m4]
    decide
  · show decide (((11 : Nat) : Int) ≤ ((fr 11 16 E2 10 (-2) : Nat) : Int) ∧
        ((16 : Nat) : Int) ≤ ((fr 11 16 E2 10 (-2) : Nat) : Int) - ((-2) : Int)) = false
    rw [frv_10_m2]
    decide
  · show decide (((11 : Nat) : Int) ≤ ((fr 11 16 E2 10 (0) : Nat) : Int) ∧
        ((16 : Nat) : Int) ≤ ((fr 11 16 E2 10 (0) : Nat) : Int) - ((0) : Int)) = false
    rw [frv_10_0]
    decide
  · show decide (((11 : Nat) : Int) ≤ ((fr 11 16 E2 10 (2) : Nat) : Int) ∧
        ((16 : Nat) : Int) ≤ ((fr 11 16 E2 10 (2) : Nat) : Int) - ((2) : Int)) = false
    rw [frv_10_2]
    decide
  · show decide (((11 : Nat) : Int) ≤ ((fr 11 16 E2 10 (4) : Nat) : Int) ∧
        ((16 : Nat) : Int) ≤ ((fr 11 16 E2 10 (4) : Nat) : Int) - ((4) : Int)) = false
    rw [frv_10_4]
    decide
  · show decide (((11 : Nat) : Int) ≤ ((fr 11 16 E2 10 (6) : Nat) : Int) ∧
        ((16 : Nat) : Int) ≤ ((fr 11 16 E2 10 (6) : Nat) : Int) - ((6) : Int)) = false
    rw [frv_10_6]
    decide
  · show decide (((11 : Nat) : Int) ≤ ((fr 11 16 E2 10 (8) : Nat) : Int) ∧
        ((16 : Nat) : Int) ≤ ((fr 11 16 E2 10 (8) : Nat) : Int) - ((8) : Int)) = false
    rw [frv_10_8]
    decide
  · show decide (((11 : Nat) : Int) ≤ ((fr 11 16 E2 10 (10) : Nat) : Int) ∧
        ((16 : Nat) : Int) ≤ ((fr 11 16 E2 10 (10) : Nat) : Int) - ((10) : Int)) = false
    rw [frv_10_10]
    decide

theorem foundv_11 : found 11 16 E2 11 = false := by
  rw [found]
  apply any_false
  intro i hi
  rw [List.mem_range] at hi
  interval_cases i
  · show decide (((11 : Nat) : Int) ≤ ((fr 11 16 E2 11 (-11) : Nat) : Int) ∧
        ((16 : Nat) : Int) ≤ ((fr 11 16 E2 11 (-11) : Nat) : Int) - ((-11) : Int)) = false
    rw [frv_11_m11]
    decide
  · show decide (((11 : Nat) : Int) ≤ ((fr 11 16 E2 11 (-9) : Nat) : Int) ∧
        ((16 : Nat) : Int) ≤ ((fr 11 16 E2 11 (-9) : Nat) : Int) - ((-9) : Int)) = false
    rw [frv_11_m9]
    decide
  · show decide (((11 : Nat) : Int) ≤ ((fr 11 16 E2 11 (-7) : Nat) : Int) ∧
        ((16 : Nat) : Int) ≤ ((fr 11 16 E2 11 (-7) : Nat) : Int) - ((-7) : Int)) = false
    rw [frv_11_m7]
    decide
  · show decide (((11 : Nat) : Int) ≤ ((fr 11 16 E2 11 (-5) : Nat) : Int) ∧
        ((16 : Nat) : Int) ≤ ((fr 11 16 E2 11 (-5) : Nat) : Int) - ((-5) : Int)) = false
    rw [frv_11_m5]
    decide
  · show decide (((11 : Nat) : Int) ≤ ((fr 11 16 E2 11 (-3) : Nat) : Int) ∧
        ((16 : Nat) : Int) ≤ ((fr 11 16 E2 11 (-3) : Nat) : Int) - ((-3) : Int)) = false
    rw [frv_11_m3]
    decide
  · show decide (((11 : Nat) : Int) ≤ ((fr 11 16 E2 11 (-1) : Nat) : Int) ∧
        ((16 : Nat) : Int) ≤ ((fr 11 16 E2 11 (-1) : Nat) : Int) - ((-1) : Int)) = false
    rw [frv_11_m1]
    decide
  · show decide (((11 : Nat) : Int) ≤ ((fr 11 16 E2 11 (1) : Nat) : Int) ∧
        ((16 : Nat) : Int) ≤ ((fr 11 16 E2 11 (1) : Nat) : Int) - ((1) : Int)) = false
    rw [frv_11_1]
    decide
  · show decide (((11 : Nat) : Int) ≤ ((fr 11 16 E2 11 (3) : Nat) : Int) ∧
        ((16 : Nat) : Int) ≤ ((fr 11 16 E2 11 (3) : Nat) : Int) - ((3) : Int)) = false
    rw [frv_11_3]
    decide
  · show decide (((11 : Nat) : Int) ≤ ((fr 11 16 E2 11 (5) : Nat) : Int) ∧
        ((16 : Nat) : Int) ≤ ((fr 11 16 E2 11 (5) : Nat) : Int) - ((5) : Int)) = false
    rw [frv_11_5]
    decide
  · show decide (((11 : Nat) : Int) ≤ ((fr 11 16 E2 11 (7) : Nat) : Int) ∧
        ((16 : Nat) : Int) ≤ ((fr 11 16 E2 11 (7) : Nat) : Int) - ((7) : Int)) = false
    rw [frv_11_7]
    decide
  · show decide (((11 : Nat) : Int) ≤ ((fr 11 16 E2 11 (9) : Nat) : Int) ∧
        ((16 : Nat) : Int) ≤ ((fr 11 16 E2 11 (9) : Nat) : Int) - ((9) : Int)) = false
    rw [frv_11_9]
    decide
  · show decide (((11 : Nat) : Int) ≤ ((fr 11 16 E2 11 (11) : Nat) : Int) ∧
        ((16 : Nat) : Int) ≤ ((fr 11 16 E2 11 (11) : Nat) : Int) - ((11) : Int)) = false
    rw [frv_11_11]
    decide

theorem foundv_12 : found 11 16 E2 12 = false := by
  rw [found]
  apply any_false
  intro i hi
  rw [List.mem_range] at hi
  interval_cases i
  · show decide (((11 : Nat) : Int) ≤ ((fr 11 16 E2 12 (-12) : Nat) : Int) ∧
        ((16 : Nat) : Int) ≤ ((fr 11 16 E2 12 (-12) : Nat) : Int) - ((-12) : Int)) = false
    rw [frv_12_m12]
    decide
  · show decide (((11 : Nat) : Int) ≤ ((fr 11 16 E2 12 (-10) : Nat) : Int) ∧
        ((16 : Nat) : Int) ≤ ((fr 11 16 E2 12 (-10) : Nat) : Int) - ((-10) : Int)) = false
    rw [frv_12_m10]
    decide
  · show decide (((11 : Nat) : Int) ≤ ((fr 11 16 E2 12 (-8) : Nat) : Int) ∧
        ((16 : Nat) : Int) ≤ ((fr 11 16 E2 12 (-8) : Nat) : Int) - ((-8) : Int)) = false
    rw [frv_12_m8]
    decide
  · show decide (((11 : Nat) : Int) ≤ ((fr 11 16 E2 12 (-6) : Nat) : Int) ∧
        ((16 : Nat) : Int) ≤ ((fr 11 16 E2 12 (-6) : Nat) : Int) - ((-6) : Int)) = false
    rw [frv_12_m6]
    decide
  · show decide (((11 : Nat) : Int) ≤ ((fr 11 16 E2 12 (-4) : Nat) : Int) ∧
        ((16 : Nat) : Int) ≤ ((fr 11 16 E2 12 (-4) : Nat) : Int) - ((-4) : Int)) = false
    rw [frv_12_m4]
    decide
  · show decide (((11 : Nat) : Int) ≤ ((fr 11 16 E2 12 (-2) : Nat) : Int) ∧
        ((16 : Nat) : Int) ≤ ((fr 11 16 E2 12 (-2) : Nat) : Int) - ((-2) : Int)) = false
    rw [frv_12_m2]
    decide
  · show decide (((11 : Nat) : Int) ≤ ((fr 11 16 E2 12 (0) : Nat) : Int) ∧
        ((16 : Nat) : Int) ≤ ((fr 11 16 E2 12 (0) : Nat) : Int) - ((0) : Int)) = false
    rw [frv_12_0]
    decide
  · show decide (((11 : Nat) : Int) ≤ ((fr 11 16 E2 12 (2) : Nat) : Int) ∧
        ((16 : Nat) : Int) ≤ ((fr 11 16 E2 12 (2) : Nat) : Int) - ((2) : Int)) = false
    rw [frv_12_2]
    decide
  · show decide (((11 : Nat) : Int) ≤ ((fr 11 16 E2 12 (4) : Nat) : Int) ∧
        ((16 : Nat) : Int) ≤ ((fr 11 16 E2 12 (4) : Nat) : Int) - ((4) : Int)) = false
    rw [frv_12_4]
    decide
  · show decide (((11 : Nat) : Int) ≤ ((fr 11 16 E2 12 (6) : Nat) : Int) ∧
        ((16 : Nat) : Int) ≤ ((fr 11 16 E2 12 (6) : Nat) : Int) - ((6) : Int)) = false
    rw [frv_12_6]
    decide
  · show decide (((11 : Nat) : Int) ≤ ((fr 11 16 E2 12 (8) : Nat) : Int) ∧
        ((16 : Nat) : Int) ≤ ((fr 11 16 E2 12 (8) : Nat) : Int) - ((8) : Int)) = false
    rw [frv_12_8]
    decide
  · show decide (((11 : Nat) : Int) ≤ ((fr 11 16 E2 12 (10) : Nat) : Int) ∧
        ((16 : Nat) : Int) ≤ ((fr 11 16 E2 12 (10) : Nat) : Int) - ((10) : Int)) = false
    rw [frv_12_10]
    decide
  · show decide (((11 : Nat) : Int) ≤ ((fr 11 16 E2 12 (12) : Nat) : Int) ∧
        ((16 : Nat) : Int) ≤ ((fr 11 16 E2 12 (12) : Nat) : Int) - ((12) : Int)) = false
    rw [frv_12_12]
    decide

theorem foundv_13 : found 11 16 E2 13 = true := by
  rw [found, List.any_eq_true]
  refine ⟨4, by decide, ?_⟩
  show decide (((11 : Nat) : Int) ≤ ((fr 11 16 E2 13 (-5) : Nat) : Int) ∧
      ((16 : Nat) : Int) ≤ ((fr 11 16 E2 13 (-5) : Nat) : Int) - ((-5) : Int)) = true
  rw [frv_13_m5]
  decide

/-- On the regression case the search returns depth 13: the edit distance. -/
theorem diffD_C2 : DiffD 11 16 E2 = some 13 := by
  rw [DiffD]
  refine searchFrom_eq_some 13 (11 + 16 + 1) 0 (by omega) (by omega) ?_ foundv_13
  intro e he0 he13
  interval_cases e
  · exact foundv_0
  · exact foundv_1
  · exact foundv_2
  · exact foundv_3
  · exact foundv_4
  · exact foundv_5
  · exact foundv_6
  · exact foundv_7
  · exact foundv_8
  · exact foundv_9
  · exact foundv_10
  · exact foundv_11
  · exact foundv_12

theorem frx_13 : frameX 11 16 E2 (12 + 1) ((11 : Nat) : Int) ((16 : Nat) : Int) = (10, 16, 11) :=
  frameX_compute 11 16 E2 (12 + 1) ((11 : Nat) : Int) ((16 : Nat) : Int) 10 10 (10, 16, 11)
    frv_12_m6 frv_12_m4 (by decide)

theorem frx_12 : frameX 11 16 E2 (11 + 1) ((10 : Nat) : Int) (16 : Int) = (9, 14, 9) :=
  frameX_compute 11 16 E2 (11 + 1) ((10 : Nat) : Int) (16 : Int) 8 9 (9, 14, 9)
    frv_11_m7 frv_11_m5 (by decide)

theorem frx_11 : frameX 11 16 E2 (10 + 1) ((9 : Nat) : Int) (14 : Int) = (9, 13, 9) :=
  frameX_compute 11 16 E2 (10 + 1) ((9 : Nat) : Int) (14 : Int) 8 9 (9, 13, 9)
    frv_10_m6 frv_10_m4 (by decide)

theorem frx_10 : frameX 11 16 E2 (9 + 1) ((9 : Nat) : Int) (13 : Int) = (9, 12, 9) :=
  frameX_compute 11 16 E2 (9 + 1) ((9 : Nat) : Int) (13 : Int) 8 9 (9, 12, 9)
    frv_9_m5 frv_9_m3 (by decide)

theorem frx_9 : frameX 11 16 E2 (8 + 1) ((9 : Nat) : Int) (12 : Int) = (8, 12, 9) :=
  frameX_compute 11 16 E2 (8 + 1) ((9 : Nat) : Int) (12 : Int) 8 7 (8, 12, 9)
    frv_8_m4 frv_8_m2 (by decide)

theorem frx_8 : frameX 11 16 E2 (7 + 1) ((8 : Nat) : Int) (12 : Int) = (7, 12, 8) :=
  frameX_compute 11 16 E2 (7 + 1) ((8 : Nat) : Int) (12 : Int) 7 6 (7, 12, 8)
    frv_7_m5 frv_7_m3 (by decide)

theorem frx_7 : frameX 11 16 E2 (6 + 1) ((7 : Nat) : Int) (12 : Int) = (5, 9, 5) :=
  frameX_compute 11 16 E2 (6 + 1) ((7 : Nat) : Int) (12 : Int) 4 5 (5, 9, 5)
    frv_6_m6 frv_6_m4 (by decide)

theorem frx_6 : frameX 11 16 E2 (5 + 1) ((5 : Nat) : Int) (9 : Int) = (5, 8, 5) :=
  frameX_compute 11 16 E2 (5 + 1) ((5 : Nat) : Int) (9 : Int) 4 5 (5, 8, 5)
    frv_5_m5 frv_5_m3 (by decide)

theorem frx_5 : frameX 11 16 E2 (4 + 1) ((5 : Nat) : Int) (8 : Int) = (5, 7, 5) :=
  frameX_compute 11 16 E2 (4 + 1) ((5 : Nat) : Int) (8 : Int) 4 5 (5, 7, 5)
    frv_4_m4 frv_4_m2 (by decide)

theorem frx_4 : frameX 11 16 E2 (3 + 1) ((5 : Nat) : Int) (7 : Int) = (4, 7, 5) :=
  frameX_compute 11 16 E2 (3 + 1) ((5 : Nat) : Int) (7 : Int) 4 3 (4, 7, 5)
    frv_3_m3 frv_3_m1 (by decide)

theorem frx_3 : frameX 11 16 E2 (2 + 1) ((4 : Nat) : Int) (7 : Int) = (2, 4, 2) :=
  (frameX_low 11 16 E2 (2 + 1) ((4 : Nat) : Int) (7 : Int) (by decide) 2
    frv_2_m2).trans (by decide)

theorem frx_2 : frameX 11 16 E2 (1 + 1) ((2 : Nat) : Int) (4 : Int) = (2, 3, 2) :=
  (frameX_low 11 16 E2 (1 + 1) ((2 : Nat) : Int) (4 : Int) (by decide) 2
    frv_1_m1).trans (by decide)

theorem frx_1 : frameX 11 16 E2 (0 + 1) ((2 : Nat) : Int) (3 : Int) = (2, 2, 2) :=
  (frameX_low 11 16 E2 (0 + 1) ((2 : Nat) : Int) (3 : Int) (by decide) 2
    frv_0_0).trans (by decide)

theorem frx_0 : frameX 11 16 E2 0 ((2 : Nat) : Int) (2 : Int) = (0, -1, 0) :=
  (frameX_low 11 16 E2 0 ((2 : Nat) : Int) (2 : Int) (by decide) 0
    rfl).trans (by decide)

theorem trv_0 : commonTraceT 11 16 E2 13 0 ((2 : Nat) : Int) (2 : Int) =
    [(0, (0, 0, 2))] := by
  refine (commonTraceT_zero 13 ((2 : Nat) : Int) (2 : Int)).trans ?_
  rw [frx_0]
  decide

theorem trv_1 : commonTraceT 11 16 E2 13 1 ((2 : Nat) : Int) (3 : Int) =
    [(0, (0, 0, 2))] := by
  refine (commonTraceT_succ 13 0 ((2 : Nat) : Int) (3 : Int)).trans ?_
  rw [frx_1]
  rw [trv_0]
  decide

theorem trv_2 : commonTraceT 11 16 E2 13 2 ((2 : Nat) : Int) (4 : Int) =
    [(0, (0, 0, 2))] := by
  refine (commonTraceT_succ 13 1 ((2 : Nat) : Int) (4 : Int)).trans ?_
  rw [frx_2]
  rw [trv_1]
  decide

theorem trv_3 : commonTraceT 11 16 E2 13 3 ((4 : Nat) : Int) (7 : Int) =
    [(0, (0, 0, 2)), (3, (2, 5, 2))] := by
  refine (commonTraceT_succ 13 2 ((4 : Nat) : Int) (7 : Int)).trans ?_
  rw [frx_3]
  rw [trv_2]
  decide

theorem trv_4 : commonTraceT 11 16 E2 13 4 ((5 : Nat) : Int) (7 : Int) =
    [(0, (0, 0, 2)), (3, (2, 5, 2))] := by
  refine (commonTraceT_succ 13 3 ((5 : Nat) : Int) (7 : Int)).trans ?_
  rw [frx_4]
  rw [trv_3]
  decide

theorem trv_5 : commonTraceT 11 16 E2 13 5 ((5 : Nat) : Int) (8 : Int) =
    [(0, (0, 0, 2)), (3, (2, 5, 2))] := by
  refine (commonTraceT_succ 13 4 ((5 : Nat) : Int) (8 : Int)).trans ?_
  rw [frx_5]
  rw [trv_4]
  decide

theorem trv_6 : commonTraceT 11 16 E2 13 6 ((5 : Nat) : Int) (9 : Int) =
    [(0, (0, 0, 2)), (3, (2, 5, 2))] := by
  refine (commonTraceT_succ 13 5 ((5 : Nat) : Int) (9 : Int)).trans ?_
  rw [frx_6]
  rw [trv_5]
  decide

theorem trv_7 : commonTraceT 11 16 E2 13 7 ((7 : Nat) : Int) (12 : Int) =
    [(0, (0, 0, 2)), (3, (2, 5, 2)), (7, (5, 10, 2))] := by
  refine (commonTraceT_succ 13 6 ((7 : Nat) : Int) (12 : Int)).trans ?_
  rw [frx_7]
  rw [trv_6]
  decide

theorem trv_8 : commonTraceT 11 16 E2 13 8 ((8 : Nat) : Int) (12 : Int) =
    [(0, (0, 0, 2)), (3, (2, 5, 2)), (7, (5, 10, 2))] := by
  refine (commonTraceT_succ 13 7 ((8 : Nat) : Int) (12 : Int)).trans ?_
  rw [frx_8]
  rw [trv_7]
  decide

theorem trv_9 : commonTraceT 11 16 E2 13 9 ((9 : Nat) : Int) (12 : Int) =
    [(0, (0, 0, 2)), (3, (2, 5, 2)), (7, (5, 10, 2))] := by
  refine (commonTraceT_succ 13 8 ((9 : Nat) : Int) (12 : Int)).trans ?_
  rw [frx_9]
  rw [trv_8]
  decide

theorem trv_10 : commonTraceT 11 16 E2 13 10 ((9 : Nat) : Int) (13 : Int) =
    [(0, (0, 0, 2)), (3, (2, 5, 2)), (7, (5, 10, 2))] := by
  refine (commonTraceT_succ 13 9 ((9 : Nat) : Int) (13 : Int)).trans ?_
  rw [frx_10]
  rw [trv_9]
  decide

theorem trv_11 : commonTraceT 11 16 E2 13 11 ((9 : Nat) : Int) (14 : Int) =
    [(0, (0, 0, 2)), (3, (2, 5, 2)), (7, (5, 10, 2))] := by
  refine (commonTraceT_succ 13 10 ((9 : Nat) : Int) (14 : Int)).trans ?_
  rw [frx_11]
  rw [trv_10]
  decide

theorem trv_12 : commonTraceT 11 16 E2 13 12 ((10 : Nat) : Int) (16 : Int) =
    [(0, (0, 0, 2)), (3, (2, 5, 2)), (7, (5, 10, 2)), (12, (9, 15, 1))] := by
  refine (commonTraceT_succ 13 11 ((10 : Nat) : Int) (16 : Int)).trans ?_
  rw [frx_12]
  rw [trv_11]
  decide

theorem trv_13 : commonTraceT 11 16 E2 13 13 ((11 : Nat) : Int) ((16 : Nat) : Int) =
    [(0, (0, 0, 2)), (3, (2, 5, 2)), (7, (5, 10, 2)), (12, (9, 15, 1)), (13, (11, 16, 0))] := by
  refine (commonTraceT_succ 13 12 ((11 : Nat) : Int) ((16 : Nat) : Int)).trans ?_
  rw [frx_13]
  rw [trv_12]
  decide

end C2Fixture

/-! # The claims -/

section Claims

/-- C1: for every pair of sequences, presented through the protocol as
lengths `(n, m)` and elementwise equality `E`, `Diff` returns the minimum
number of single-element insertions and deletions needed to transform the
left sequence into the right one, namely `n + m` minus twice the length of
a longest common subsequence as computed by the reference
dynamic-programming definition `lcsLen`. -/
theorem claim_C1 (n m : Nat) (E : Int → Int → Bool) :
    DiffD n m E = some (n + m - 2 * lcsLen E n m) :=
  diffD_eq n m E

/-- C9: `Diff` terminates for every (pure, hence deterministic and
consistent) protocol: it returns the depth `d ≤ n + m` at which a diagonal
reaches `x ≥ n`, `y ≥ m`, and the `panic("diff: no path found")` branch
after the bounded search loop (modelled by the `none` result) is
unreachable. -/
theorem claim_C9 (n m : Nat) (E : Int → Int → Bool) :
    DiffD n m E ≠ none ∧ ∃ d : Nat, DiffD n m E = some d ∧ d ≤ n + m := by
  have h := diffD_eq n m E
  refine ⟨by rw [h]; exact Option.some_ne_none _, _, h, by omega⟩

/-- C3: the very last `Common` invocation always occurs and reports the
trailing run, ending exactly at `(n, m)`, even when it is empty; in
particular `Diff` on two empty sequences returns `0` with exactly one call
`Common(0, 0, 0)`, and whenever the left or the right sequence is empty,
`Diff` performs exactly one `Common` call, with `n = 0`. -/
theorem claim_C3 :
    (∀ E : Int → Int → Bool, DiffD 0 0 E = some 0 ∧
      diffTrace 0 0 E = [(0, 0, 0)]) ∧
    (∀ (n m : Nat) (E : Int → Int → Bool), n = 0 ∨ m = 0 →
      ∃ c : Int × Int × Int, diffTrace n m E = [c] ∧ c.2.2 = 0) ∧
    (∀ (n m : Nat) (E : Int → Int → Bool), ∃ l c,
      diffTrace n m E = l ++ [c] ∧ c.1 + c.2.2 = (n : Int) ∧
      c.2.1 + c.2.2 = (m : Int)) := by
  have key0 : ∀ (m : Nat) (E : Int → Int → Bool),
      diffTrace 0 m E = [(0, (m : Int), 0)] := by
    intro m E
    have hD : 0 + m - 2 * lcsLen E 0 m = m := by
      rw [lcsLen_zero_left]
      omega
    rw [diffTrace, diffD_eq, hD]
    dsimp only
    have h1 := trace_left0 (m := m) (E := E) m m le_rfl
    rw [if_pos rfl] at h1
    have h2 : commonTraceT 0 m E m m ((0 : Nat) : Int) ((m : Nat) : Int) =
        [(m, ((0 : Int), ((m : Nat) : Int), 0))] := by
      exact_mod_cast h1
    rw [h2]
    rfl
  have key0r : ∀ (n : Nat) (E : Int → Int → Bool),
      diffTrace n 0 E = [((n : Int), 0, 0)] := by
    intro n E
    have hD : n + 0 - 2 * lcsLen E n 0 = n := by
      rw [lcsLen_zero_right]
      omega
    rw [diffTrace, diffD_eq, hD]
    dsimp only
    have h1 := trace_right0 (n := n) (E := E) n n le_rfl
    rw [if_pos rfl] at h1
    have h2 : commonTraceT n 0 E n n ((n : Nat) : Int) ((0 : Nat) : Int) =
        [(n, (((n : Nat) : Int), (0 : Int), 0))] := by
      exact_mod_cast h1
    rw [h2]
    rfl
  refine ⟨?_, ?_, ?_⟩
  · intro E
    constructor
    · have h := diffD_eq 0 0 E
      rw [lcsLen_zero_left] at h
      exact h
    · have h := key0 0 E
      rw [h]
      norm_num
  · intro n m E hnm
    rcases hnm with rfl | rfl
    · exact ⟨(0, (m : Int), 0), key0 m E, rfl⟩
    · exact ⟨((n : Int), 0, 0), key0r n E, rfl⟩
  · intro n m E
    exact (diffTrace_props n m E).2.2.1

/-- Witness for C3: the left sequence empty, the right of length two. -/
theorem claim_C3_witness :
    (0 = 0 ∨ 2 = 0) ∧ ∃ c : Int × Int × Int,
      diffTrace 0 2 (fun _ _ => false) = [c] ∧ c.2.2 = 0 :=
  ⟨Or.inl rfl, claim_C3.2.1 0 2 (fun _ _ => false) (Or.inl rfl)⟩

/-- C5: the `Common` calls of a run of `Diff` are nonoverlapping matching
runs delivered in increasing order — each call starts at or after the end
of the previous one on both sides, stays inside the two sequences, and
matches elementwise under `E` — and for list inputs the reported runs
together with the gap elements between them reconstruct the left and the
right sequence exactly. -/
theorem claim_C5 :
    (∀ (n m : Nat) (E : Int → Int → Bool),
      diffTrace n m E ≠ [] ∧
      List.Pairwise (fun c c' => c.1 + c.2.2 ≤ c'.1 ∧ c.2.1 + c.2.2 ≤ c'.2.1)
        (diffTrace n m E) ∧
      (∀ c ∈ diffTrace n m E,
        0 ≤ c.1 ∧ 0 ≤ c.2.1 ∧ 0 ≤ c.2.2 ∧ c.1 + c.2.2 ≤ (n : Int) ∧
        c.2.1 + c.2.2 ≤ (m : Int) ∧
        ∀ t : Nat, (t : Int) < c.2.2 → E (c.1 + t) (c.2.1 + t) = true)) ∧
    (∀ (α : Type) [DecidableEq α] (a b : List α),
      reconLeft a (diffTrace a.length b.length (eqAt a b)) = a ∧
      reconRight b (diffTrace a.length b.length (eqAt a b)) = b) := by
  constructor
  · intro n m E
    obtain ⟨h1, h2, h3, -⟩ := diffTrace_props n m E
    refine ⟨?_, h2, ?_⟩
    · obtain ⟨l, c, hlc, -, -⟩ := h3
      rw [hlc]
      simp
    · intro c hc
      have h4 := h1 c hc
      exact ⟨h4.1, h4.2.1, h4.2.2.1, h4.2.2.2.1, h4.2.2.2.2.1,
        fun t ht => (h4.2.2.2.2.2 t ht).2.2⟩
  · intro α inst a b
    obtain ⟨h1, h2, h3, -⟩ := diffTrace_props a.length b.length (eqAt a b)
    constructor
    · apply reconLeft_eq
      · intro c hc
        have h4 := h1 c hc
        exact ⟨h4.1, h4.2.2.1⟩
      · exact List.Pairwise.imp (fun hab => hab.1) h2
      · obtain ⟨l, c, hlc, he1, he2⟩ := h3
        exact ⟨l, c, hlc, he1⟩
    · apply reconRight_eq
      · intro c hc
        have h4 := h1 c hc
        exact ⟨h4.2.1, h4.2.2.1⟩
      · exact List.Pairwise.imp (fun hab => hab.2) h2
      · obtain ⟨l, c, hlc, he1, he2⟩ := h3
        exact ⟨l, c, hlc, he2⟩

/-- Witness for C5: diffing `["a", "b"]` against `["b"]`, the reported run
`(1, 0, 1)` is in the trace, its element matches under the protocol's
equality, and both sequences are reconstructed. -/
theorem claim_C5_witness :
    ((1, 0, 1) ∈ diffTrace 2 1 (eqAt ["a", "b"] ["b"]) ∧
      eqAt ["a", "b"] ["b"] (1 + ((0 : Nat) : Int)) (0 + ((0 : Nat) : Int)) = true) ∧
    reconLeft ["a", "b"] (diffTrace 2 1 (eqAt ["a", "b"] ["b"])) = ["a", "b"] ∧
    reconRight ["b"] (diffTrace 2 1 (eqAt ["a", "b"] ["b"])) = ["b"] := by
  have hmem : (1, 0, 1) ∈ diffTrace 2 1 (eqAt ["a", "b"] ["b"]) := by decide
  refine ⟨⟨hmem, ?_⟩, ?_, ?_⟩
  · exact ((claim_C5.1 2 1 (eqAt ["a", "b"] ["b"])).2.2 (1, 0, 1) hmem).2.2.2.2.2
      0 (by decide)
  · exact (claim_C5.2 String ["a", "b"] ["b"]).1
  · exact (claim_C5.2 String ["a", "b"] ["b"]).2

/-- C4 counterexample: diffing an empty left sequence against a
one-element right sequence, the backtrace (total depth `len(vs)-1 = 1`,
started at `(0, 1)` as in source line 59) performs exactly one `Common`
call, and it is emitted by the frame at depth `1` — the depth-`0` frame
emits nothing.  The claim that the call of the depth-`0` frame always
fires is therefore false. -/
theorem claim_C4_counterexample :
    DiffD 0 1 (fun _ _ => false) = some 1 ∧
    commonTraceT 0 1 (fun _ _ => false) 1 1 0 1 ≠ [] ∧
    (∀ c ∈ commonTraceT 0 1 (fun _ _ => false) 1 1 0 1, c.1 ≠ 0) := by
  decide

/-- C4 amended: during the backtrace unwind of every `Diff` run it is the
call emitted by the outermost recursion frame — the one at depth
`d = len(vs) - 1` — that always fires, possibly with `n = 0`; as it is
emitted after the frame's recursive call it is chronologically the last
call, and this is what guarantees the last-call-always-fires contract
(the depth-`0` frame fires only when its run is nonempty or the total
depth is `0`). -/
theorem claim_C4_amended (n m : Nat) (E : Int → Int → Bool) {D : Nat}
    (hD : DiffD n m E = some D) :
    ∃ l c, commonTraceT n m E D D n m = l ++ [(D, c)] ∧ 0 ≤ c.2.2 ∧
      c.1 + c.2.2 = (n : Int) ∧ c.2.1 + c.2.2 = (m : Int) := by
  have hDv : D = n + m - 2 * lcsLen E n m := by
    have h := diffD_eq n m E
    rw [hD] at h
    exact Option.some.inj h
  subst hDv
  have hr := reaches_dmin n m E
  have habs := hr.absdiff
  obtain ⟨p, -, -, hcount⟩ := reaches_matching hr
  have hvk : ValidK (n + m - 2 * lcsLen E n m) ((n : Int) - m) := by
    simp only [ValidK]
    omega
  have hfrmax := fr_max (n + m - 2 * lcsLen E n m) ((n : Int) - m) hvk n
    (reaches_cast hr rfl (by ring) rfl)
  have hstep := step_le_of_not_found n m E hvk (found_min n m E)
  obtain ⟨m1, -, m3, -⟩ := trace_master n m E (n + m - 2 * lcsLen E n m)
    (n + m - 2 * lcsLen E n m) n m hvk hstep hfrmax
  obtain ⟨l, c, hlc, h1, h2⟩ := m3 rfl
  have hcmem : (n + m - 2 * lcsLen E n m, c) ∈
      commonTraceT n m E (n + m - 2 * lcsLen E n m)
        (n + m - 2 * lcsLen E n m) n m := by
    rw [hlc]
    simp
  have h4 := m1 _ hcmem
  exact ⟨l, c, hlc, h4.2.2.2.1, h1, h2⟩

/-- Witness for the amended C4, at the counterexample's own input. -/
theorem claim_C4_amended_witness :
    ∃ l c, commonTraceT 0 1 (fun _ _ => false) 1 1 0 1 = l ++ [(1, c)] ∧
      0 ≤ c.2.2 ∧ c.1 + c.2.2 = ((0 : Nat) : Int) ∧
      c.2.1 + c.2.2 = ((1 : Nat) : Int) :=
  claim_C4_amended 0 1 (fun _ _ => false) (by decide)

/-- C6 counterexample: for `left = "ab"`, `right = "ba"` (two LCSs of
length one exist), diffing left against right matches `left[1] = 'b'` with
`right[0] = 'b'`, and diffing right against left matches `right[1] = 'a'`
with `left[0] = 'a'`; the multiset of matched index pairs of one direction
is not the swap of the other. -/
theorem claim_C6_counterexample :
    ¬ ((matchedPairs 2 2 (eqAt (['a', 'b'] : List Char) ['b', 'a'])).Perm
        ((matchedPairs 2 2 (eqAt (['b', 'a'] : List Char) ['a', 'b'])).map
          Prod.swap)) := by
  decide

/-- C6 amended: diffing the two sequences in the swapped order yields the
same returned edit distance, and the same number of matched element pairs
(both directions report exactly one pair per element of a longest common
subsequence); but — as the counterexample shows — the multiset of matched
pairs itself need not be the swap of the other direction's when several
longest common subsequences exist. -/
theorem claim_C6_amended (n m : Nat) (E : Int → Int → Bool) :
    DiffD m n (swapE E) = DiffD n m E ∧
    (matchedPairs m n (swapE E)).length = (matchedPairs n m E).length ∧
    (matchedPairs n m E).length = lcsLen E n m := by
  have h1 := matchedPairs_length n m E
  have h2 := matchedPairs_length m n (swapE E)
  have h3 := lcsLen_swap E n m
  refine ⟨?_, by omega, h1⟩
  rw [diffD_eq, diffD_eq, h3]
  have : m + n - 2 * lcsLen E n m = n + m - 2 * lcsLen E n m := by omega
  rw [this]

/-- C10: every call `Diff` makes to the protocol's `Equal(x, y)` has
`0 ≤ x < n` and `0 ≤ y < m`, so protocol implementations that index their
slices without bounds checks are never queried out of range. -/
theorem claim_C10 (n m : Nat) (E : Int → Int → Bool) (D : Nat)
    (hD : DiffD n m E = some D) :
    ∀ p ∈ equalCalls n m E D,
      0 ≤ p.1 ∧ p.1 < (n : Int) ∧ 0 ≤ p.2 ∧ p.2 < (m : Int) := by
  intro p hp
  rw [equalCalls, List.mem_flatMap] at hp
  obtain ⟨d, hd, hp⟩ := hp
  rw [List.mem_range] at hd
  rw [List.mem_flatMap] at hp
  obtain ⟨i, hi, hp⟩ := hp
  rw [List.mem_range] at hi
  have hvk : ValidK d (-(d : Int) + 2 * i) := by
    simp only [ValidK]
    omega
  have hy := (fr_y_nonneg (n := n) (m := m) (E := E) d (-(d : Int) + 2 * i) hvk).1
  have h4 := snakeCalls_mem _ _ p hp
  have h5 := h4.1
  have h6 := h4.2.2.1
  exact ⟨by omega, h4.2.1, by omega, h4.2.2.2⟩

/-- Witness for C10: diffing two equal one-element sequences, the single
`Equal` call is `(0, 0)`, which is in range. -/
theorem claim_C10_witness :
    DiffD 1 1 (fun _ _ => true) = some 0 ∧
    ((0, 0) : Int × Int) ∈ equalCalls 1 1 (fun _ _ => true) 0 ∧
    (0 ≤ ((0, 0) : Int × Int).1 ∧ ((0, 0) : Int × Int).1 < ((1 : Nat) : Int) ∧
      0 ≤ ((0, 0) : Int × Int).2 ∧ ((0, 0) : Int × Int).2 < ((1 : Nat) : Int)) :=
  ⟨by decide, by decide,
    claim_C10 1 1 (fun _ _ => true) 0 (by decide) (0, 0) (by decide)⟩

/-- C7: on each gap between matched runs, `SideBySide` emits one line per
unmatched row: `Changed` while both sides still have unmatched rows
(paired positionally, one at a time, both cursors advancing), `Added` when
only the right side has rows remaining, `Deleted` when only the left does;
it emits one `NoChange` line per matched row (their total count is the LCS
length); and on the two documented examples it produces exactly the
expected line lists. -/
theorem claim_C7 :
    (∀ (a b : List String) (di dj : Nat) (i j : Int),
      (di : Int) < i → (dj : Int) < j →
      sbsGap a b di dj i j =
        (⟨a.getD di "", b.getD dj "", Changed⟩ :: (sbsGap a b (di + 1) (dj + 1) i j).1,
          (sbsGap a b (di + 1) (dj + 1) i j).2)) ∧
    (∀ (a b : List String) (di dj : Nat) (i j : Int),
      i ≤ (di : Int) →
      sbsGap a b di dj i j =
        ((List.range (j - (dj : Int)).toNat).map fun t => ⟨"", b.getD (dj + t) "", Added⟩,
          di, dj + (j - (dj : Int)).toNat)) ∧
    (∀ (a b : List String) (di dj : Nat) (i j : Int),
      j ≤ (dj : Int) →
      sbsGap a b di dj i j =
        ((List.range (i - (di : Int)).toNat).map fun t => ⟨a.getD (di + t) "", "", Deleted⟩,
          di + (i - (di : Int)).toNat, dj)) ∧
    (∀ (a b : List String),
      (SideBySide a b).countP (fun l => l.kind == NoChange) =
        lcsLen (eqAt a b) a.length b.length) ∧
    SideBySide ["a", "b"] ["a", "c"] =
      [⟨"a", "a", NoChange⟩, ⟨"b", "c", Changed⟩] ∧
    SideBySide ["a", "b"] ["a", "c", "b"] =
      [⟨"a", "a", NoChange⟩, ⟨"", "c", Added⟩, ⟨"b", "b", NoChange⟩] :=
  ⟨sbsGap_changed,
   fun a b di dj i j hi => sbsGap_added_aux a b _ di dj i j hi rfl,
   fun a b di dj i j hj => sbsGap_deleted_aux a b _ di dj i j hj rfl,
   sbs_nochange_count,
   by decide, by decide⟩

/-- Witness for C7: the three gap rules applied at concrete inputs — a
one-row `Changed` gap, a one-row `Added` gap, a one-row `Deleted` gap. -/
theorem claim_C7_witness :
    sbsGap ["u"] ["v"] 0 0 1 1 =
      (⟨"u", "v", Changed⟩ :: (sbsGap ["u"] ["v"] 1 1 1 1).1,
        (sbsGap ["u"] ["v"] 1 1 1 1).2) ∧
    sbsGap [] ["v"] 0 0 0 1 = ([⟨"", "v", Added⟩], 0, 1) ∧
    sbsGap ["u"] [] 0 0 1 0 = ([⟨"u", "", Deleted⟩], 1, 0) :=
  ⟨claim_C7.1 ["u"] ["v"] 0 0 1 1 (by decide) (by decide),
   claim_C7.2.1 [] ["v"] 0 0 0 1 (by decide),
   claim_C7.2.2.1 ["u"] [] 0 0 1 0 (by decide)⟩

/-- C8: `Annotate` emits a `(text, version)` pair for every right-only
unmatched row and copies the matched slices of the previous annotated
lines verbatim, dropping left-only rows: the texts of the output are
exactly the right sequence, and every output line either carries the new
version or is one of the previous annotated lines (with its original
version tag). -/
theorem claim_C8 (a : List AnnotatedLine) (b : List String) (version : Int) :
    (Annotate a b version).map AnnotatedLine.text = b ∧
    ∀ l ∈ Annotate a b version, l.version = version ∨ l ∈ a := by
  constructor
  · rw [Annotate]
    obtain ⟨h1, h2, h3, -⟩ :=
      diffTrace_props a.length b.length (eqAt (a.map AnnotatedLine.text) b)
    have hfold := annotate_fold_text a b version
      (diffTrace a.length b.length (eqAt (a.map AnnotatedLine.text) b)) 0 []
      (by omega)
      (fun c hc =>
        ⟨(h1 c hc).2.1, (h1 c hc).1, (h1 c hc).2.2.1, (h1 c hc).2.2.2.1,
         (h1 c hc).2.2.2.2.1, fun t ht => ((h1 c hc).2.2.2.2.2 t ht).2.2⟩)
      (h2.imp fun hcc => hcc.2)
      rfl
    rw [hfold]
    obtain ⟨l, c, htr, -, hend⟩ := h3
    rw [htr, List.foldl_append]
    simp only [List.foldl_cons, List.foldl_nil]
    rw [show (c.2.1 + c.2.2).toNat = b.length by omega]
    exact List.take_length b
  · intro l hl
    rw [Annotate] at hl
    exact annotate_fold_version a b version _ (0, [])
      (fun l' hl' => absurd hl' (List.not_mem_nil l')) l hl

/-- Witness for C8: annotating `["x", "y"]` against the single previously
annotated line `("x", 0)` at version `1` reproduces the right texts, and
the new line `("y", 1)` carries the new version. -/
theorem claim_C8_witness :
    (Annotate [⟨"x", 0⟩] ["x", "y"] 1).map AnnotatedLine.text = ["x", "y"] ∧
    ((AnnotatedLine.mk "y" 1).version = 1 ∨
      AnnotatedLine.mk "y" 1 ∈ ([⟨"x", 0⟩] : List AnnotatedLine)) :=
  ⟨(claim_C8 [⟨"x", 0⟩] ["x", "y"] 1).1,
   (claim_C8 [⟨"x", 0⟩] ["x", "y"] 1).2 (AnnotatedLine.mk "y" 1) (by decide)⟩

/-- C2: on the documented harder case `left = "abcdefghijk"`,
`right = "abxyzcdxyzfgxyzj"`, `Diff` returns 13, and the `Common(i, j, n)`
calls are exactly `(0,0,2), (2,5,2), (5,10,2), (9,15,1), (11,16,0)` — as
determined by the tie-break rule between the two neighboring diagonals —
whose left slices are `"ab", "cd", "fg", "j", ""` in that order, the final
call having `n = 0`. -/
theorem claim_C2 :
    DiffD 11 16 E2 = some 13 ∧
    diffTrace 11 16 E2 =
      [(0, 0, 2), (2, 5, 2), (5, 10, 2), (9, 15, 1), (11, 16, 0)] ∧
    (diffTrace 11 16 E2).map (fun c => sliceI strA c.1 c.2.2) =
      ["ab".toList, "cd".toList, "fg".toList, "j".toList, []] := by
  have htr : diffTrace 11 16 E2 =
      [(0, 0, 2), (2, 5, 2), (5, 10, 2), (9, 15, 1), (11, 16, 0)] := by
    rw [diffTrace, diffD_C2]
    dsimp only
    rw [trv_13]
    decide
  refine ⟨diffD_C2, htr, ?_⟩
  rw [htr]
  decide

end Claims

end DiffGo

